import Mathlib

/-!
Lobby server: admission, departure and inventory.

A shallow embedding of `processes-semaphores/server.c` (the realization with
worker processes, shared memory and a named semaphore) and theorems about its
lobby engine. The lobby engine of `threads-mutex/server.c` (the realization
with threads and a mutex) is embedded in the namespace `ThreadsMutex`; the code
that is the same text in both files (parsing, `resource_id`, the loops of
`read_inventory`, `remove_player` and of the broadcast) is embedded once.

Conventions of the embedding.

* A C `int` is a Lean `Int`; every arithmetic result that is stored in an `int`
  goes through `LibC.wrap32` (two's complement, 32 bits).
* A `char` buffer is a `List Char`; the C string in it is the part before the
  first NUL byte.
* The linked list `shm->game`, `->next`, ... together with the counter
  `shm->game_num` ("number of games") is one Lean list of `game_t`; the counter
  is its length, so game `n` (1-based) is the entry at index `n - 1`.
* The fixed arrays `players[MAX]`, `names[MAX][MAX]` and `inv[6]` are lists;
  an access outside `0 .. MAX-1` has no defined result.
* A call that the C standard leaves undefined, or a worker that dies inside the
  critical section, yields `Outcome.fault`.
* In `ThreadsMutex` the arrays come from `calloc`, laid out as the allocator of
  the build does (glibc, 64 bit): chunks of a multiple of 16 bytes, 32 at
  least, with a header of 8 bytes, one right behind the other in the order of
  the calls. A store past the end of a block lands in the next chunk; the
  model records which entries of `inv` it overwrites.
* Concurrent calls of `insert_player` in `ThreadsMutex` are a `machine`: the
  locals of each call, the static pointer of `strtok` and the globals. A
  schedule names, step by step, the call that runs next; a step is one
  statement that calls `strtok` (with the scan before it), or the whole section
  under the mutex.
-/

namespace LibC

/-- The `isspace` test of the C locale: space, `\t`, `\n`, `\v`, `\f`, `\r`. -/
def isspace (c : Char) : Bool :=
  c = ' ' || c = '\t' || c = '\n' || c = '\x0b' || c = '\x0c' || c = '\r'

/-- The `isdigit` test: `0` to `9`. -/
def isdigit (c : Char) : Bool :=
  decide (48 ≤ c.toNat) && decide (c.toNat ≤ 57)

/-- The C string stored in a buffer: the bytes before the first NUL. -/
def cstr (buf : List Char) : List Char :=
  buf.takeWhile (fun c => c != '\x00')

/-- Segments of a string between newline characters (empty segments kept). -/
def segments : List Char → List (List Char)
  | [] => [[]]
  | c :: cs =>
    if c = '\n' then [] :: segments cs
    else
      match segments cs with
      | [] => [[c]]
      | t :: ts => (c :: t) :: ts

/-- The successive results of `strtok(buf, "\n")`, `strtok(NULL, "\n")`, ...:
the maximal non-empty runs of characters other than the delimiter. An empty
list means that the first call already returns `NULL`. -/
def strtok (s : List Char) : List (List Char) :=
  (segments s).filter (fun t => !t.isEmpty)

/-- The conversion `%s`: skip white space, then take the maximal run of
non-white-space characters. `none` is an input failure (end of string before
any such character); otherwise the token and the unread rest. -/
def scan_s (s : List Char) : Option (List Char × List Char) :=
  match s.dropWhile isspace with
  | [] => none
  | c :: cs =>
    some ((c :: cs).takeWhile (fun x => !isspace x), (c :: cs).dropWhile (fun x => !isspace x))

/-- Value of a run of decimal digits. -/
def decimal (ds : List Char) : Nat :=
  ds.foldl (fun n c => 10 * n + (c.toNat - 48)) 0

/-- Two's complement wrap-around of a mathematical integer into a 32-bit `int`. -/
def wrap32 (v : Int) : Int :=
  (v + 2147483648) % 4294967296 - 2147483648

/-- The result of `strtol` on a 64-bit `long`: out-of-range values saturate. -/
def strtol_clamp (v : Int) : Int :=
  max (-9223372036854775808) (min 9223372036854775807 v)

/-- The conversion `%d` storing into an `int`: skip white space, an optional
sign, then at least one digit. The digits are converted as glibc does, through
`strtol` and a cast to `int`. `none` is an input or matching failure. -/
def scan_d (s : List Char) : Option Int :=
  match s.dropWhile isspace with
  | [] => none
  | c :: cs =>
    if c = '-' then
      (if cs.takeWhile isdigit = [] then none
       else some (wrap32 (strtol_clamp (-(decimal (cs.takeWhile isdigit) : Int)))))
    else if c = '+' then
      (if cs.takeWhile isdigit = [] then none
       else some (wrap32 (strtol_clamp (decimal (cs.takeWhile isdigit) : Int))))
    else
      (if (c :: cs).takeWhile isdigit = [] then none
       else some (wrap32 (strtol_clamp (decimal ((c :: cs).takeWhile isdigit) : Int))))

/-- What one call `sscanf(line, "%s\t%d", res, &num)` returns and assigns. -/
inductive scanned where
  /-- Returns `EOF`: input failure before the first conversion; nothing assigned. -/
  | eof
  /-- Returns 1: `res` assigned, `num` untouched. -/
  | one (res : List Char)
  /-- Returns 2: `res` and `num` assigned. -/
  | two (res : List Char) (num : Int)
deriving DecidableEq, Repr

/-- The call `sscanf(line, "%s\t%d", res, &num)`: `%s`, then the white-space
directive (any amount of white space, also none), then `%d`. -/
def sscanf_s_d (line : List Char) : scanned :=
  match scan_s line with
  | none => scanned.eof
  | some (res, rest) =>
    match scan_d (rest.dropWhile isspace) with
    | none => scanned.one res
    | some num => scanned.two res num

end LibC

namespace ProcessesSemaphores

open LibC

/-- The constant `MAX`: max size for small buffers. -/
def MAX : Nat := 16

/-- The constant `MAXBUF`: max size for large buffers. -/
def MAXBUF : Nat := 128

/-- One game (`struct game_t`): inventory, players' file descriptors, players'
names and the number of active players. The `next` pointer is the list order in
`shm_t`. -/
structure game_t where
  inv : List Int
  players : List Int
  names : List (List Char)
  active : Int
deriving DecidableEq, Repr

/-- The shared memory segment (`struct shm_t`): the list of games and the chat
mailbox. -/
structure shm_t where
  game : List game_t
  message : List Char
  client : Int
  gamenum : Int
deriving DecidableEq, Repr

/-- The globals that `main` sets from the command line. The inventory file is
given by the successive `(word, num)` pairs that `fscanf(fp, "%s\t%d\n", ...)`
reads from it. -/
structure config where
  maxplayers : Int
  inv_file : List (List Char × Int)
  quota : Int
deriving DecidableEq, Repr

/-- The counter `shm->game_num`: number of games. -/
def shm_t.game_num (s : shm_t) : Int := (s.game.length : Int)

/-- The function `get_game`: node `number` of the linked list. -/
def get_game (s : shm_t) (number : Int) : Option game_t :=
  if 1 ≤ number then s.game[(number - 1).toNat]? else none

/-- Store a game back at node `number` (writes through the pointer `g`). -/
def put_game (s : shm_t) (number : Int) (g : game_t) : shm_t :=
  { s with game := s.game.set (number - 1).toNat g }

/-- The function `resource_id`: hashing function for resources. -/
def resource_id (res : List Char) : Int :=
  if res = "gold".toList then 0
  else if res = "armor".toList then 1
  else if res = "ammo".toList then 2
  else if res = "lumber".toList then 3
  else if res = "magic".toList then 4
  else if res = "rock".toList then 5
  else -1

/-- The loop of `read_inventory` on the inventory array of the newest game:
each entry of the file overwrites one quantity; an unknown name ends the
process (`none`). -/
def read_inventory : List (List Char × Int) → List Int → Option (List Int)
  | [], inv => some inv
  | (word, num) :: rest, inv =>
    if resource_id word = -1 then none
    else read_inventory rest (inv.set (resource_id word).toNat num)

/-- A game as `init_server` and `insert_player` set it up before
`read_inventory`: zeroed memory, no player, no active player. -/
def blank_game : game_t :=
  { inv := List.replicate 6 0
    players := List.replicate MAX 0
    names := List.replicate MAX []
    active := 0 }

/-- The request parsed by the first part of `insert_player`: the flag `ok`,
the out-parameter `name`, the array `temp` and the total `sum`. -/
structure request where
  ok : Bool
  name : List Char
  temp : List Int
  sum : Int
deriving DecidableEq, Repr

/-- What one iteration of the loop `while (line && ok)` decides. -/
inductive line_result where
  /-- The flag `ok` is set to 0 (bad file, invalid resource or invalid number). -/
  | bad
  /-- The line counts: `num` units of the resource `res`, as the locals stand
  after the call of `sscanf`. -/
  | good (res : List Char) (num : Int)
  /-- No defined result: `res` overflows or an uninitialised local is read. -/
  | undefined
deriving DecidableEq, Repr

/-- One iteration of the loop `while (line && ok)` of `insert_player`, up to
the tests on `sscanf`'s return value, `resource_id(res)` and `num`. The locals
`res` and `num` are `none` while uninitialised and keep their last value when
`sscanf` assigns nothing. -/
def scan_line (line : List Char) (res : Option (List Char)) (num : Option Int) : line_result :=
  match sscanf_s_d line with
  | scanned.one r => if MAX ≤ r.length then line_result.undefined else line_result.bad
  | scanned.two r n =>
    if MAX ≤ r.length then line_result.undefined
    else if resource_id r < 0 ∨ n ≤ 0 then line_result.bad
    else line_result.good r n
  | scanned.eof =>
    match res, num with
    | some r, some n =>
      if resource_id r < 0 ∨ n ≤ 0 then line_result.bad else line_result.good r n
    | _, _ => line_result.undefined

/-- The loop `while (line && ok)` of `insert_player` over the remaining lines:
`temp[i] += num; sum += num;` for each line that counts. The result is
`(ok, temp, sum)`; `none` when an iteration has no defined result. -/
def scan_loop : List (List Char) → Option (List Char) → Option Int → List Int → Int →
    Option (Bool × List Int × Int)
  | [], _, _, temp, sum => some (true, temp, sum)
  | line :: rest, res, num, temp, sum =>
    match scan_line line res num with
    | line_result.undefined => none
    | line_result.bad => some (false, temp, sum)
    | line_result.good r n =>
      scan_loop rest (some r) (some n)
        (temp.set (resource_id r).toNat (wrap32 (temp.getD (resource_id r).toNat 0 + n)))
        (wrap32 (sum + n))

/-- The parsing part of `insert_player` on the bytes that `recv` stored in the
zeroed buffer `buf`: name line, then the resource lines. `none` when the buffer
is left without a terminating NUL, when `strtok` returns `NULL` for the first
line (passed to `sscanf`), when the name overflows `name[MAX]`, or when the
loop has no defined result. -/
def scan_request (recvd : List Char) : Option request :=
  if MAXBUF ≤ (cstr (recvd.take MAXBUF)).length then none
  else
    match strtok (cstr (recvd.take MAXBUF)) with
    | [] => none
    | line :: rest =>
      match scan_s line with
      | none => some { ok := false, name := [], temp := List.replicate 6 0, sum := 0 }
      | some (name, _) =>
        if MAX ≤ name.length then none
        else
          match scan_loop rest none none (List.replicate 6 0) 0 with
          | none => none
          | some (ok, temp, sum) => some { ok := ok, name := name, temp := temp, sum := sum }

/-- The loop `for (i=0; i<6; i++) if (g->inv[i] - temp[i] < 0) ok = 0;`:
true when no kind is short. The difference is taken in two's complement, as the
plain build computes it; it leaves the range of `int` only when `temp[i]` is
negative, that is after `temp[i] += num` has overflowed already, and a build
that compares `g->inv[i] < temp[i]` instead decides such a request the other
way. -/
def enough (inv temp : List Int) : Bool :=
  (List.range 6).all (fun i => !decide (wrap32 (inv.getD i 0 - temp.getD i 0) < 0))

/-- The loop `for (i=0; i<6; i++) g->inv[i] -= temp[i];`. -/
def deduct (inv temp : List Int) : List Int :=
  (List.range 6).foldl (fun v i => v.set i (wrap32 (v.getD i 0 - temp.getD i 0))) inv

/-- How a call of `insert_player` ends. -/
inductive Outcome where
  /-- The player is approved: `"OK\n"` is sent and `game_number` returned. -/
  | admitted (game_number : Int) (name : List Char) (s : shm_t)
  /-- The server disapproves: `"Try next time..\n"` is sent, the worker exits. -/
  | rejected (name : List Char) (s : shm_t)
  /-- The call `recv` returned 0: nothing is sent, the worker exits. -/
  | closed (s : shm_t)
  /-- No defined continuation. -/
  | fault
deriving DecidableEq, Repr

/-- The approved branch of `insert_player` on the open game `g`: the inventory
is decreased, name and file descriptor are stored at index `g->active`, and
`g->active` is incremented. -/
def seat (g : game_t) (cl : Int) (r : request) : game_t :=
  { inv := deduct g.inv r.temp
    players := g.players.set g.active.toNat cl
    names := g.names.set g.active.toNat r.name
    active := g.active + 1 }

/-- The next game as `insert_player` sets it up: a blank game whose inventory
`read_inventory` has filled in. -/
def next_game (inv : List Int) : game_t :=
  { blank_game with inv := inv }

/-- The part of `insert_player` between `sem_wait(sem_id)` and `sem_post(sem_id)`,
run as one step on the shared state `s` with the parsed request `r`. -/
def insert_section (cfg : config) (s : shm_t) (cl : Int) (r : request) : Outcome :=
  match get_game s s.game_num with
  | none => Outcome.fault
  | some g =>
    if r.ok && enough g.inv r.temp && !decide (r.sum > cfg.quota) then
      if 0 ≤ g.active ∧ g.active < MAX then
        if (seat g cl r).active ≥ cfg.maxplayers then
          match read_inventory cfg.inv_file blank_game.inv with
          | none => Outcome.fault
          | some inv =>
            Outcome.admitted s.game_num r.name
              { s with game := (put_game s s.game_num (seat g cl r)).game ++ [next_game inv] }
        else
          Outcome.admitted s.game_num r.name (put_game s s.game_num (seat g cl r))
      else Outcome.fault
    else Outcome.rejected r.name s

/-- The function `insert_player` for the connection `cl` whose `recv` delivered
the bytes `recvd` (none when `recv` returned 0), run on the shared state `s`. -/
def insert_player (cfg : config) (s : shm_t) (cl : Int) (recvd : List Char) : Outcome :=
  if recvd = [] then Outcome.closed s
  else
    match scan_request recvd with
    | none => Outcome.fault
    | some r => insert_section cfg s cl r

/-- The loop `for (i=0; i<maxplayers; i++) if (g->players[i] == cl) g->players[i] = 0;`
of `remove_player`. -/
def clear_slots (maxplayers : Int) (cl : Int) (players : List Int) : List Int :=
  (List.range maxplayers.toNat).foldl (fun ps i => if ps.getD i 0 = cl then ps.set i 0 else ps)
    players

/-- The function `remove_player`: clears every slot among the first
`maxplayers` of game `game_number` that holds the file descriptor `cl`. -/
def remove_player (cfg : config) (s : shm_t) (cl : Int) (game_number : Int) : Option shm_t :=
  match get_game s game_number with
  | none => none
  | some g =>
    some (put_game s game_number { g with players := clear_slots cfg.maxplayers cl g.players })

/-- The state that `init_server` builds: one game, no player, the inventory
read from the file. -/
def init_server (cfg : config) : Option shm_t :=
  match read_inventory cfg.inv_file blank_game.inv with
  | none => none
  | some inv =>
    some { game := [next_game inv], message := [], client := 0, gamenum := 0 }

/-- Where a worker process stands in `action`. -/
inductive stage where
  /-- In the loop `while(g->active < maxplayers)`. -/
  | waiting
  /-- In the loop `while (1)` (chatting), after `"START\n"`. -/
  | chatting
  /-- After `_exit`. -/
  | gone
deriving DecidableEq, Repr

/-- The locals of one worker process running `action`: its file descriptor,
the game number that `insert_player` returned, and the player's name. -/
structure worker where
  cl : Int
  game_number : Int
  name : List Char
  at_stage : stage
deriving DecidableEq, Repr

/-- The server: the shared memory, the workers that `insert_player` approved
(in order of approval), and a record of the approved requests: the game number
and the array `temp` of each. -/
structure server where
  shm : shm_t
  workers : List worker
  approved : List (Int × List Int)
deriving DecidableEq, Repr

/-- The array `temp` that `insert_player` builds from the received bytes. -/
def requested (recvd : List Char) : List Int :=
  match scan_request recvd with
  | some r => r.temp
  | none => List.replicate 6 0

/-- The test that ends the loop `while(g->active < maxplayers)` of `action`. -/
def game_full (cfg : config) (s : shm_t) (game_number : Int) : Bool :=
  match get_game s game_number with
  | some g => !decide (g.active < cfg.maxplayers)
  | none => false

/-- A game after one departure: the slots holding `cl` cleared, `active` decremented. -/
def departed (cfg : config) (cl : Int) (g : game_t) : game_t :=
  { g with players := clear_slots cfg.maxplayers cl g.players, active := wrap32 (g.active - 1) }

/-- The branch `if(!recv(cl, buf, MAXBUF, 0))` of `action`: `remove_player`,
then `g->active--`. -/
def action_leave (cfg : config) (s : shm_t) (cl : Int) (game_number : Int) : Option shm_t :=
  match remove_player cfg s cl game_number with
  | none => none
  | some s1 =>
    match get_game s1 game_number with
    | none => none
    | some g => some (put_game s1 game_number { g with active := wrap32 (g.active - 1) })

/-- The buffer `message` that `action` builds from `name` and the received
bytes: `name`, then `" : "`, then the text. `none` when `buf` is left without
a terminating NUL or the line overflows `message[MAXBUF]`. -/
def chat_line (name recvd : List Char) : Option (List Char) :=
  if MAXBUF ≤ (cstr (recvd.take MAXBUF)).length then none
  else if MAXBUF ≤ (name ++ " : ".toList ++ cstr (recvd.take MAXBUF)).length then none
  else some (name ++ " : ".toList ++ cstr (recvd.take MAXBUF))

/-- The chat part of `action`: the line goes to the mailbox of the shared
memory, with the sender and the sender's game. -/
def action_chat (s : shm_t) (cl : Int) (game_number : Int) (name recvd : List Char) :
    Option shm_t :=
  match chat_line name recvd with
  | none => none
  | some m => some { s with message := m, client := cl, gamenum := game_number }

/-- One atomic step of the server. -/
inductive event where
  /-- A new connection `cl` whose worker runs `insert_player` on the bytes received. -/
  | connect (cl : Int) (recvd : List Char)
  /-- Worker number `w` tests `g->active < maxplayers` in its waiting loop. -/
  | poll (w : Nat)
  /-- Worker number `w` receives chat bytes and posts them. -/
  | say (w : Nat) (recvd : List Char)
  /-- Worker number `w` reads end of stream in the chat loop and leaves. -/
  | hangup (w : Nat)
deriving DecidableEq, Repr

/-- One step of the server on an event; `none` when the event is no step of the
program in this state or the program has no defined continuation. -/
def step (cfg : config) (sys : server) : event → Option server
  | event.connect cl recvd =>
    match insert_player cfg sys.shm cl recvd with
    | Outcome.admitted game_number name s =>
      some { shm := s
             workers := sys.workers ++ [{ cl := cl, game_number := game_number, name := name,
                                          at_stage := stage.waiting }]
             approved := sys.approved ++ [(game_number, requested recvd)] }
    | Outcome.rejected _ s => some { sys with shm := s }
    | Outcome.closed s => some { sys with shm := s }
    | Outcome.fault => none
  | event.poll w =>
    match sys.workers[w]? with
    | none => none
    | some k =>
      if k.at_stage = stage.waiting then
        (if game_full cfg sys.shm k.game_number then
          some { sys with workers := sys.workers.set w { k with at_stage := stage.chatting } }
         else some sys)
      else none
  | event.say w recvd =>
    match sys.workers[w]? with
    | none => none
    | some k =>
      if k.at_stage = stage.chatting ∧ recvd ≠ [] then
        match action_chat sys.shm k.cl k.game_number k.name recvd with
        | none => none
        | some s => some { sys with shm := s }
      else none
  | event.hangup w =>
    match sys.workers[w]? with
    | none => none
    | some k =>
      if k.at_stage = stage.chatting then
        match action_leave cfg sys.shm k.cl k.game_number with
        | none => none
        | some s =>
          some { sys with shm := s, workers := sys.workers.set w { k with at_stage := stage.gone } }
      else none

/-- The server after `init_server`: no worker yet. -/
def boot (cfg : config) : Option server :=
  match init_server cfg with
  | none => none
  | some s => some { shm := s, workers := [], approved := [] }

/-- The server after a sequence of events, from `init_server` on. -/
def run (cfg : config) (evs : List event) : Option server :=
  evs.foldl (fun o e => o.bind (fun sys => step cfg sys e)) (boot cfg)

/-- The connection handles of the `connect` events, in order. -/
def handles : List event → List Int
  | [] => []
  | event.connect cl _ :: es => cl :: handles es
  | _ :: es => handles es

/-- The signed sum of the entries `temp[k]` of the approved requests of game
`j`, as `insert_player` deducts them. An entry is what the additions
`temp[i] += num` left in the `int`; after an overflow it is not the amount the
request asked for and can be negative. -/
def booked (approved : List (Int × List Int)) (j : Int) (k : Nat) : Int :=
  ((approved.filter (fun a => decide (a.1 = j))).map (fun a => a.2.getD k 0)).sum

/-- Number of approved requests of game `j`. -/
def admissions (approved : List (Int × List Int)) (j : Int) : Nat :=
  (approved.filter (fun a => decide (a.1 = j))).length

/-- Number of occupied slots of a game: the slots among the first `maxplayers`
whose file descriptor is not 0. -/
def occupied (cfg : config) (g : game_t) : Nat :=
  ((g.players.take cfg.maxplayers.toNat).filter (fun p => p != 0)).length

/-- What `show_info` prints for one game: the number after `GAME`, the names
under `Online players`, the flag `empty` (the notice `No online players..` is
printed), and the six lines of the inventory from `Gold` to `Rock`. -/
structure game_info where
  number : Int
  online : List (List Char)
  empty : Bool
  inventory : List Int
deriving DecidableEq, Repr

/-- The loop `for (j=0; j<maxplayers; j++) if (g->players[j]) printf("%s\n", g->names[j]);`
of `show_info`: the names printed, in order. -/
def show_players (cfg : config) (g : game_t) : List (List Char) :=
  (List.range cfg.maxplayers.toNat).foldl
    (fun out j => if g.players.getD j 0 ≠ 0 then out ++ [g.names.getD j []] else out) []

/-- The body of the outer loop of `show_info` for the game `g` with number `number`. -/
def show_game (cfg : config) (number : Int) (g : game_t) : game_info :=
  { number := number
    online := show_players cfg g
    empty := (show_players cfg g).isEmpty
    inventory := [g.inv.getD 0 0, g.inv.getD 1 0, g.inv.getD 2 0, g.inv.getD 3 0,
                  g.inv.getD 4 0, g.inv.getD 5 0] }

/-- The loop `for (i=0; i<shm->game_num; i++)` of `show_info`, from index `i`
on with `n` iterations left: `g = get_game(i+1)`, then the printing. -/
def show_loop (cfg : config) (s : shm_t) : Nat → Nat → Option (List game_info)
  | _, 0 => some []
  | i, n + 1 =>
    match get_game s ((i : Int) + 1) with
    | none => none
    | some g =>
      match show_loop cfg s (i + 1) n with
      | none => none
      | some rest => some (show_game cfg ((i : Int) + 1) g :: rest)

/-- The function `show_info` in the main process: what it prints, and the
shared memory after it. -/
def show_info (cfg : config) (s : shm_t) : Option (List game_info × shm_t) :=
  match show_loop cfg s 0 s.game_num.toNat with
  | none => none
  | some out => some (out, s)

/-- The snapshot entry of one lobby as the specification words it: the lobby
id, the names stored in the slots whose handle is set, in slot order, and the
live inventory. -/
def Snapshot_entry (cfg : config) (id : Int) (g : game_t) : game_info :=
  { number := id
    online := (((g.players.zip g.names).take cfg.maxplayers.toNat).filter
      (fun pn => pn.1 != 0)).map (fun pn => pn.2)
    empty := (((g.players.zip g.names).take cfg.maxplayers.toNat).filter
      (fun pn => pn.1 != 0)).isEmpty
    inventory := g.inv }

/-- The snapshot of the lobbies from id `id` on, in creation order. -/
def Snapshot_from (cfg : config) : Int → List game_t → List game_info
  | _, [] => []
  | id, g :: gs => Snapshot_entry cfg id g :: Snapshot_from cfg (id + 1) gs

/-- The operation `Snapshot()` of the specification: one entry per lobby, from
lobby 1 on in creation order. -/
def Snapshot (cfg : config) (s : shm_t) : List game_info :=
  Snapshot_from cfg 1 s.game

/-- The loop `for (i=0; i<maxplayers; i++)` of `send_msg` (and of the chat loop
of the thread realization): the file descriptors `send` is called on, in order. -/
def send_loop (cfg : config) (g : game_t) (cl : Int) : List Int :=
  (List.range cfg.maxplayers.toNat).foldl
    (fun out i =>
      if g.players.getD i 0 ≠ 0 ∧ g.players.getD i 0 ≠ cl then out ++ [g.players.getD i 0]
      else out) []

/-- The function `send_msg` in the main process: the calls of `send`, each with
its file descriptor and the message of the mailbox. -/
def send_msg (cfg : config) (s : shm_t) : Option (List (Int × List Char)) :=
  match get_game s s.gamenum with
  | none => none
  | some g => some ((send_loop cfg g s.client).map (fun fd => (fd, s.message)))

/-- The slot invariant of the data model: within a game the occupied slots hold
pairwise different handles, and no handle of an occupied slot is stored in
another game. -/
def handles_unique (cfg : config) (s : shm_t) : Prop :=
  (∀ g ∈ s.game, ((g.players.take cfg.maxplayers.toNat).filter (fun p => p != 0)).Nodup) ∧
  s.game.Pairwise (fun g g1 => ∀ h ∈ g.players.take cfg.maxplayers.toNat, h ≠ 0 →
    h ∉ g1.players.take cfg.maxplayers.toNat)

/-- Entries of an `int` array all lie in the range of an `int`. -/
def int_array (l : List Int) : Prop :=
  ∀ k, -2147483648 ≤ l.getD k 0 ∧ l.getD k 0 < 2147483648

/-- The inventory invariant of the server against the template `tpl`: every
approved request names an existing game, and in every game each live quantity
is a non-negative `int` that, added to the entries of `temp` booked on that
game, gives the template quantity. -/
def stock_ok (tpl : List Int) (sys : server) : Prop :=
  (∀ a ∈ sys.approved, a.1 ≤ (sys.shm.game.length : Int)) ∧
  ∀ (i : Nat) (g : game_t), sys.shm.game[i]? = some g →
    g.inv.length = 6 ∧ ∀ k, k < 6 →
      0 ≤ g.inv.getD k 0 ∧ g.inv.getD k 0 < 2147483648 ∧
      g.inv.getD k 0 + booked sys.approved ((i : Int) + 1) k = tpl.getD k 0

/-- The seats invariant for the game at index `i` of `len` games: the arrays
have `MAX` entries, `active` counts the occupied slots, the occupied slots hold
pairwise different handles that were all used by a connection, the newest game
is filled from slot 0 up to `active` and is not full, and the number of
approved requests of the game is `active` for the newest game and `maxplayers`
for the others. -/
def game_ok (cfg : config) (used : List Int) (approved : List (Int × List Int)) (len : Nat)
    (i : Nat) (g : game_t) : Prop :=
  g.players.length = MAX ∧ g.names.length = MAX ∧
  g.active = (occupied cfg g : Int) ∧
  ((g.players.take cfg.maxplayers.toNat).filter (fun p => p != 0)).Nodup ∧
  (∀ p ∈ g.players.take cfg.maxplayers.toNat, p ≠ 0 → p ∈ used) ∧
  (i + 1 = len → g.active < cfg.maxplayers ∧
    ∀ x, x < MAX → (g.players.getD x 0 ≠ 0 ↔ (x : Int) < g.active)) ∧
  (admissions approved ((i : Int) + 1) : Int) = if i + 1 = len then g.active else cfg.maxplayers

/-- The seats invariant for one worker: its handle is a used, non-zero one;
until it leaves, the handle sits in a slot of its game; and once it chats,
its game is not the newest one. -/
def worker_ok (cfg : config) (used : List Int) (s : shm_t) (k : worker) : Prop :=
  k.cl ≠ 0 ∧ k.cl ∈ used ∧
  (k.at_stage ≠ stage.gone → ∃ (i : Nat) (g : game_t), k.game_number = (i : Int) + 1 ∧
    s.game[i]? = some g ∧ k.cl ∈ g.players.take cfg.maxplayers.toNat) ∧
  (k.at_stage = stage.chatting → k.game_number < s.game_num)

/-- The seats invariant of the server, against the handles `used` so far. -/
def seats_ok (cfg : config) (used : List Int) (sys : server) : Prop :=
  sys.shm.game ≠ [] ∧
  (∀ a ∈ sys.approved, 1 ≤ a.1 ∧ a.1 ≤ (sys.shm.game.length : Int)) ∧
  (∀ (i : Nat) (g : game_t), sys.shm.game[i]? = some g →
    game_ok cfg used sys.approved sys.shm.game.length i g) ∧
  (∀ (w : Nat) (k : worker), sys.workers[w]? = some k → worker_ok cfg used sys.shm k) ∧
  (∀ (a b : Nat) (ka kb : worker), sys.workers[a]? = some ka → sys.workers[b]? = some kb →
    ka.cl = kb.cl → a = b)

/-- The newest game is not full, and a worker that chats belongs to an older
game: the part of the seats invariant that needs no assumption on handles. -/
def open_ok (cfg : config) (sys : server) : Prop :=
  (∀ g : game_t, sys.shm.game[sys.shm.game.length - 1]? = some g → g.active < cfg.maxplayers) ∧
  (∀ (w : Nat) (k : worker), sys.workers[w]? = some k → k.at_stage = stage.chatting →
    k.game_number < sys.shm.game_num)

/-- The newest game is filled from slot 0 up to `active`: its arrays have `MAX`
entries and a slot holds a file descriptor exactly when its index is below
`active`. -/
def fill_ok (sys : server) : Prop :=
  ∀ g : game_t, sys.shm.game[sys.shm.game.length - 1]? = some g →
    g.players.length = MAX ∧ g.names.length = MAX ∧
    ∀ x, x < MAX → (g.players.getD x 0 ≠ 0 ↔ (x : Int) < g.active)

/-- Every worker that has not left sits in a slot of its game: one of the first
`maxplayers` slots holds its file descriptor, and the entry of `names` at the
same index is its name. -/
def names_ok (cfg : config) (sys : server) : Prop :=
  ∀ (w : Nat) (k : worker), sys.workers[w]? = some k → k.at_stage ≠ stage.gone →
    ∃ (i : Nat) (g : game_t) (x : Nat), k.game_number = (i : Int) + 1 ∧
      sys.shm.game[i]? = some g ∧ x < cfg.maxplayers.toNat ∧
      g.players[x]? = some k.cl ∧ g.names[x]? = some k.name

/-- The server `sys2` is a later state of `sys`: no game was unlinked from the
list, and every worker of `sys` is still there under the same index, with its
file descriptor, game number and name, and has not gone back to the waiting
loop if it had left it. -/
def later_of (sys sys2 : server) : Prop :=
  sys.shm.game.length ≤ sys2.shm.game.length ∧
  ∀ (w : Nat) (k : worker), sys.workers[w]? = some k →
    ∃ k2, sys2.workers[w]? = some k2 ∧ k2.cl = k.cl ∧ k2.game_number = k.game_number ∧
      k2.name = k.name ∧ (k.at_stage ≠ stage.waiting → k2.at_stage ≠ stage.waiting)

/-- Scenario A of the specification: capacity 2, quota 10, template gold:5. -/
def scenario_cfg : config :=
  { maxplayers := 2, inv_file := [("gold".toList, 5)], quota := 10 }

/-- Scenario A: X asks gold:3, Y asks gold:3, Z asks gold:2; X and Z see the
game start, X says hello and then leaves. -/
def scenario_events : List event :=
  [event.connect 4 "X\ngold\t3\n".toList, event.connect 5 "Y\ngold\t3\n".toList,
   event.connect 6 "Z\ngold\t2\n".toList, event.poll 0, event.poll 1,
   event.say 0 "hello".toList, event.hangup 0]

/-- The first game at the end of scenario A. -/
def scenario_game : game_t :=
  { inv := [0, 0, 0, 0, 0, 0]
    players := [0, 6, 0, 0, 0, 0, 0, 0, 0, 0, 0, 0, 0, 0, 0, 0]
    names := [['X'], ['Z'], [], [], [], [], [], [], [], [], [], [], [], [], [], []]
    active := 1 }

/-- The server at the end of scenario A. -/
def scenario_end : server :=
  { shm :=
      { game := [scenario_game, next_game [5, 0, 0, 0, 0, 0]]
        message := "X : hello".toList
        client := 4
        gamenum := 1 }
    workers :=
      [{ cl := 4, game_number := 1, name := ['X'], at_stage := stage.gone },
       { cl := 6, game_number := 1, name := ['Z'], at_stage := stage.chatting }]
    approved := [(1, [3, 0, 0, 0, 0, 0]), (1, [2, 0, 0, 0, 0, 0])] }

/-- The server in scenario A after X was approved and Y disapproved. -/
def scenario_mid : server :=
  { shm :=
      { game :=
          [{ inv := [2, 0, 0, 0, 0, 0]
             players := [4, 0, 0, 0, 0, 0, 0, 0, 0, 0, 0, 0, 0, 0, 0, 0]
             names := [['X'], [], [], [], [], [], [], [], [], [], [], [], [], [], [], []]
             active := 1 }]
        message := []
        client := 0
        gamenum := 0 }
    workers := [{ cl := 4, game_number := 1, name := ['X'], at_stage := stage.waiting }]
    approved := [(1, [3, 0, 0, 0, 0, 0])] }

/-- The shared memory in scenario A right after Z was approved. -/
def scenario_started : shm_t :=
  { game :=
      [{ inv := [0, 0, 0, 0, 0, 0]
         players := [4, 6, 0, 0, 0, 0, 0, 0, 0, 0, 0, 0, 0, 0, 0, 0]
         names := [['X'], ['Z'], [], [], [], [], [], [], [], [], [], [], [], [], [], []]
         active := 2 },
       next_game [5, 0, 0, 0, 0, 0]]
    message := []
    client := 0
    gamenum := 0 }

/-- The server in scenario A after X said hello, before X leaves. -/
def scenario_said : server :=
  { shm := { scenario_started with message := "X : hello".toList, client := 4, gamenum := 1 }
    workers :=
      [{ cl := 4, game_number := 1, name := ['X'], at_stage := stage.chatting },
       { cl := 6, game_number := 1, name := ['Z'], at_stage := stage.chatting }]
    approved := [(1, [3, 0, 0, 0, 0, 0]), (1, [2, 0, 0, 0, 0, 0])] }

/-- Scenario B of the specification: quota 4, with gold:5 and armor:5 in stock. -/
def scenario_b_cfg : config :=
  { maxplayers := 2, inv_file := [("gold".toList, 5), ("armor".toList, 5)], quota := 4 }

/-- The shared memory of scenario B after `init_server`. -/
def scenario_b_shm : shm_t :=
  { game := [next_game [5, 5, 0, 0, 0, 0]], message := [], client := 0, gamenum := 0 }

/-- The first game of scenario B with the handle 4 seated under `name`, and
`gold` units of gold left. -/
def scenario_b_seated (name : List Char) (gold : Int) : shm_t :=
  { game :=
      [{ inv := [gold, 5, 0, 0, 0, 0]
         players := [4, 0, 0, 0, 0, 0, 0, 0, 0, 0, 0, 0, 0, 0, 0, 0]
         names := [name, [], [], [], [], [], [], [], [], [], [], [], [], [], [], []]
         active := 1 }]
    message := []
    client := 0
    gamenum := 0 }

/-- The first game of scenario A after X left, with a given value of `active`. -/
def scenario_left_game (active : Int) : game_t :=
  { inv := [0, 0, 0, 0, 0, 0]
    players := [0, 6, 0, 0, 0, 0, 0, 0, 0, 0, 0, 0, 0, 0, 0, 0]
    names := [['X'], ['Z'], [], [], [], [], [], [], [], [], [], [], [], [], [], []]
    active := active }

/-- The shared memory of scenario A after X left (no chat line posted). -/
def scenario_left (active : Int) : shm_t :=
  { game := [scenario_left_game active, next_game [5, 0, 0, 0, 0, 0]]
    message := []
    client := 0
    gamenum := 0 }

/-- The server in scenario A right after Z was approved: the first game is
full, X and Z are still in the waiting loop. -/
def scenario_full : server :=
  { shm := scenario_started
    workers :=
      [{ cl := 4, game_number := 1, name := ['X'], at_stage := stage.waiting },
       { cl := 6, game_number := 1, name := ['Z'], at_stage := stage.waiting }]
    approved := [(1, [3, 0, 0, 0, 0, 0]), (1, [2, 0, 0, 0, 0, 0])] }

/-- A variant of scenario A: X sees the game start and leaves before Z has
tested `g->active < maxplayers`; Z then tests it twice. -/
def scenario_stuck_events : List event :=
  [event.connect 4 "X\ngold\t3\n".toList, event.connect 5 "Y\ngold\t3\n".toList,
   event.connect 6 "Z\ngold\t2\n".toList, event.poll 0, event.hangup 0, event.poll 1,
   event.poll 1]

/-- The server at the end of the variant `scenario_stuck_events`: X is gone, Z
is still in the waiting loop of the first game, whose `active` is 1. -/
def scenario_stuck : server :=
  { shm := scenario_left 1
    workers :=
      [{ cl := 4, game_number := 1, name := ['X'], at_stage := stage.gone },
       { cl := 6, game_number := 1, name := ['Z'], at_stage := stage.waiting }]
    approved := [(1, [3, 0, 0, 0, 0, 0]), (1, [2, 0, 0, 0, 0, 0])] }

end ProcessesSemaphores

namespace ThreadsMutex

open LibC

/-- The size `sizeof(char)`. -/
def sizeof_char : Nat := 1

/-- The size `sizeof(char *)` of a pointer to `char` (8 bytes, LP64). -/
def sizeof_pointer : Nat := 8

/-- Size in bytes of the chunk that the allocator of the build (glibc, 64 bit)
takes for a request of `n` bytes: the request and a header of 8 bytes, rounded
up to a multiple of 16, and 32 at least. -/
def chunk_size (n : Nat) : Nat :=
  max 32 ((n + 8 + 15) / 16 * 16)

/-- One game (`struct game_t`) of the thread realization. The arrays are
blocks from `calloc`. The list `names` holds what the program stored through
`g->names[j]` for `j` below `maxplayers`: `NULL` (`none`) or a string; the
block behind the pointer `names` is shorter than that (`names_slots`). The
flag `inv_next` tells that the block of `inv` is the next chunk behind the
block of `names` (they were allocated in this order, one right after the
other); `stray` lists the entries of `inv` whose bytes a store through
`g->names[j]` has overwritten with half of an address. -/
structure game_t where
  inv : List Int
  players : List Int
  names : List (Option (List Char))
  active : Int
  inv_next : Bool
  stray : List Nat
deriving DecidableEq, Repr

/-- The globals `game` (the linked list) and `game_num` (its length). -/
structure state where
  game : List game_t
deriving DecidableEq, Repr

/-- The counter `game_num`: number of games. -/
def state.game_num (s : state) : Int := (s.game.length : Int)

/-- The function `get_game`: node `number` of the linked list. -/
def get_game (s : state) (number : Int) : Option game_t :=
  if 1 ≤ number then s.game[(number - 1).toNat]? else none

/-- Store a game back at node `number` (writes through the pointer `g`). -/
def put_game (s : state) (number : Int) (g : game_t) : state :=
  { s with game := s.game.set (number - 1).toNat g }

/-- Number of `char *` objects that the block `calloc(maxplayers, sizeof(char))`
behind `names` can take before the next chunk is touched: the bytes of the
chunk from behind its header up to the size field of the next chunk. -/
def names_slots (cfg : ProcessesSemaphores.config) : Nat :=
  (chunk_size (cfg.maxplayers.toNat * sizeof_char) - 8) / sizeof_pointer

/-- The first game as `init_server` allocates it, with the inventory that
`read_inventory` has filled in: `calloc (6, sizeof(int))`, then
`calloc (maxplayers, sizeof(int))`, then `calloc(maxplayers, sizeof(char))`.
The chunk behind the block of `names` is the one `fopen` takes in
`read_inventory` and `fclose` frees. -/
def first_game (cfg : ProcessesSemaphores.config) (inv : List Int) : game_t :=
  { inv := inv
    players := List.replicate cfg.maxplayers.toNat 0
    names := List.replicate cfg.maxplayers.toNat none
    active := 0
    inv_next := false
    stray := [] }

/-- A next game as `insert_player` allocates it, with the inventory that
`read_inventory` has filled in: `calloc (maxplayers, sizeof(int))`, then
`calloc(maxplayers, sizeof(char))`, then `calloc (6, sizeof(int))`, so the
block of `inv` is the chunk right behind the block of `names`. -/
def next_game (cfg : ProcessesSemaphores.config) (inv : List Int) : game_t :=
  { inv := inv
    players := List.replicate cfg.maxplayers.toNat 0
    names := List.replicate cfg.maxplayers.toNat none
    active := 0
    inv_next := true
    stray := [] }

/-- The state that `init_server` builds: one game, no player, the inventory
read from the file. -/
def init_server (cfg : ProcessesSemaphores.config) : Option state :=
  match ProcessesSemaphores.read_inventory cfg.inv_file (List.replicate 6 0) with
  | none => none
  | some inv => some { game := [first_game cfg inv] }

/-- How a call of `insert_player` ends. -/
inductive Outcome where
  /-- The player is approved: `"OK\n"` is sent and `game_number` returned. -/
  | admitted (game_number : Int) (name : List Char) (s : state)
  /-- The server disapproves: `"Try next time..\n"` is sent, the thread exits. -/
  | rejected (name : List Char) (s : state)
  /-- The call `recv` returned 0: nothing is sent, the thread exits. -/
  | closed (s : state)
  /-- No defined continuation. -/
  | fault
deriving DecidableEq, Repr

/-- The entries of `inv` that the store `g->names[g->active] = ...` overwrites.
The store writes the 8 bytes at offset `8 * g->active` of the block of `names`.
Up to `names_slots` it stays in the block; at index `names_slots` it hits the
size field of the next chunk; and when that chunk is the block of `inv`, the
three indices after that cover `inv[0]` and `inv[1]`, `inv[2]` and `inv[3]`,
`inv[4]` and `inv[5]`. -/
def stray_words (cfg : ProcessesSemaphores.config) (g : game_t) : List Nat :=
  if g.inv_next = true ∧ names_slots cfg < g.active.toNat ∧ g.active.toNat ≤ names_slots cfg + 3 then
    [2 * (g.active.toNat - names_slots cfg - 1), 2 * (g.active.toNat - names_slots cfg - 1) + 1]
  else []

/-- The approved branch of `insert_player` on the open game `g`: the inventory
is decreased, the address of a fresh string with the name is stored through
`g->names[g->active]`, the file descriptor at `g->players[g->active]`, and
`g->active` is incremented. A store through `g->names[j]` behind the block of
`names` lands in the chunks that follow it; where these hold `inv`, the
entries hit are recorded in `stray`, and elsewhere (a size field, the chunk of
a closed file) no data of the games is touched. -/
def seat (cfg : ProcessesSemaphores.config) (g : game_t) (cl : Int)
    (r : ProcessesSemaphores.request) : game_t :=
  { inv := ProcessesSemaphores.deduct g.inv r.temp
    players := g.players.set g.active.toNat cl
    names := g.names.set g.active.toNat (some r.name)
    active := g.active + 1
    inv_next := g.inv_next
    stray := g.stray ++ stray_words cfg g }

/-- The part of `insert_player` between `pthread_mutex_lock(&mutex)` and
`pthread_mutex_unlock(&mutex)`, run as one step on the state `s` with the
parsed request `r`. There is no result in the model when the tests read an
entry of `inv` that holds half of an address (`stray`), or when `g->active` is
no index of `players`. -/
def insert_section (cfg : ProcessesSemaphores.config) (s : state) (cl : Int)
    (r : ProcessesSemaphores.request) : Outcome :=
  match get_game s s.game_num with
  | none => Outcome.fault
  | some g =>
    if g.stray ≠ [] then Outcome.fault
    else if r.ok && ProcessesSemaphores.enough g.inv r.temp && !decide (r.sum > cfg.quota) then
      if 0 ≤ g.active ∧ g.active.toNat < g.players.length then
        if (seat cfg g cl r).active ≥ cfg.maxplayers then
          match ProcessesSemaphores.read_inventory cfg.inv_file (List.replicate 6 0) with
          | none => Outcome.fault
          | some inv =>
            Outcome.admitted s.game_num r.name
              { game := (put_game s s.game_num (seat cfg g cl r)).game ++ [next_game cfg inv] }
        else
          Outcome.admitted s.game_num r.name (put_game s s.game_num (seat cfg g cl r))
      else Outcome.fault
    else Outcome.rejected r.name s

/-- The function `insert_player` for the connection `cl` whose `recv` delivered
the bytes `recvd` (none when `recv` returned 0), run on the state `s`. The
parsing part is the same text as in the process realization. -/
def insert_player (cfg : ProcessesSemaphores.config) (s : state) (cl : Int)
    (recvd : List Char) : Outcome :=
  if recvd = [] then Outcome.closed s
  else
    match ProcessesSemaphores.scan_request recvd with
    | none => Outcome.fault
    | some r => insert_section cfg s cl r

/-- The function `remove_player`: clears every slot among the first
`maxplayers` of game `game_number` that holds the file descriptor `cl`. -/
def remove_player (cfg : ProcessesSemaphores.config) (s : state) (cl : Int)
    (game_number : Int) : Option state :=
  match get_game s game_number with
  | none => none
  | some g =>
    some (put_game s game_number
      { g with players := ProcessesSemaphores.clear_slots cfg.maxplayers cl g.players })

/-- The loop `for (i=0; i<maxplayers; i++)` at the end of the chat loop of
`action`: the file descriptors `send` is called on, in order. -/
def send_loop (cfg : ProcessesSemaphores.config) (g : game_t) (cl : Int) : List Int :=
  (List.range cfg.maxplayers.toNat).foldl
    (fun out i =>
      if g.players.getD i 0 ≠ 0 ∧ g.players.getD i 0 ≠ cl then out ++ [g.players.getD i 0]
      else out) []

/-- A pointer into the buffer `buf` of a running call of `insert_player`: the
number of the call and the offset in its buffer. -/
structure pointer where
  owner : Nat
  offset : Nat
deriving DecidableEq, Repr

/-- The locals of one call of `insert_player` whose `recv` has returned, and
where the call stands: `pc` is 0 before `line = strtok (buf, ...)`, 1 before
the scan of the name, 2 at the test of the loop `while (line && ok)`, and 3
after the call, with its outcome in `result`. The pointer `line` is `none`
for `NULL`; the locals `res` and `num` are `none` while uninitialised. -/
structure frame where
  cl : Int
  buf : List Char
  line : Option pointer
  name : List Char
  ok : Bool
  res : Option (List Char)
  num : Option Int
  temp : List Int
  sum : Int
  pc : Nat
  result : Option Outcome
deriving DecidableEq, Repr

/-- The threads of the server that run `insert_player`, the static pointer
that `strtok` keeps between calls (one for the whole process), and the
globals. -/
structure machine where
  frames : List frame
  olds : Option pointer
  shared : state
deriving DecidableEq, Repr

/-- The call of `insert_player` on the connection `cl` right after
`memset(buf, 0, MAXBUF)` and a `recv` that delivered the bytes `recvd`. -/
def enter (cl : Int) (recvd : List Char) : frame :=
  { cl := cl
    buf := recvd.take ProcessesSemaphores.MAXBUF ++
      List.replicate (ProcessesSemaphores.MAXBUF - recvd.length) (Char.ofNat 0)
    line := none
    name := []
    ok := true
    res := none
    num := none
    temp := List.replicate 6 0
    sum := 0
    pc := 0
    result := none }

/-- The C string at a pointer; `none` when the pointer is outside the buffers
or no NUL byte follows in the buffer. -/
def string_at (frames : List frame) (p : pointer) : Option (List Char) :=
  match frames[p.owner]? with
  | none => none
  | some f =>
    if (f.buf.drop p.offset).all (fun c => c != Char.ofNat 0) then none
    else some (cstr (f.buf.drop p.offset))

/-- A frame after the store of a NUL byte at offset `e` of its buffer. -/
def poke (f : frame) (e : Nat) : frame :=
  { f with buf := f.buf.set e (Char.ofNat 0) }

/-- The call `strtok (s, "\n")` of the C library, with `s = NULL` for `none`:
it resumes at the static pointer, skips newlines, ends the token at the next
newline by a NUL byte, and leaves the static pointer behind the token. The
result is the token (`none` for `NULL`) and the machine after the call; there
is no defined result when a byte outside the buffers is read. -/
def strtok_call (m : machine) (s : Option pointer) : Option (Option pointer × machine) :=
  match (match s with | some p => some p | none => m.olds) with
  | none => none
  | some p =>
    match m.frames[p.owner]? with
    | none => none
    | some f =>
      let tok := p.offset + ((f.buf.drop p.offset).takeWhile (fun c => c == '\n')).length
      match f.buf[tok]? with
      | none => none
      | some c =>
        if c = Char.ofNat 0 then some (none, { m with olds := some ⟨p.owner, tok⟩ })
        else
          let e := tok +
            ((f.buf.drop tok).takeWhile (fun c => c != '\n' && c != Char.ofNat 0)).length
          match f.buf[e]? with
          | none => none
          | some d =>
            if d = Char.ofNat 0 then
              some (some ⟨p.owner, tok⟩, { m with olds := some ⟨p.owner, e⟩ })
            else
              some (some ⟨p.owner, tok⟩,
                { m with frames := m.frames.set p.owner (poke f e), olds := some ⟨p.owner, e + 1⟩ })

/-- Store the locals of call `t` back. -/
def put_frame (m : machine) (t : Nat) (f : frame) : machine :=
  { m with frames := m.frames.set t f }

/-- The statement `line = strtok (NULL, "\n")` of call `t`, whose other locals
are already as in `f`. -/
def next_line (m : machine) (t : Nat) (f : frame) : Option machine :=
  match strtok_call (put_frame m t f) none with
  | none => none
  | some (l, m1) =>
    match m1.frames[t]? with
    | none => none
    | some f1 => some (put_frame m1 t { f1 with line := l })

/-- The statements `temp[i] += num; sum += num;` on the locals, for the
resource `r` and the amount `n`, or `ok = 0` when the resource or the amount
is invalid. -/
def count_line (f : frame) (r : List Char) (n : Int) : frame :=
  if ProcessesSemaphores.resource_id r < 0 ∨ n ≤ 0 then
    { f with res := some r, num := some n, ok := false }
  else
    { f with
      res := some r
      num := some n
      temp := f.temp.set (ProcessesSemaphores.resource_id r).toNat
        (wrap32 (f.temp.getD (ProcessesSemaphores.resource_id r).toNat 0 + n))
      sum := wrap32 (f.sum + n) }

/-- The end of a call of `insert_player`: the part between
`pthread_mutex_lock(&mutex)` and `pthread_mutex_unlock(&mutex)` on the globals,
with the request that the locals hold. -/
def locked_section (cfg : ProcessesSemaphores.config) (m : machine) (t : Nat) (f : frame) :
    Option machine :=
  match insert_section cfg m.shared f.cl
      { ok := f.ok, name := f.name, temp := f.temp, sum := f.sum } with
  | Outcome.fault => none
  | Outcome.admitted gn nm s =>
    some { put_frame m t { f with pc := 3, result := some (Outcome.admitted gn nm s) }
           with shared := s }
  | Outcome.rejected nm s =>
    some (put_frame m t { f with pc := 3, result := some (Outcome.rejected nm s) })
  | Outcome.closed s =>
    some (put_frame m t { f with pc := 3, result := some (Outcome.closed s) })

/-- One step of call `t` of `insert_player`, taken without interruption by the
other threads: the first `strtok`; the scan of the name with the `strtok` that
follows it; one iteration of the loop `while (line && ok)`; or, when the loop
is over, the locked section. `none` when the call has ended or the step has no
defined result. -/
def step (cfg : ProcessesSemaphores.config) (m : machine) (t : Nat) : Option machine :=
  match m.frames[t]? with
  | none => none
  | some f =>
    if f.pc = 0 then
      match strtok_call m (some ⟨t, 0⟩) with
      | none => none
      | some (l, m1) =>
        match m1.frames[t]? with
        | none => none
        | some f1 => some (put_frame m1 t { f1 with line := l, pc := 1 })
    else if f.pc = 1 then
      match f.line with
      | none => none
      | some p =>
        match string_at m.frames p with
        | none => none
        | some str =>
          match scan_s str with
          | none => some (put_frame m t { f with ok := false, pc := 2 })
          | some (nm, _) =>
            if ProcessesSemaphores.MAX ≤ nm.length then none
            else next_line m t { f with name := nm, pc := 2 }
    else if f.pc = 2 then
      match f.line with
      | none => locked_section cfg m t f
      | some p =>
        if f.ok then
          match string_at m.frames p with
          | none => none
          | some str =>
            match sscanf_s_d str with
            | scanned.one r =>
              if ProcessesSemaphores.MAX ≤ r.length then none
              else some (put_frame m t { f with res := some r, ok := false })
            | scanned.two r n =>
              if ProcessesSemaphores.MAX ≤ r.length then none
              else next_line m t (count_line f r n)
            | scanned.eof =>
              match f.res, f.num with
              | some r, some n => next_line m t (count_line f r n)
              | _, _ => none
        else locked_section cfg m t f
    else none

/-- The machine after the steps of a schedule: each entry names the call that
takes the next step. -/
def run_schedule (cfg : ProcessesSemaphores.config) (m : machine) (sched : List Nat) :
    Option machine :=
  sched.foldl (fun o t => o.bind (fun m1 => step cfg m1 t)) (some m)

/-- The outcomes of the calls of a machine, in the order of the calls. -/
def results (m : machine) : List (Option Outcome) :=
  m.frames.map (fun f => f.result)

/-- The configuration of the race example: capacity 16, template gold:5,
quota 10. -/
def race_cfg : ProcessesSemaphores.config :=
  { maxplayers := 16, inv_file := [("gold".toList, 5)], quota := 10 }

/-- The first game of the race example with `gold` units of gold left and one
player: the first slot holds the handle `cl` under `name`. -/
def race_game (gold : Int) (cl : Int) (name : List Char) : game_t :=
  { inv := [gold, 0, 0, 0, 0, 0]
    players := [cl, 0, 0, 0, 0, 0, 0, 0, 0, 0, 0, 0, 0, 0, 0, 0]
    names := [some name, none, none, none, none, none, none, none, none, none, none, none,
              none, none, none, none]
    active := 1
    inv_next := false
    stray := [] }

/-- The race example: the connection 4 has sent X, gold:1 and the connection 5
has sent Y, gold:9; both calls of `insert_player` have received their bytes. -/
def race_start : machine :=
  { frames := [enter 4 "X\ngold\t1\n".toList, enter 5 "Y\ngold\t9\n".toList]
    olds := none
    shared := { game := [first_game race_cfg [5, 0, 0, 0, 0, 0]] } }

/-- The outcome of `insert_player` on each of a list of connections, one call
after the other, from the state `s` on: the game number returned (`none` when
the server disapproves or the connection is closed) and the state in the end. -/
def admit_all (cfg : ProcessesSemaphores.config) :
    state → List (Int × List Char) → Option (List (Option Int) × state)
  | s, [] => some ([], s)
  | s, (cl, recvd) :: rest =>
    match insert_player cfg s cl recvd with
    | Outcome.fault => none
    | Outcome.admitted gn _ s1 =>
      (admit_all cfg s1 rest).map (fun p => (some gn :: p.1, p.2))
    | Outcome.rejected _ s1 => (admit_all cfg s1 rest).map (fun p => (none :: p.1, p.2))
    | Outcome.closed s1 => (admit_all cfg s1 rest).map (fun p => (none :: p.1, p.2))

/-- The configuration of the example of ten players: capacity 5, template
gold:5, quota 10. -/
def ten_cfg : ProcessesSemaphores.config :=
  { maxplayers := 5, inv_file := [("gold".toList, 5)], quota := 10 }

/-- The example of ten players: the connections 4 to 13, each sending a name
and no resource line. -/
def ten_players : List (Int × List Char) :=
  [(4, "A\n".toList), (5, "B\n".toList), (6, "C\n".toList), (7, "D\n".toList),
   (8, "E\n".toList), (9, "F\n".toList), (10, "G\n".toList), (11, "H\n".toList),
   (12, "I\n".toList), (13, "J\n".toList)]

end ThreadsMutex

/-! ## Theorems -/

namespace LibC

theorem wrap32_range (v : Int) : -2147483648 ≤ wrap32 v ∧ wrap32 v < 2147483648 := by
  unfold wrap32; omega

theorem wrap32_id {v : Int} (h1 : -2147483648 ≤ v) (h2 : v < 2147483648) : wrap32 v = v := by
  unfold wrap32; omega

theorem wrap32_sub_exact {a b : Int} (ha : 0 ≤ a) (ha2 : a < 2147483648)
    (hb : -2147483648 ≤ b) (hb2 : b < 2147483648) (h : ¬ wrap32 (a - b) < 0) :
    wrap32 (a - b) = a - b := by
  unfold wrap32 at *; omega

end LibC

namespace ProcessesSemaphores
open LibC

theorem length6 {l : List Int} (h : l.length = 6) : ∃ a b c d e f, l = [a, b, c, d, e, f] := by
  match l, h with
  | [a, b, c, d, e, f], _ => exact ⟨a, b, c, d, e, f, rfl⟩

theorem deduct_length (inv temp : List Int) : (deduct inv temp).length = inv.length := by
  simp [deduct, List.range, List.range.loop]

theorem deduct_getD {inv temp : List Int} (h : inv.length = 6) {k : Nat} (hk : k < 6) :
    (deduct inv temp).getD k 0 = wrap32 (inv.getD k 0 - temp.getD k 0) := by
  obtain ⟨a, b, c, d, e, f, rfl⟩ := length6 h
  interval_cases k <;> simp [deduct, List.range, List.range.loop]

theorem enough_getD {inv temp : List Int} (h : enough inv temp = true) {k : Nat} (hk : k < 6) :
    ¬ wrap32 (inv.getD k 0 - temp.getD k 0) < 0 := by
  simp only [enough, List.all_eq_true, List.mem_range] at h
  simpa using h k hk

theorem int_array_replicate (n : Nat) : int_array (List.replicate n 0) := by
  intro k
  simp only [List.getD_eq_getElem?_getD, List.getElem?_replicate]
  split <;> simp

theorem int_array_set {l : List Int} (h : int_array l) (i : Nat) (v : Int) :
    int_array (l.set i (wrap32 v)) := by
  intro k
  have hk := h k
  have hv := wrap32_range v
  simp only [List.getD_eq_getElem?_getD, List.getElem?_set] at hk ⊢
  split
  · split
    · exact hv
    · rename_i h1 h2
      subst h1
      rw [List.getElem?_eq_none (by omega)] at hk
      exact hk
  · exact hk

theorem scan_loop_shape (lines : List (List Char)) :
    ∀ (res : Option (List Char)) (num : Option Int) (temp : List Int) (sum : Int)
      (ok : Bool) (temp1 : List Int) (sum1 : Int),
      scan_loop lines res num temp sum = some (ok, temp1, sum1) →
      temp.length = 6 → int_array temp → temp1.length = 6 ∧ int_array temp1 := by
  induction lines with
  | nil =>
    intro res num temp sum ok temp1 sum1 h hl hr
    simp only [scan_loop, Option.some.injEq, Prod.mk.injEq] at h
    obtain ⟨-, rfl, -⟩ := h
    exact ⟨hl, hr⟩
  | cons line rest ih =>
    intro res num temp sum ok temp1 sum1 h hl hr
    rw [scan_loop] at h
    split at h
    · exact absurd h (by simp)
    · simp only [Option.some.injEq, Prod.mk.injEq] at h
      obtain ⟨-, rfl, -⟩ := h
      exact ⟨hl, hr⟩
    · exact ih _ _ _ _ _ _ _ h (by simpa using hl) (int_array_set hr _ _)

theorem scan_request_shape {recvd : List Char} {r : request} (h : scan_request recvd = some r) :
    r.temp.length = 6 ∧ int_array r.temp := by
  unfold scan_request at h
  split at h
  · exact absurd h (by simp)
  · split at h
    · exact absurd h (by simp)
    · split at h
      · simp only [Option.some.injEq] at h
        subst h
        exact ⟨by simp, int_array_replicate 6⟩
      · split at h
        · exact absurd h (by simp)
        · split at h
          · exact absurd h (by simp)
          · rename_i hloop
            simp only [Option.some.injEq] at h
            subst h
            exact scan_loop_shape _ _ _ _ _ _ _ _ hloop (by simp) (int_array_replicate 6)

theorem requested_shape (recvd : List Char) :
    (requested recvd).length = 6 ∧ int_array (requested recvd) := by
  unfold requested
  split
  · rename_i r h
    exact scan_request_shape h
  · exact ⟨by simp, int_array_replicate 6⟩

theorem get_game_iff {s : shm_t} {j : Int} {g : game_t} :
    get_game s j = some g ↔ ∃ i : Nat, j = (i : Int) + 1 ∧ s.game[i]? = some g := by
  unfold get_game
  constructor
  · intro h
    split at h
    · refine ⟨(j - 1).toNat, by omega, h⟩
    · exact absurd h (by simp)
  · rintro ⟨i, rfl, h⟩
    have : ((i : Int) + 1 - 1).toNat = i := by omega
    simp [this, h]

theorem get_game_succ (s : shm_t) (i : Nat) : get_game s ((i : Int) + 1) = s.game[i]? := by
  unfold get_game
  have : ((i : Int) + 1 - 1).toNat = i := by omega
  simp [this]

theorem put_game_succ (s : shm_t) (i : Nat) (g : game_t) :
    put_game s ((i : Int) + 1) g = { s with game := s.game.set i g } := by
  unfold put_game
  have : ((i : Int) + 1 - 1).toNat = i := by omega
  rw [this]

theorem get_game_open {s : shm_t} {g : game_t} (h : get_game s s.game_num = some g) :
    ∃ pre, s.game = pre ++ [g] := by
  obtain ⟨i, hi, hg⟩ := get_game_iff.mp h
  unfold shm_t.game_num at hi
  rcases List.eq_nil_or_concat s.game with h0 | ⟨pre, x, hx⟩
  · rw [h0] at hg; simp at hg
  · refine ⟨pre, ?_⟩
    rw [List.concat_eq_append] at hx
    rw [hx] at hg hi
    simp only [List.length_append, List.length_singleton, Nat.cast_add, Nat.cast_one] at hi
    have hip : i = pre.length := by omega
    subst hip
    rw [List.getElem?_concat_length] at hg
    simp only [Option.some.injEq] at hg
    rw [hx, hg]

theorem put_game_open {s : shm_t} {pre : List game_t} {g : game_t} (h : s.game = pre ++ [g])
    (g1 : game_t) : (put_game s s.game_num g1).game = pre ++ [g1] := by
  unfold put_game shm_t.game_num
  simp only [h, List.length_append, List.length_singleton, Nat.cast_add, Nat.cast_one]
  have : ((pre.length : Int) + 1 - 1).toNat = pre.length := by omega
  rw [this]
  simp

/-- Inversion of an approval: the facts that hold when the critical section of
`insert_player` approves a request. -/
theorem insert_section_admitted {cfg : config} {s : shm_t} {cl : Int} {r : request}
    {gn : Int} {nm : List Char} {s1 : shm_t}
    (h : insert_section cfg s cl r = Outcome.admitted gn nm s1) :
    ∃ pre g, s.game = pre ++ [g] ∧ r.ok = true ∧ enough g.inv r.temp = true ∧
      r.sum ≤ cfg.quota ∧ 0 ≤ g.active ∧ g.active < (MAX : Int) ∧ gn = s.game_num ∧ nm = r.name ∧
      ((cfg.maxplayers ≤ g.active + 1 ∧ ∃ inv, read_inventory cfg.inv_file blank_game.inv = some inv ∧
          s1 = { s with game := pre ++ [seat g cl r] ++ [next_game inv] }) ∨
       (g.active + 1 < cfg.maxplayers ∧ s1 = { s with game := pre ++ [seat g cl r] })) := by
  unfold insert_section at h
  split at h
  · exact absurd h (by simp)
  · rename_i g hg
    obtain ⟨pre, hpre⟩ := get_game_open hg
    split at h
    · rename_i hok
      simp only [Bool.and_eq_true, Bool.not_eq_true', decide_eq_false_iff_not, not_lt] at hok
      obtain ⟨⟨hok1, hok2⟩, hok3⟩ := hok
      split at h
      · rename_i hact
        split at h
        · rename_i hfull
          split at h
          · exact absurd h (by simp)
          · rename_i inv hinv
            simp only [Outcome.admitted.injEq] at h
            obtain ⟨rfl, rfl, rfl⟩ := h
            refine ⟨pre, g, hpre, hok1, hok2, hok3, hact.1, hact.2, rfl, rfl, Or.inl ⟨?_, inv, hinv, ?_⟩⟩
            · simpa [seat] using hfull
            · rw [put_game_open hpre]
        · rename_i hfull
          simp only [Outcome.admitted.injEq] at h
          obtain ⟨rfl, rfl, rfl⟩ := h
          refine ⟨pre, g, hpre, hok1, hok2, hok3, hact.1, hact.2, rfl, rfl, Or.inr ⟨?_, ?_⟩⟩
          · simpa [seat] using hfull
          · have := put_game_open hpre (seat g cl r)
            unfold put_game at this ⊢
            simp only at this
            rw [this]
      · exact absurd h (by simp)
    · exact absurd h (by simp)

theorem insert_section_rejected {cfg : config} {s : shm_t} {cl : Int} {r : request}
    {nm : List Char} {s1 : shm_t} (h : insert_section cfg s cl r = Outcome.rejected nm s1) :
    s1 = s := by
  unfold insert_section at h
  split at h
  · exact absurd h (by simp)
  · split at h
    · split at h
      · split at h
        · split at h <;> exact absurd h (by simp)
        · exact absurd h (by simp)
      · exact absurd h (by simp)
    · simp only [Outcome.rejected.injEq] at h
      exact h.2.symm

theorem insert_section_closed {cfg : config} {s : shm_t} {cl : Int} {r : request}
    {s1 : shm_t} : insert_section cfg s cl r ≠ Outcome.closed s1 := by
  unfold insert_section
  intro h
  split at h
  · exact absurd h (by simp)
  · split at h
    · split at h
      · split at h
        · split at h <;> exact absurd h (by simp)
        · exact absurd h (by simp)
      · exact absurd h (by simp)
    · exact absurd h (by simp)

/-- Inversion of `insert_player` on an approval. -/
theorem insert_player_admitted {cfg : config} {s : shm_t} {cl : Int} {recvd : List Char}
    {gn : Int} {nm : List Char} {s1 : shm_t}
    (h : insert_player cfg s cl recvd = Outcome.admitted gn nm s1) :
    ∃ r, recvd ≠ [] ∧ scan_request recvd = some r ∧
      insert_section cfg s cl r = Outcome.admitted gn nm s1 := by
  unfold insert_player at h
  split at h
  · exact absurd h (by simp)
  · rename_i hne
    split at h
    · exact absurd h (by simp)
    · rename_i r hr
      exact ⟨r, hne, hr, h⟩

theorem insert_player_rejected {cfg : config} {s : shm_t} {cl : Int} {recvd : List Char}
    {nm : List Char} {s1 : shm_t} (h : insert_player cfg s cl recvd = Outcome.rejected nm s1) :
    s1 = s := by
  unfold insert_player at h
  split at h
  · exact absurd h (by simp)
  · split at h
    · exact absurd h (by simp)
    · exact insert_section_rejected h

theorem insert_player_closed {cfg : config} {s : shm_t} {cl : Int} {recvd : List Char}
    {s1 : shm_t} (h : insert_player cfg s cl recvd = Outcome.closed s1) : s1 = s := by
  unfold insert_player at h
  split at h
  · simp only [Outcome.closed.injEq] at h
    exact h.symm
  · split at h
    · exact absurd h (by simp)
    · exact absurd h insert_section_closed

/-- Inversion of a departure: `action_leave` rewrites one game, clearing slots
and decrementing `active`. -/
theorem action_leave_some {cfg : config} {s s1 : shm_t} {cl j : Int}
    (h : action_leave cfg s cl j = some s1) :
    ∃ (i : Nat) (g : game_t), j = (i : Int) + 1 ∧ s.game[i]? = some g ∧
      s1 = { s with game := s.game.set i (departed cfg cl g) } := by
  unfold action_leave remove_player at h
  split at h
  · exact absurd h (by simp)
  · rename_i s2 hs2
    split at hs2
    · exact absurd hs2 (by simp)
    · rename_i g hg
      obtain ⟨i, rfl, hi⟩ := get_game_iff.mp hg
      simp only [Option.some.injEq] at hs2
      subst hs2
      have hlt : i < s.game.length := by
        rcases Nat.lt_or_ge i s.game.length with h1 | h1
        · exact h1
        · rw [List.getElem?_eq_none h1] at hi; exact absurd hi (by simp)
      rw [put_game_succ, get_game_succ] at h
      simp only [List.getElem?_set_self hlt] at h
      simp only [Option.some.injEq] at h
      subst h
      refine ⟨i, g, rfl, hi, ?_⟩
      rw [put_game_succ]
      simp [departed]

theorem read_inventory_length (file : List (List Char × Int)) :
    ∀ (inv tpl : List Int), read_inventory file inv = some tpl → tpl.length = inv.length := by
  induction file with
  | nil =>
    intro inv tpl h
    simp only [read_inventory, Option.some.injEq] at h
    rw [h]
  | cons e rest ih =>
    intro inv tpl h
    obtain ⟨word, num⟩ := e
    rw [read_inventory] at h
    split at h
    · exact absurd h (by simp)
    · rw [ih _ _ h]; simp

theorem booked_append (ap : List (Int × List Int)) (j1 : Int) (t : List Int) (j : Int) (k : Nat) :
    booked (ap ++ [(j1, t)]) j k = booked ap j k + (if j1 = j then t.getD k 0 else 0) := by
  unfold booked
  rw [List.filter_append, List.map_append, List.sum_append]
  by_cases h : j1 = j
  · simp [h]
  · simp [h]

theorem booked_none {ap : List (Int × List Int)} {j : Int} (h : ∀ a ∈ ap, a.1 ≠ j) (k : Nat) :
    booked ap j k = 0 := by
  unfold booked
  have : ap.filter (fun a => decide (a.1 = j)) = [] := by
    rw [List.filter_eq_nil_iff]
    intro a ha
    simpa using h a ha
  rw [this]
  rfl

theorem stock_ok_boot {cfg : config} {tpl : List Int} {sys : server}
    (htpl : read_inventory cfg.inv_file blank_game.inv = some tpl)
    (hnn : ∀ k, 0 ≤ tpl.getD k 0 ∧ tpl.getD k 0 < 2147483648)
    (h : boot cfg = some sys) : stock_ok tpl sys := by
  unfold boot init_server at h
  rw [htpl] at h
  simp only [Option.some.injEq] at h
  subst h
  refine ⟨by simp, ?_⟩
  intro i g hg
  have hlen : tpl.length = 6 := by
    rw [read_inventory_length _ _ _ htpl]; simp [blank_game]
  match i, hg with
  | 0, hg =>
    simp only [List.getElem?_cons_zero, Option.some.injEq] at hg
    subst hg
    refine ⟨by simpa [next_game] using hlen, ?_⟩
    intro k _
    have := hnn k
    simp only [List.getD_eq_getElem?_getD] at this
    simp [next_game, booked, this.1, this.2]

/-- A step that rewrites one game without touching its inventory keeps the
inventory invariant. -/
theorem stock_ok_set {tpl : List Int} {sys : server} (h : stock_ok tpl sys)
    {i : Nat} {g g1 : game_t} (hg : sys.shm.game[i]? = some g) (hinv : g1.inv = g.inv)
    (shm1 : shm_t) (hshm : shm1.game = sys.shm.game.set i g1) (ws : List worker) :
    stock_ok tpl { shm := shm1, workers := ws, approved := sys.approved } := by
  refine ⟨?_, ?_⟩
  · intro a ha
    simpa [hshm] using h.1 a ha
  · intro i2 g2 hg2
    simp only [hshm, List.getElem?_set] at hg2
    split at hg2
    · split at hg2
      · simp only [Option.some.injEq] at hg2
        subst hg2
        rename_i h1 h2
        subst h1
        rw [hinv]
        exact h.2 i g hg
      · exact absurd hg2 (by simp)
    · exact h.2 i2 g2 hg2

theorem requested_eq {recvd : List Char} {r : request} (h : scan_request recvd = some r) :
    requested recvd = r.temp := by
  unfold requested
  rw [h]

/-- The live quantities after an approved deduction: exact, non-negative `int`s. -/
theorem seat_stock {g : game_t} {temp : List Int} (hlen : g.inv.length = 6)
    (hinv : ∀ k, k < 6 → 0 ≤ g.inv.getD k 0 ∧ g.inv.getD k 0 < 2147483648)
    (htemp : int_array temp) (hen : enough g.inv temp = true) {k : Nat} (hk : k < 6) :
    (deduct g.inv temp).getD k 0 = g.inv.getD k 0 - temp.getD k 0 ∧
    0 ≤ (deduct g.inv temp).getD k 0 ∧ (deduct g.inv temp).getD k 0 < 2147483648 := by
  have h1 := enough_getD hen hk
  have h2 := hinv k hk
  have h3 := htemp k
  have h4 := wrap32_sub_exact h2.1 h2.2 h3.1 h3.2 h1
  have hd := @deduct_getD g.inv temp hlen k hk
  have h5 := wrap32_range (g.inv.getD k 0 - temp.getD k 0)
  rw [h4] at hd h1 h5
  rw [hd]
  exact ⟨rfl, by omega, by omega⟩

theorem stock_ok_admit {cfg : config} {tpl : List Int} {sys : server} {cl : Int}
    {recvd : List Char} {gn : Int} {nm : List Char} {s1 : shm_t}
    (htpl : read_inventory cfg.inv_file blank_game.inv = some tpl)
    (hnn : ∀ k, 0 ≤ tpl.getD k 0 ∧ tpl.getD k 0 < 2147483648)
    (h : stock_ok tpl sys)
    (hin : insert_player cfg sys.shm cl recvd = Outcome.admitted gn nm s1) (ws : List worker) :
    stock_ok tpl
      { shm := s1, workers := ws, approved := sys.approved ++ [(gn, requested recvd)] } := by
  obtain ⟨r, -, hr, hsec⟩ := insert_player_admitted hin
  obtain ⟨pre, g, hpre, -, hen, -, -, -, hgn, -, hs1⟩ := insert_section_admitted hsec
  have hshape := scan_request_shape hr
  rw [requested_eq hr]
  have hgnv : gn = (pre.length : Int) + 1 := by
    rw [hgn]; unfold shm_t.game_num; rw [hpre]; simp
  have hlenv : (sys.shm.game.length : Int) = (pre.length : Int) + 1 := by rw [hpre]; simp
  have hg := h.2 pre.length g (by rw [hpre]; exact List.getElem?_concat_length _ _)
  have htl : tpl.length = 6 := by
    rw [read_inventory_length _ _ _ htpl]; simp [blank_game]
  -- the approved requests name existing games
  have hap : ∀ t : List game_t, ∀ a ∈ sys.approved ++ [(gn, r.temp)],
      a.1 ≤ ((pre ++ [seat g cl r] ++ t).length : Int) := by
    intro t a ha
    simp only [List.length_append, List.length_singleton, Nat.cast_add, Nat.cast_one]
    rcases List.mem_append.mp ha with ha | ha
    · have := h.1 a ha
      omega
    · simp only [List.mem_singleton] at ha
      subst ha
      simp only
      omega
  -- the games before the open one, and the open one
  have hold : ∀ (i : Nat) (g2 : game_t), (pre ++ [seat g cl r])[i]? = some g2 →
      g2.inv.length = 6 ∧ ∀ k, k < 6 →
        0 ≤ g2.inv.getD k 0 ∧ g2.inv.getD k 0 < 2147483648 ∧
        g2.inv.getD k 0 + booked (sys.approved ++ [(gn, r.temp)]) ((i : Int) + 1) k
          = tpl.getD k 0 := by
    intro i g2 hg2
    rcases Nat.lt_or_ge i pre.length with hi | hi
    · rw [List.getElem?_append_left hi] at hg2
      have := h.2 i g2 (by rw [hpre, List.getElem?_append_left hi]; exact hg2)
      refine ⟨this.1, ?_⟩
      intro k hk
      rw [booked_append, if_neg (by omega), add_zero]
      exact this.2 k hk
    · rw [List.getElem?_append_right hi] at hg2
      have hi0 : i - pre.length = 0 := by
        by_contra hne
        rw [List.getElem?_eq_none (by simp only [List.length_singleton]; omega)] at hg2
        exact absurd hg2 (by simp)
      rw [hi0] at hg2
      simp only [List.getElem?_cons_zero, Option.some.injEq] at hg2
      subst hg2
      have hi1 : i = pre.length := by omega
      subst hi1
      refine ⟨by simp [seat, deduct_length, hg.1], ?_⟩
      intro k hk
      have hs := seat_stock hg.1 (fun k hk => ⟨(hg.2 k hk).1, (hg.2 k hk).2.1⟩) hshape.2 hen hk
      rw [booked_append, if_pos hgnv]
      have := (hg.2 k hk).2.2
      simp only [seat]
      refine ⟨hs.2.1, hs.2.2, ?_⟩
      rw [hs.1]
      omega
  rcases hs1 with ⟨-, inv, hinv, rfl⟩ | ⟨-, rfl⟩
  · rw [htpl] at hinv
    simp only [Option.some.injEq] at hinv
    subst hinv
    refine ⟨hap [next_game tpl], ?_⟩
    intro i g2 hg2
    simp only at hg2
    rcases Nat.lt_or_ge i (pre ++ [seat g cl r]).length with hi | hi
    · rw [List.getElem?_append_left hi] at hg2
      exact hold i g2 hg2
    · rw [List.getElem?_append_right hi] at hg2
      have hi0 : i - (pre ++ [seat g cl r]).length = 0 := by
        by_contra hne
        rw [List.getElem?_eq_none (by simp only [List.length_singleton]; omega)] at hg2
        exact absurd hg2 (by simp)
      rw [hi0] at hg2
      simp only [List.getElem?_cons_zero, Option.some.injEq] at hg2
      subst hg2
      simp only [List.length_append, List.length_singleton] at hi hi0
      have hi1 : i = pre.length + 1 := by omega
      subst hi1
      refine ⟨by simpa [next_game] using htl, ?_⟩
      intro k _
      have hz : booked (sys.approved ++ [(gn, r.temp)]) (((pre.length + 1 : Nat) : Int) + 1) k = 0 := by
        apply booked_none
        intro a ha
        rcases List.mem_append.mp ha with ha | ha
        · have := h.1 a ha
          push_cast
          omega
        · simp only [List.mem_singleton] at ha
          subst ha
          simp only
          push_cast
          omega
      rw [hz]
      have := hnn k
      simp only [next_game, add_zero]
      exact ⟨this.1, this.2, trivial⟩
  · refine ⟨by simpa using hap [], ?_⟩
    intro i g2 hg2
    exact hold i g2 hg2

theorem stock_ok_step {cfg : config} {tpl : List Int} {sys sys1 : server} {e : event}
    (htpl : read_inventory cfg.inv_file blank_game.inv = some tpl)
    (hnn : ∀ k, 0 ≤ tpl.getD k 0 ∧ tpl.getD k 0 < 2147483648)
    (h : stock_ok tpl sys) (hstep : step cfg sys e = some sys1) : stock_ok tpl sys1 := by
  cases e with
  | connect cl recvd =>
    simp only [step] at hstep
    split at hstep
    · rename_i gn nm s hin
      simp only [Option.some.injEq] at hstep
      subst hstep
      exact stock_ok_admit htpl hnn h hin _
    · rename_i nm s hin
      simp only [Option.some.injEq] at hstep
      subst hstep
      rw [insert_player_rejected hin]
      exact h
    · rename_i s hin
      simp only [Option.some.injEq] at hstep
      subst hstep
      rw [insert_player_closed hin]
      exact h
    · exact absurd hstep (by simp)
  | poll w =>
    simp only [step] at hstep
    split at hstep
    · exact absurd hstep (by simp)
    · split at hstep
      · split at hstep
        · simp only [Option.some.injEq] at hstep
          subst hstep
          exact h
        · simp only [Option.some.injEq] at hstep
          subst hstep
          exact h
      · exact absurd hstep (by simp)
  | say w recvd =>
    simp only [step] at hstep
    split at hstep
    · exact absurd hstep (by simp)
    · split at hstep
      · split at hstep
        · exact absurd hstep (by simp)
        · rename_i s hs
          simp only [Option.some.injEq] at hstep
          subst hstep
          unfold action_chat at hs
          split at hs
          · exact absurd hs (by simp)
          · simp only [Option.some.injEq] at hs
            subst hs
            exact h
      · exact absurd hstep (by simp)
  | hangup w =>
    simp only [step] at hstep
    split at hstep
    · exact absurd hstep (by simp)
    · split at hstep
      · split at hstep
        · exact absurd hstep (by simp)
        · rename_i s hs
          simp only [Option.some.injEq] at hstep
          subst hstep
          obtain ⟨i, g, -, hg, rfl⟩ := action_leave_some hs
          exact stock_ok_set h hg (by simp [departed]) _ rfl _
      · exact absurd hstep (by simp)

/-- An invariant of `step` that holds after `init_server` holds after every run. -/
theorem run_invariant (cfg : config) (P : server → Prop)
    (hboot : ∀ sys, boot cfg = some sys → P sys)
    (hstep : ∀ sys sys1 e, P sys → step cfg sys e = some sys1 → P sys1)
    (evs : List event) (sys : server) (hrun : run cfg evs = some sys) : P sys := by
  unfold run at hrun
  have key : ∀ (es : List event) (o : Option server), (∀ s, o = some s → P s) →
      ∀ s, es.foldl (fun o e => o.bind (fun sys => step cfg sys e)) o = some s → P s := by
    intro es
    induction es with
    | nil => intro o ho s hs; exact ho s hs
    | cons e es ih =>
      intro o ho s hs
      rw [List.foldl_cons] at hs
      refine ih _ ?_ s hs
      intro s1 hs1
      cases o with
      | none => simp at hs1
      | some s0 => exact hstep s0 s1 e (ho s0 rfl) hs1
  exact key evs (boot cfg) hboot sys hrun

theorem getD_bounds {tpl : List Int} (hnn : ∀ x ∈ tpl, 0 ≤ x ∧ x < 2147483648) (k : Nat) :
    0 ≤ tpl.getD k 0 ∧ tpl.getD k 0 < 2147483648 := by
  rw [List.getD_eq_getElem?_getD]
  rcases Nat.lt_or_ge k tpl.length with hk | hk
  · rw [List.getElem?_eq_getElem hk]
    exact hnn _ (List.getElem_mem hk)
  · rw [List.getElem?_eq_none hk]
    simp

theorem stock_ok_run {cfg : config} {tpl : List Int}
    (htpl : read_inventory cfg.inv_file blank_game.inv = some tpl)
    (hnn : ∀ x ∈ tpl, 0 ≤ x ∧ x < 2147483648)
    (evs : List event) (sys : server) (hrun : run cfg evs = some sys) : stock_ok tpl sys :=
  run_invariant cfg (stock_ok tpl)
    (fun _ hs => stock_ok_boot htpl (getD_bounds hnn) hs)
    (fun _ _ _ hP hs => stock_ok_step htpl (getD_bounds hnn) hP hs) evs sys hrun

/-- The ledger of the inventory (supporting C1): in every state the server
reaches from `init_server`, with a template of non-negative `int` quantities,
every live quantity of every game is at least 0 and equals the template
quantity minus the signed sum `booked` of the entries of `temp` deducted from
that game. This is no bound on what the requests asked for: an entry of `temp`
is negative after an overflow (C1). -/
theorem stock_ledger (cfg : config) (tpl : List Int) (evs : List event) (sys : server)
    (j : Int) (g : game_t) (k : Nat)
    (htpl : read_inventory cfg.inv_file blank_game.inv = some tpl)
    (hnn : ∀ x ∈ tpl, 0 ≤ x ∧ x < 2147483648)
    (hrun : run cfg evs = some sys) (hg : get_game sys.shm j = some g) (hk : k < 6) :
    0 ≤ g.inv.getD k 0 ∧ booked sys.approved j k = tpl.getD k 0 - g.inv.getD k 0 := by
  have h := stock_ok_run htpl hnn evs sys hrun
  obtain ⟨i, rfl, hi⟩ := get_game_iff.mp hg
  have := (h.2 i g hi).2 k hk
  omega

/-- Scenario A as an instance of `stock_ledger`: game 1 and gold. -/
theorem stock_ledger_instance :
    run scenario_cfg scenario_events = some scenario_end ∧
    get_game scenario_end.shm 1 = some scenario_game ∧
    (0 ≤ scenario_game.inv.getD 0 0 ∧
      booked scenario_end.approved 1 0 = [5, 0, 0, 0, 0, 0].getD 0 0 - scenario_game.inv.getD 0 0) :=
  ⟨by decide, by decide,
   stock_ledger scenario_cfg [5, 0, 0, 0, 0, 0] scenario_events scenario_end 1 scenario_game 0
     (by decide) (by decide) (by decide) (by decide) (by decide)⟩

/-- Writing slot `a` within the first `n` slots changes exactly that entry. -/
theorem take_set_split (ps : List Int) :
    ∀ (a n : Nat) (cl : Int), a < ps.length → a < n →
      ∃ A B, ps.take n = A ++ ps.getD a 0 :: B ∧ (ps.set a cl).take n = A ++ cl :: B ∧
        A.length = a := by
  induction ps with
  | nil => intro a n cl ha; simp at ha
  | cons x xs ih =>
    intro a n cl ha hn
    obtain ⟨n1, rfl⟩ : ∃ n1, n = n1 + 1 := ⟨n - 1, by omega⟩
    cases a with
    | zero => exact ⟨[], xs.take n1, by simp, by simp, rfl⟩
    | succ a1 =>
      obtain ⟨A, B, h1, h2, h3⟩ := ih a1 n1 cl (by simpa using ha) (by omega)
      refine ⟨x :: A, B, ?_, ?_, by simp [h3]⟩
      · simp only [List.take_succ_cons, List.cons_append, List.getD_cons_succ, h1]
      · simp only [List.set_cons_succ, List.take_succ_cons, List.cons_append, h2]

theorem clear_slots_getElem? (cl : Int) (ps : List Int) (n : Nat) :
    ∀ i, ((List.range n).foldl (fun ps i => if ps.getD i 0 = cl then ps.set i 0 else ps) ps)[i]?
      = if i < n then ps[i]?.map (fun p => if p = cl then 0 else p) else ps[i]? := by
  induction n with
  | zero => intro i; simp
  | succ n ih =>
    intro i
    rw [List.range_succ, List.foldl_append]
    simp only [List.foldl_cons, List.foldl_nil]
    have hn := ih n
    simp only [lt_irrefl, if_false] at hn
    by_cases hi : i = n
    · subst hi
      rw [if_pos (Nat.lt_succ_self i), List.getD_eq_getElem?_getD, hn]
      cases hps : ps[i]? with
      | none =>
        have h2 : ∀ c : Prop, ∀ _ : Decidable c, ∀ x y : List Int, x[i]? = none → y[i]? = none →
            (if c then x else y)[i]? = none := by
          intro c _ x y hx hy; split <;> assumption
        rw [hps] at hn
        rw [h2 _ _ _ _ (by rw [List.getElem?_set', hn]; simp) hn]
        rfl
      | some p =>
        rw [hps] at hn
        simp only [Option.getD_some, Option.map_some']
        by_cases hp : p = cl
        · rw [if_pos hp, if_pos hp, List.getElem?_set', hn]
          simp
        · rw [if_neg hp, if_neg hp, hn]
    · have hset : (if (List.foldl (fun ps i => if ps.getD i 0 = cl then ps.set i 0 else ps) ps
            (List.range n)).getD n 0 = cl
          then (List.foldl (fun ps i => if ps.getD i 0 = cl then ps.set i 0 else ps) ps
            (List.range n)).set n 0
          else List.foldl (fun ps i => if ps.getD i 0 = cl then ps.set i 0 else ps) ps
            (List.range n))[i]?
          = (List.foldl (fun ps i => if ps.getD i 0 = cl then ps.set i 0 else ps) ps
            (List.range n))[i]? := by
        split
        · rw [List.getElem?_set_ne (Ne.symm hi)]
        · rfl
      rw [hset, ih i]
      by_cases hin : i < n
      · rw [if_pos hin, if_pos (by omega)]
      · rw [if_neg hin, if_neg (by omega)]

theorem clear_slots_length (cap cl : Int) (ps : List Int) :
    (clear_slots cap cl ps).length = ps.length := by
  unfold clear_slots
  generalize cap.toNat = n
  induction n with
  | zero => simp
  | succ n ih =>
    rw [List.range_succ, List.foldl_append]
    simp only [List.foldl_cons, List.foldl_nil]
    split
    · rw [List.length_set, ih]
    · exact ih

theorem clear_slots_take (cap cl : Int) (ps : List Int) :
    (clear_slots cap cl ps).take cap.toNat
      = (ps.take cap.toNat).map (fun p => if p = cl then 0 else p) := by
  apply List.ext_getElem?
  intro i
  unfold clear_slots
  rw [List.getElem?_take, List.getElem?_map, List.getElem?_take]
  split
  · rw [clear_slots_getElem?, if_pos (by assumption)]
  · rfl

theorem filter_cleared (cl : Int) (hcl : cl ≠ 0) (l : List Int) :
    ((l.map (fun p => if p = cl then 0 else p)).filter (fun p => p != 0))
      = (l.filter (fun p => p != 0)).filter (fun p => p != cl) := by
  induction l with
  | nil => rfl
  | cons x xs ih =>
    simp only [List.map_cons, List.filter_cons]
    by_cases hx : x = cl
    · subst hx
      simp [hcl, ih]
    · by_cases hx0 : x = 0
      · subst hx0
        simp [hx, ih]
      · simp [hx, hx0, ih]

theorem length_filter_ne {l : List Int} (hnd : l.Nodup) {cl : Int} (hmem : cl ∈ l) :
    ((l.filter (fun p => p != cl)).length : Int) = (l.length : Int) - 1 := by
  rw [← List.Nodup.erase_eq_filter hnd, List.length_erase_of_mem hmem]
  have : 0 < l.length := List.length_pos_of_mem hmem
  omega

theorem admissions_append (ap : List (Int × List Int)) (j1 : Int) (t : List Int) (j : Int) :
    admissions (ap ++ [(j1, t)]) j = admissions ap j + (if j1 = j then 1 else 0) := by
  unfold admissions
  rw [List.filter_append, List.length_append]
  by_cases h : j1 = j
  · simp [h]
  · simp [h]

theorem admissions_none {ap : List (Int × List Int)} {j : Int} (h : ∀ a ∈ ap, a.1 ≠ j) :
    admissions ap j = 0 := by
  unfold admissions
  have : ap.filter (fun a => decide (a.1 = j)) = [] := by
    rw [List.filter_eq_nil_iff]
    intro a ha
    simpa using h a ha
  rw [this]
  rfl

theorem occupied_blank (cfg : config) (inv : List Int) : occupied cfg (next_game inv) = 0 := by
  unfold occupied next_game blank_game
  simp only
  rw [List.length_eq_zero, List.filter_eq_nil_iff]
  intro p hp
  have := List.mem_of_mem_take hp
  rw [List.mem_replicate] at this
  simp [this.2]

/-- The facts about the open game after `insert_player` seats a non-zero
handle in it. -/
theorem seat_slots {cfg : config} {g : game_t} {cl : Int} (r : request)
    (hlen : g.players.length = MAX) (hact : g.active = (occupied cfg g : Int))
    (hlt : g.active < cfg.maxplayers)
    (hfill : ∀ x, x < MAX → (g.players.getD x 0 ≠ 0 ↔ (x : Int) < g.active))
    (ha16 : g.active < (MAX : Int)) (hcl : cl ≠ 0) :
    (seat g cl r).players.length = MAX ∧
    ((seat g cl r).active = (occupied cfg (seat g cl r) : Int)) ∧
    (∀ p ∈ (seat g cl r).players.take cfg.maxplayers.toNat,
      p = cl ∨ p ∈ g.players.take cfg.maxplayers.toNat) ∧
    (∀ p ∈ g.players.take cfg.maxplayers.toNat, p ≠ 0 →
      p ∈ (seat g cl r).players.take cfg.maxplayers.toNat) ∧
    cl ∈ (seat g cl r).players.take cfg.maxplayers.toNat ∧
    (((g.players.take cfg.maxplayers.toNat).filter (fun p => p != 0)).Nodup →
      cl ∉ g.players.take cfg.maxplayers.toNat →
      (((seat g cl r).players.take cfg.maxplayers.toNat).filter (fun p => p != 0)).Nodup) ∧
    (∀ x, x < MAX → ((seat g cl r).players.getD x 0 ≠ 0 ↔ (x : Int) < (seat g cl r).active)) := by
  have ha0 : 0 ≤ g.active := by rw [hact]; exact Int.natCast_nonneg _
  have hcast : ((g.active.toNat : Nat) : Int) = g.active := Int.toNat_of_nonneg ha0
  have haL : g.active.toNat < g.players.length := by rw [hlen]; omega
  have han : g.active.toNat < cfg.maxplayers.toNat := by omega
  have hzero : g.players.getD g.active.toNat 0 = 0 := by
    have := hfill g.active.toNat (by omega)
    by_contra hne
    have := this.mp hne
    omega
  obtain ⟨A, B, h1, h2, -⟩ := take_set_split g.players g.active.toNat cfg.maxplayers.toNat cl haL han
  rw [hzero] at h1
  have hocc : occupied cfg (seat g cl r) = occupied cfg g + 1 := by
    unfold occupied
    simp only [seat]
    rw [h1, h2]
    simp [List.filter_append, List.filter_cons, hcl]
    omega
  refine ⟨by simp [seat, hlen], ?_, ?_, ?_, ?_, ?_, ?_⟩
  · rw [hocc]
    simp only [seat]
    rw [hact]
    push_cast
    rfl
  · intro p hp
    simp only [seat] at hp
    rw [h2] at hp
    rw [h1]
    simp only [List.mem_append, List.mem_cons] at hp ⊢
    tauto
  · intro p hp hp0
    simp only [seat]
    rw [h2]
    rw [h1] at hp
    simp only [List.mem_append, List.mem_cons] at hp ⊢
    tauto
  · simp only [seat]
    rw [h2]
    simp
  · intro hnd hnot
    simp only [seat]
    rw [h2]
    rw [h1] at hnd hnot
    simp only [List.mem_append, List.mem_cons, not_or] at hnot
    simp only [List.filter_append, List.filter_cons, bne_self_eq_false, Bool.false_eq_true,
      if_false] at hnd
    have hcl2 : (cl != 0) = true := by simpa using hcl
    simp only [List.filter_append, List.filter_cons, hcl2, if_true]
    rw [List.nodup_middle, List.nodup_cons]
    refine ⟨?_, hnd⟩
    simp only [List.mem_append, List.mem_filter, not_or, not_and]
    exact ⟨fun h => absurd h hnot.1, fun h => absurd h hnot.2.2⟩
  · intro x hx
    have hold := hfill x hx
    simp only [seat]
    by_cases hxa : x = g.active.toNat
    · subst hxa
      rw [List.getD_eq_getElem?_getD, List.getElem?_set_self haL]
      simp only [Option.getD_some, ne_eq, hcl, not_false_eq_true, true_iff]
      omega
    · rw [List.getD_eq_getElem?_getD, List.getElem?_set_ne (Ne.symm hxa),
        ← List.getD_eq_getElem?_getD, hold]
      omega

/-- The facts about a game after the worker holding the seated handle `cl`
leaves it. -/
theorem depart_slots {cfg : config} {g : game_t} {cl : Int}
    (hlen : g.players.length = MAX) (hact : g.active = (occupied cfg g : Int))
    (hnd : ((g.players.take cfg.maxplayers.toNat).filter (fun p => p != 0)).Nodup)
    (hcl : cl ≠ 0) (hmem : cl ∈ g.players.take cfg.maxplayers.toNat) :
    (departed cfg cl g).players.length = MAX ∧
    (departed cfg cl g).active = g.active - 1 ∧
    ((departed cfg cl g).active = (occupied cfg (departed cfg cl g) : Int)) ∧
    (((departed cfg cl g).players.take cfg.maxplayers.toNat).filter (fun p => p != 0)).Nodup ∧
    (∀ p ∈ (departed cfg cl g).players.take cfg.maxplayers.toNat, p ≠ 0 →
      p ∈ g.players.take cfg.maxplayers.toNat) ∧
    (∀ p ∈ g.players.take cfg.maxplayers.toNat, p ≠ cl →
      p ∈ (departed cfg cl g).players.take cfg.maxplayers.toNat) := by
  have htake : (departed cfg cl g).players.take cfg.maxplayers.toNat
      = (g.players.take cfg.maxplayers.toNat).map (fun p => if p = cl then 0 else p) := by
    simp only [departed]
    exact clear_slots_take _ _ _
  have hin : cl ∈ (g.players.take cfg.maxplayers.toNat).filter (fun p => p != 0) := by
    rw [List.mem_filter]
    exact ⟨hmem, by simpa using hcl⟩
  have hocc : (occupied cfg (departed cfg cl g) : Int) = (occupied cfg g : Int) - 1 := by
    unfold occupied
    rw [htake, filter_cleared cl hcl]
    exact length_filter_ne hnd hin
  have hpos : 0 < occupied cfg g := by
    unfold occupied
    exact List.length_pos_of_mem hin
  have hle : occupied cfg g ≤ 16 := by
    unfold occupied
    calc ((g.players.take cfg.maxplayers.toNat).filter (fun p => p != 0)).length
        ≤ (g.players.take cfg.maxplayers.toNat).length := List.length_filter_le _ _
      _ ≤ g.players.length := by rw [List.length_take]; exact Nat.min_le_right _ _
      _ = 16 := hlen
  have hdec : (departed cfg cl g).active = g.active - 1 := by
    simp only [departed]
    exact wrap32_id (by omega) (by omega)
  refine ⟨by simp [departed, clear_slots_length, hlen], hdec, ?_, ?_, ?_, ?_⟩
  · rw [hdec, hocc, hact]
  · rw [htake, filter_cleared cl hcl]
    exact List.Nodup.filter _ hnd
  · intro p hp hp0
    rw [htake, List.mem_map] at hp
    obtain ⟨q, hq, hqp⟩ := hp
    by_cases hqc : q = cl
    · rw [if_pos hqc] at hqp
      exact absurd hqp.symm hp0
    · rw [if_neg hqc] at hqp
      rw [← hqp]
      exact hq
  · intro p hp hpc
    rw [htake, List.mem_map]
    exact ⟨p, hp, by rw [if_neg hpc]⟩

theorem getElem?_snoc_cases {α : Type} {l : List α} {x y : α} {i : Nat}
    (h : (l ++ [x])[i]? = some y) : (i < l.length ∧ l[i]? = some y) ∨ (i = l.length ∧ y = x) := by
  rcases Nat.lt_or_ge i l.length with hi | hi
  · left
    rw [List.getElem?_append_left hi] at h
    exact ⟨hi, h⟩
  · right
    rw [List.getElem?_append_right hi] at h
    have hi0 : i - l.length = 0 := by
      by_contra hne
      rw [List.getElem?_eq_none (by simp only [List.length_singleton]; omega)] at h
      exact absurd h (by simp)
    rw [hi0] at h
    simp only [List.getElem?_cons_zero, Option.some.injEq] at h
    exact ⟨by omega, h.symm⟩

theorem game_ok_old {cfg : config} {used used1 : List Int} {ap : List (Int × List Int)}
    {len len1 i : Nat} {g : game_t} {gn : Int} {t : List Int}
    (h : game_ok cfg used ap len i g) (hsub : ∀ x ∈ used, x ∈ used1)
    (hi : i + 1 < len) (hlen : len ≤ len1) (hgn : gn = (len : Int)) :
    game_ok cfg used1 (ap ++ [(gn, t)]) len1 i g := by
  obtain ⟨h1, h2, h3, h4, h5, -, h7⟩ := h
  refine ⟨h1, h2, h3, h4, fun p hp hp0 => hsub p (h5 p hp hp0), fun hc => by omega, ?_⟩
  rw [admissions_append, if_neg (by omega), if_neg (by omega)]
  rw [if_neg (by omega)] at h7
  simpa using h7

theorem game_ok_blank (cfg : config) (hcap : 1 ≤ cfg.maxplayers) (used : List Int)
    (ap : List (Int × List Int)) (inv : List Int) (i : Nat)
    (hap : ∀ a ∈ ap, a.1 ≤ (i : Int)) :
    game_ok cfg used ap (i + 1) i (next_game inv) := by
  have hocc := occupied_blank cfg inv
  refine ⟨by simp [next_game, blank_game], by simp [next_game, blank_game], ?_, ?_, ?_, ?_, ?_⟩
  · rw [hocc]; rfl
  · unfold occupied at hocc
    rw [List.length_eq_zero] at hocc
    rw [hocc]
    exact List.nodup_nil
  · intro p hp hp0
    have := List.mem_of_mem_take hp
    simp only [next_game, blank_game, List.mem_replicate] at this
    exact absurd this.2 hp0
  · intro _
    refine ⟨by simp only [next_game, blank_game]; omega, ?_⟩
    intro x _
    simp only [next_game, blank_game, List.getD_eq_getElem?_getD, List.getElem?_replicate]
    split <;> simp
  · rw [if_pos rfl, admissions_none]
    · rfl
    · intro a ha
      have := hap a ha
      omega

theorem seats_ok_boot {cfg : config} {sys : server} (hcap : 1 ≤ cfg.maxplayers)
    (h : boot cfg = some sys) : seats_ok cfg [] sys := by
  unfold boot init_server at h
  split at h
  · exact absurd h (by simp)
  · rename_i s hs
    split at hs
    · exact absurd hs (by simp)
    · rename_i inv _
      simp only [Option.some.injEq] at hs h
      subst hs
      subst h
      refine ⟨by simp, by simp, ?_, by simp, by simp⟩
      intro i g hg
      have := getElem?_snoc_cases (l := []) hg
      rcases this with ⟨hlt, -⟩ | ⟨rfl, rfl⟩
      · simp at hlt
      · exact game_ok_blank cfg hcap [] [] inv 0 (by simp)

theorem seats_ok_mono {cfg : config} {used used1 : List Int} {sys : server}
    (h : seats_ok cfg used sys) (hsub : ∀ x ∈ used, x ∈ used1) : seats_ok cfg used1 sys := by
  obtain ⟨h1, h2, h3, h4, h5⟩ := h
  refine ⟨h1, h2, ?_, ?_, h5⟩
  · intro i g hg
    obtain ⟨a1, a2, a3, a4, a5, a6, a7⟩ := h3 i g hg
    exact ⟨a1, a2, a3, a4, fun p hp hp0 => hsub p (a5 p hp hp0), a6, a7⟩
  · intro w k hk
    obtain ⟨b1, b2, b3, b4⟩ := h4 w k hk
    exact ⟨b1, hsub _ b2, b3, b4⟩

/-- An approval keeps the seats invariant, for a handle that is not 0 and was
not used before. -/
theorem seats_ok_admit {cfg : config} {used : List Int} {sys : server} {cl : Int}
    {recvd : List Char} {gn : Int} {nm : List Char} {s1 : shm_t}
    (hcap : 1 ≤ cfg.maxplayers) (h : seats_ok cfg used sys)
    (hcl : cl ≠ 0) (hnew : cl ∉ used)
    (hin : insert_player cfg sys.shm cl recvd = Outcome.admitted gn nm s1) :
    seats_ok cfg (used ++ [cl])
      { shm := s1
        workers := sys.workers ++
          [{ cl := cl, game_number := gn, name := nm, at_stage := stage.waiting }]
        approved := sys.approved ++ [(gn, requested recvd)] } := by
  obtain ⟨r, -, -, hsec⟩ := insert_player_admitted hin
  obtain ⟨pre, g, hpre, -, -, -, ha0, ha16, hgn, -, hs1⟩ := insert_section_admitted hsec
  obtain ⟨-, hap, hgames, hworkers, hdistinct⟩ := h
  have hlen : sys.shm.game.length = pre.length + 1 := by rw [hpre]; simp
  have hgnv : gn = ((pre.length + 1 : Nat) : Int) := by
    rw [hgn]; unfold shm_t.game_num; rw [hlen]
  have hsub : ∀ x ∈ used, x ∈ used ++ [cl] := fun x hx => List.mem_append_left _ hx
  have hg := hgames pre.length g (by rw [hpre]; exact List.getElem?_concat_length _ _)
  rw [hlen] at hg
  obtain ⟨q1, q2, q3, q4, q5, q6, q7⟩ := hg
  obtain ⟨hlt, hfill⟩ := q6 rfl
  rw [if_pos rfl] at q7
  have hnot : cl ∉ g.players.take cfg.maxplayers.toNat := fun hc => hnew (q5 cl hc hcl)
  obtain ⟨t1, t2, t3, t4, t5, t6, t7⟩ := seat_slots r q1 q3 hlt hfill ha16 hcl
  have hseat_act : (seat g cl r).active = g.active + 1 := rfl
  -- the games before the open one
  have hpregame : ∀ (len1 i : Nat) (g2 : game_t), pre.length + 1 ≤ len1 → i < pre.length →
      pre[i]? = some g2 →
      game_ok cfg (used ++ [cl]) (sys.approved ++ [(gn, requested recvd)]) len1 i g2 := by
    intro len1 i g2 hl hi hg2
    have := hgames i g2 (by rw [hpre, List.getElem?_append_left hi]; exact hg2)
    rw [hlen] at this
    exact game_ok_old this hsub (by omega) hl hgnv
  -- the seated game, as the newest one or as a full one
  have hseatgame : ∀ len1 : Nat,
      (len1 = pre.length + 1 ∧ g.active + 1 < cfg.maxplayers) ∨
      (len1 = pre.length + 2 ∧ cfg.maxplayers ≤ g.active + 1) →
      game_ok cfg (used ++ [cl]) (sys.approved ++ [(gn, requested recvd)]) len1 pre.length
        (seat g cl r) := by
    intro len1 hcase
    refine ⟨t1, by simp [seat, q2], t2, t6 q4 hnot, ?_, ?_, ?_⟩
    · intro p hp hp0
      rcases t3 p hp with rfl | hp1
      · simp
      · exact hsub p (q5 p hp1 hp0)
    · intro hl
      rcases hcase with ⟨-, hc⟩ | ⟨hc, -⟩
      · exact ⟨by rw [hseat_act]; exact hc, t7⟩
      · omega
    · rw [admissions_append, if_pos (by rw [hgnv]; push_cast; rfl)]
      push_cast
      rw [q7, hseat_act]
      rcases hcase with ⟨hc, -⟩ | ⟨hc, hfull⟩
      · rw [if_pos (by omega)]
      · rw [if_neg (by omega)]
        omega
  -- the workers
  have hgame_num : ∀ len1 : Nat, pre.length + 1 ≤ len1 → ∀ j : Int, j < sys.shm.game_num →
      j < (len1 : Int) := by
    intro len1 hl j hj
    unfold shm_t.game_num at hj
    rw [hlen] at hj
    omega
  have hwork : ∀ (tail : List game_t) (w : Nat) (k : worker),
      (sys.workers ++
        [{ cl := cl, game_number := gn, name := nm, at_stage := stage.waiting }])[w]? = some k →
      worker_ok cfg (used ++ [cl])
        { sys.shm with game := pre ++ [seat g cl r] ++ tail } k := by
    intro tail w k hk
    rcases getElem?_snoc_cases hk with ⟨-, hold⟩ | ⟨-, rfl⟩
    · obtain ⟨b1, b2, b3, b4⟩ := hworkers w k hold
      refine ⟨b1, hsub _ b2, ?_, ?_⟩
      · intro hgone
        obtain ⟨i, g2, hi, hg2, hmem⟩ := b3 hgone
        rw [hpre] at hg2
        rcases getElem?_snoc_cases hg2 with ⟨hlt2, hg3⟩ | ⟨rfl, rfl⟩
        · refine ⟨i, g2, hi, ?_, hmem⟩
          simp only
          rw [List.append_assoc, List.getElem?_append_left hlt2]
          exact hg3
        · refine ⟨pre.length, seat g2 cl r, hi, ?_, t4 _ hmem b1⟩
          simp only
          rw [List.append_assoc, List.getElem?_append_right (le_refl _)]
          simp
      · intro hchat
        have := b4 hchat
        unfold shm_t.game_num at this ⊢
        simp only [List.length_append, List.length_singleton]
        rw [hlen] at this
        push_cast at this ⊢
        omega
    · refine ⟨hcl, by simp, ?_, by simp⟩
      intro _
      refine ⟨pre.length, seat g cl r, by rw [hgnv]; push_cast; rfl, ?_, t5⟩
      simp only
      rw [List.append_assoc, List.getElem?_append_right (le_refl _)]
      simp
  have hdist : ∀ (a b : Nat) (ka kb : worker),
      (sys.workers ++
        [{ cl := cl, game_number := gn, name := nm, at_stage := stage.waiting }])[a]? = some ka →
      (sys.workers ++
        [{ cl := cl, game_number := gn, name := nm, at_stage := stage.waiting }])[b]? = some kb →
      ka.cl = kb.cl → a = b := by
    intro a b ka kb hka hkb heq
    rcases getElem?_snoc_cases hka with ⟨-, ha⟩ | ⟨ha, rfl⟩
    · rcases getElem?_snoc_cases hkb with ⟨-, hb⟩ | ⟨-, rfl⟩
      · exact hdistinct a b ka kb ha hb heq
      · have hu := (hworkers a ka ha).2.1
        simp only at heq
        rw [heq] at hu
        exact absurd hu hnew
    · rcases getElem?_snoc_cases hkb with ⟨-, hb⟩ | ⟨hb, -⟩
      · have hu := (hworkers b kb hb).2.1
        simp only at heq
        rw [← heq] at hu
        exact absurd hu hnew
      · omega
  have hap1 : ∀ len1 : Nat, pre.length + 1 ≤ len1 →
      ∀ a ∈ sys.approved ++ [(gn, requested recvd)], 1 ≤ a.1 ∧ a.1 ≤ (len1 : Int) := by
    intro len1 hl a ha
    rcases List.mem_append.mp ha with ha | ha
    · have := hap a ha
      rw [hlen] at this
      omega
    · simp only [List.mem_singleton] at ha
      subst ha
      simp only
      omega
  rcases hs1 with ⟨hfull, inv, -, rfl⟩ | ⟨hroom, rfl⟩
  · refine ⟨by simp, ?_, ?_, hwork [next_game inv], hdist⟩
    · simpa using hap1 (pre.length + 2) (by omega)
    · intro i g2 hg2
      simp only [List.length_append, List.length_singleton] at hg2 ⊢
      rcases getElem?_snoc_cases hg2 with ⟨-, hg3⟩ | ⟨hi, rfl⟩
      · rcases getElem?_snoc_cases hg3 with ⟨hlt2, hg4⟩ | ⟨rfl, rfl⟩
        · exact hpregame _ i g2 (by omega) hlt2 hg4
        · exact hseatgame _ (Or.inr ⟨rfl, hfull⟩)
      · simp only [List.length_append, List.length_singleton] at hi
        subst hi
        apply game_ok_blank cfg hcap
        intro a ha
        have := (hap1 (pre.length + 1) (le_refl _) a ha).2
        exact this
  · refine ⟨by simp, ?_, ?_, ?_, hdist⟩
    · simpa using hap1 (pre.length + 1) (by omega)
    · intro i g2 hg2
      simp only [List.length_append, List.length_singleton] at hg2 ⊢
      rcases getElem?_snoc_cases hg2 with ⟨hlt2, hg4⟩ | ⟨rfl, rfl⟩
      · exact hpregame _ i g2 (by omega) hlt2 hg4
      · exact hseatgame _ (Or.inl ⟨rfl, hroom⟩)
    · have := hwork []
      simpa using this

theorem worker_ok_shm {cfg : config} {used : List Int} {s s1 : shm_t} {k : worker}
    (h : worker_ok cfg used s k) (hlen : s.game.length ≤ s1.game.length)
    (hseat : ∀ (i : Nat) (g : game_t), s.game[i]? = some g →
      k.cl ∈ g.players.take cfg.maxplayers.toNat →
      ∃ g1, s1.game[i]? = some g1 ∧ k.cl ∈ g1.players.take cfg.maxplayers.toNat) :
    worker_ok cfg used s1 k := by
  obtain ⟨b1, b2, b3, b4⟩ := h
  refine ⟨b1, b2, ?_, ?_⟩
  · intro hgone
    obtain ⟨i, g, hi, hg, hmem⟩ := b3 hgone
    obtain ⟨g1, hg1, hmem1⟩ := hseat i g hg hmem
    exact ⟨i, g1, hi, hg1, hmem1⟩
  · intro hchat
    have := b4 hchat
    unfold shm_t.game_num at this ⊢
    omega

theorem getElem?_lt {α : Type} {l : List α} {i : Nat} {x : α} (h : l[i]? = some x) :
    i < l.length := by
  rcases Nat.lt_or_ge i l.length with h0 | h0
  · exact h0
  · rw [List.getElem?_eq_none h0] at h; exact absurd h (by simp)

/-- A game that passes the test of the waiting loop is not the newest one. -/
theorem full_not_newest {cfg : config} {used : List Int} {sys : server} {j : Int}
    (h : seats_ok cfg used sys) (hfull : game_full cfg sys.shm j = true) :
    j < sys.shm.game_num := by
  unfold game_full at hfull
  split at hfull
  · rename_i g hg
    obtain ⟨i, rfl, hi⟩ := get_game_iff.mp hg
    simp only [Bool.not_eq_true', decide_eq_false_iff_not, not_lt] at hfull
    have hlt := getElem?_lt hi
    obtain ⟨-, -, -, -, -, q6, -⟩ := h.2.2.1 i g hi
    unfold shm_t.game_num
    by_cases hl : i + 1 = sys.shm.game.length
    · have := (q6 hl).1
      omega
    · omega
  · exact absurd hfull (by simp)

theorem distinct_set {workers : List worker} {w : Nat} {k k1 : worker}
    (hk : workers[w]? = some k) (hcl : k1.cl = k.cl)
    (hd : ∀ (a b : Nat) (ka kb : worker), workers[a]? = some ka → workers[b]? = some kb →
      ka.cl = kb.cl → a = b) :
    ∀ (a b : Nat) (ka kb : worker), (workers.set w k1)[a]? = some ka →
      (workers.set w k1)[b]? = some kb → ka.cl = kb.cl → a = b := by
  have key : ∀ (a : Nat) (ka : worker), (workers.set w k1)[a]? = some ka →
      ∃ ka0, workers[a]? = some ka0 ∧ ka0.cl = ka.cl := by
    intro a ka ha
    rw [List.getElem?_set] at ha
    split at ha
    · rename_i hwa
      subst hwa
      split at ha
      · simp only [Option.some.injEq] at ha
        subst ha
        exact ⟨k, hk, hcl.symm⟩
      · exact absurd ha (by simp)
    · exact ⟨ka, ha, rfl⟩
  intro a b ka kb ha hb heq
  obtain ⟨ka0, ha0, hca⟩ := key a ka ha
  obtain ⟨kb0, hb0, hcb⟩ := key b kb hb
  exact hd a b ka0 kb0 ha0 hb0 (by rw [hca, hcb, heq])

theorem seats_ok_poll {cfg : config} {used : List Int} {sys : server} {w : Nat} {k : worker}
    (h : seats_ok cfg used sys) (hk : sys.workers[w]? = some k)
    (hwait : k.at_stage = stage.waiting)
    (hfull : game_full cfg sys.shm k.game_number = true) :
    seats_ok cfg used
      { sys with workers := sys.workers.set w { k with at_stage := stage.chatting } } := by
  have hnew := full_not_newest h hfull
  obtain ⟨h1, h2, h3, h4, h5⟩ := h
  refine ⟨h1, h2, h3, ?_, distinct_set hk rfl h5⟩
  intro b kb hkb
  simp only [List.getElem?_set] at hkb
  split at hkb
  · split at hkb
    · simp only [Option.some.injEq] at hkb
      subst hkb
      obtain ⟨b1, b2, b3, -⟩ := h4 w k hk
      exact ⟨b1, b2, fun _ => b3 (by rw [hwait]; simp), fun _ => hnew⟩
    · exact absurd hkb (by simp)
  · exact h4 b kb hkb

theorem seats_ok_say {cfg : config} {used : List Int} {sys : server} {s : shm_t}
    (h : seats_ok cfg used sys) (hs : s.game = sys.shm.game) :
    seats_ok cfg used { sys with shm := s } := by
  obtain ⟨h1, h2, h3, h4, h5⟩ := h
  refine ⟨by simpa [hs] using h1, by simpa [hs] using h2, by simpa [hs] using h3, ?_, h5⟩
  intro w k hk
  exact worker_ok_shm (h4 w k hk) (by simp [hs]) (fun i g hg hm => ⟨g, by simpa [hs] using hg, hm⟩)

theorem seats_ok_hangup {cfg : config} {used : List Int} {sys : server} {w : Nat} {k : worker}
    {s : shm_t} (h : seats_ok cfg used sys) (hk : sys.workers[w]? = some k)
    (hchat : k.at_stage = stage.chatting)
    (hs : action_leave cfg sys.shm k.cl k.game_number = some s) :
    seats_ok cfg used
      { sys with shm := s, workers := sys.workers.set w { k with at_stage := stage.gone } } := by
  obtain ⟨h1, h2, h3, h4, h5⟩ := h
  obtain ⟨i, g, hj, hg, rfl⟩ := action_leave_some hs
  obtain ⟨b1, b2, b3, b4⟩ := h4 w k hk
  obtain ⟨i0, g0, hj0, hg0, hmem⟩ := b3 (by rw [hchat]; simp)
  have hii : i0 = i := by omega
  subst hii
  rw [hg] at hg0
  simp only [Option.some.injEq] at hg0
  subst hg0
  have hnl : i0 + 1 ≠ sys.shm.game.length := by
    have := b4 hchat
    unfold shm_t.game_num at this
    omega
  obtain ⟨q1, q2, q3, q4, q5, -, q7⟩ := h3 i0 g hg
  obtain ⟨d1, d2, d3, d4, d5, d6⟩ := depart_slots q1 q3 q4 b1 hmem
  refine ⟨?_, ?_, ?_, ?_, distinct_set hk rfl h5⟩
  · intro hnil
    simp only [List.set_eq_nil_iff] at hnil
    exact h1 hnil
  · simpa using h2
  · intro i2 g2 hg2
    simp only [List.length_set]
    simp only [List.getElem?_set] at hg2
    split at hg2
    · rename_i hi2
      subst hi2
      split at hg2
      · simp only [Option.some.injEq] at hg2
        subst hg2
        refine ⟨d1, by simpa [departed] using q2, d3, d4, fun p hp hp0 => q5 p (d5 p hp hp0) hp0,
          fun hl => absurd hl hnl, by rw [if_neg hnl] at q7 ⊢; exact q7⟩
      · exact absurd hg2 (by simp)
    · exact h3 i2 g2 hg2
  · intro b kb hkb
    simp only [List.getElem?_set] at hkb
    split at hkb
    · split at hkb
      · simp only [Option.some.injEq] at hkb
        subst hkb
        exact ⟨b1, b2, fun hne => absurd rfl hne, fun hc => by simp at hc⟩
      · exact absurd hkb (by simp)
    · rename_i hwb
      have hne : kb.cl ≠ k.cl := fun heq => hwb (h5 w b k kb hk hkb heq.symm)
      refine worker_ok_shm (h4 b kb hkb) (by simp) ?_
      intro i2 g2 hg2 hm
      by_cases hi2 : i0 = i2
      · subst hi2
        rw [hg] at hg2
        simp only [Option.some.injEq] at hg2
        subst hg2
        refine ⟨departed cfg k.cl g, ?_, d6 _ hm hne⟩
        simp only
        rw [List.getElem?_set_self (getElem?_lt hg)]
      · refine ⟨g2, ?_, hm⟩
        simp only
        rw [List.getElem?_set_ne hi2]
        exact hg2

theorem handles_append (evs : List event) (e : event) :
    handles (evs ++ [e]) = handles evs ++ handles [e] := by
  induction evs with
  | nil => simp [handles]
  | cons x xs ih =>
    cases x <;> simp [handles, ih]

theorem run_snoc (cfg : config) (evs : List event) (e : event) :
    run cfg (evs ++ [e]) = (run cfg evs).bind (fun sys => step cfg sys e) := by
  unfold run
  rw [List.foldl_append]
  rfl

theorem seats_ok_step {cfg : config} {used : List Int} {sys sys1 : server} {e : event}
    (hcap : 1 ≤ cfg.maxplayers) (h : seats_ok cfg used sys)
    (hfresh : ∀ c ∈ handles [e], c ≠ 0 ∧ c ∉ used)
    (hstep : step cfg sys e = some sys1) : seats_ok cfg (used ++ handles [e]) sys1 := by
  have hsub : ∀ x ∈ used, x ∈ used ++ handles [e] := fun x hx => List.mem_append_left _ hx
  cases e with
  | connect cl recvd =>
    have hc := hfresh cl (by simp [handles])
    simp only [step] at hstep
    split at hstep
    · rename_i gn nm s hin
      simp only [Option.some.injEq] at hstep
      subst hstep
      exact seats_ok_admit hcap h hc.1 hc.2 hin
    · rename_i nm s hin
      simp only [Option.some.injEq] at hstep
      subst hstep
      rw [insert_player_rejected hin]
      exact seats_ok_mono h hsub
    · rename_i s hin
      simp only [Option.some.injEq] at hstep
      subst hstep
      rw [insert_player_closed hin]
      exact seats_ok_mono h hsub
    · exact absurd hstep (by simp)
  | poll w =>
    simp only [step] at hstep
    split at hstep
    · exact absurd hstep (by simp)
    · rename_i k hk
      split at hstep
      · rename_i hwait
        split at hstep
        · rename_i hfull
          simp only [Option.some.injEq] at hstep
          subst hstep
          exact seats_ok_mono (seats_ok_poll h hk hwait hfull) hsub
        · simp only [Option.some.injEq] at hstep
          subst hstep
          exact seats_ok_mono h hsub
      · exact absurd hstep (by simp)
  | say w recvd =>
    simp only [step] at hstep
    split at hstep
    · exact absurd hstep (by simp)
    · split at hstep
      · split at hstep
        · exact absurd hstep (by simp)
        · rename_i s hs
          simp only [Option.some.injEq] at hstep
          subst hstep
          unfold action_chat at hs
          split at hs
          · exact absurd hs (by simp)
          · simp only [Option.some.injEq] at hs
            subst hs
            exact seats_ok_mono (seats_ok_say h rfl) hsub
      · exact absurd hstep (by simp)
  | hangup w =>
    simp only [step] at hstep
    split at hstep
    · exact absurd hstep (by simp)
    · rename_i k hk
      split at hstep
      · rename_i hchat
        split at hstep
        · exact absurd hstep (by simp)
        · rename_i s hs
          simp only [Option.some.injEq] at hstep
          subst hstep
          exact seats_ok_mono (seats_ok_hangup h hk hchat hs) hsub
      · exact absurd hstep (by simp)

theorem seats_ok_run {cfg : config} (hcap : 1 ≤ cfg.maxplayers) (evs : List event) :
    ∀ sys, (handles evs).Nodup → (0 : Int) ∉ handles evs → run cfg evs = some sys →
      seats_ok cfg (handles evs) sys := by
  induction evs using List.reverseRecOn with
  | nil =>
    intro sys _ _ hrun
    exact seats_ok_boot hcap hrun
  | append_singleton evs e ih =>
    intro sys hnd hnz hrun
    rw [run_snoc] at hrun
    cases hprev : run cfg evs with
    | none => rw [hprev] at hrun; exact absurd hrun (by simp)
    | some sys0 =>
      rw [hprev] at hrun
      simp only [Option.some_bind] at hrun
      rw [handles_append] at hnd hnz ⊢
      rw [List.nodup_append] at hnd
      have h0 := ih sys0 hnd.1 (fun hc => hnz (List.mem_append_left _ hc)) hprev
      refine seats_ok_step hcap h0 ?_ hrun
      intro c hc
      exact ⟨fun hz => hnz (List.mem_append_right _ (hz ▸ hc)), fun hu => hnd.2.2 hu hc⟩

/-- C2: in every state the server reaches from `init_server` by approvals with
fresh non-zero handles, starts, chats and departures, for capacity at least 1,
the counter `active` of every game equals the number of its occupied slots and
lies between 0 and the capacity, and at most capacity requests were ever
approved for any one game. -/
theorem active_counts_slots (cfg : config) (evs : List event) (sys : server) (j : Int)
    (g : game_t) (hcap : 1 ≤ cfg.maxplayers) (hnd : (handles evs).Nodup)
    (hnz : (0 : Int) ∉ handles evs) (hrun : run cfg evs = some sys)
    (hg : get_game sys.shm j = some g) :
    g.active = (occupied cfg g : Int) ∧ 0 ≤ g.active ∧ g.active ≤ cfg.maxplayers ∧
      ∀ j1 : Int, (admissions sys.approved j1 : Int) ≤ cfg.maxplayers := by
  have h := seats_ok_run hcap evs sys hnd hnz hrun
  obtain ⟨i, rfl, hi⟩ := get_game_iff.mp hg
  obtain ⟨-, h2, h3, -, -⟩ := h
  have hbound : ∀ (i1 : Nat) (g1 : game_t), sys.shm.game[i1]? = some g1 →
      g1.active = (occupied cfg g1 : Int) ∧ 0 ≤ g1.active ∧ g1.active ≤ cfg.maxplayers := by
    intro i1 g1 hi1
    obtain ⟨-, -, q3, -, -, q6, -⟩ := h3 i1 g1 hi1
    refine ⟨q3, by rw [q3]; exact Int.natCast_nonneg _, ?_⟩
    by_cases hl : i1 + 1 = sys.shm.game.length
    · exact le_of_lt (q6 hl).1
    · rw [q3]
      unfold occupied
      have h1 : ((g1.players.take cfg.maxplayers.toNat).filter (fun p => p != 0)).length
          ≤ cfg.maxplayers.toNat :=
        le_trans (List.length_filter_le _ _) (by rw [List.length_take]; exact Nat.min_le_left _ _)
      omega
  refine ⟨(hbound i g hi).1, (hbound i g hi).2.1, (hbound i g hi).2.2, ?_⟩
  intro j1
  by_cases hj : 1 ≤ j1 ∧ j1 ≤ (sys.shm.game.length : Int)
  · obtain ⟨i1, hi1⟩ : ∃ i1 : Nat, j1 = (i1 : Int) + 1 := ⟨(j1 - 1).toNat, by omega⟩
    subst hi1
    have hlt : i1 < sys.shm.game.length := by omega
    have hg1 : sys.shm.game[i1]? = some (sys.shm.game[i1]) := List.getElem?_eq_getElem hlt
    obtain ⟨-, -, -, -, -, -, q7⟩ := h3 i1 _ hg1
    rw [q7]
    split
    · exact (hbound i1 _ hg1).2.2
    · exact le_refl _
  · rw [admissions_none]
    · simp only [Nat.cast_zero]; omega
    · intro a ha hc
      exact hj (hc ▸ h2 a ha)

/-- Scenario A as an instance of `active_counts_slots`: game 1 after X left. -/
theorem active_counts_slots_witness :
    (1 : Int) ≤ scenario_cfg.maxplayers ∧ (handles scenario_events).Nodup ∧
    (0 : Int) ∉ handles scenario_events ∧
    run scenario_cfg scenario_events = some scenario_end ∧
    get_game scenario_end.shm 1 = some scenario_game ∧
    (scenario_game.active = (occupied scenario_cfg scenario_game : Int) ∧
      0 ≤ scenario_game.active ∧ scenario_game.active ≤ scenario_cfg.maxplayers ∧
      ∀ j1 : Int, (admissions scenario_end.approved j1 : Int) ≤ scenario_cfg.maxplayers) :=
  ⟨by decide, by decide, by decide, by decide, by decide,
   active_counts_slots scenario_cfg scenario_events scenario_end 1 scenario_game
     (by decide) (by decide) (by decide) (by decide) (by decide)⟩

theorem open_ok_boot {cfg : config} {sys : server} (hcap : 1 ≤ cfg.maxplayers)
    (h : boot cfg = some sys) : open_ok cfg sys := by
  unfold boot init_server at h
  split at h
  · exact absurd h (by simp)
  · rename_i s hs
    split at hs
    · exact absurd hs (by simp)
    · simp only [Option.some.injEq] at hs h
      subst hs
      subst h
      refine ⟨?_, by simp⟩
      intro g hg
      simp only [List.length_singleton, Nat.sub_self, List.getElem?_cons_zero,
        Option.some.injEq] at hg
      subst hg
      simp only [next_game, blank_game]
      omega

theorem open_ok_set {cfg : config} {sys : server} (h : open_ok cfg sys) {i : Nat} {g1 : game_t}
    (hi : i + 1 < sys.shm.game.length) (shm1 : shm_t) (hshm : shm1.game = sys.shm.game.set i g1)
    (ws : List worker)
    (hws : ∀ (w : Nat) (k : worker), ws[w]? = some k → k.at_stage = stage.chatting →
      k.game_number < sys.shm.game_num) (ap : List (Int × List Int)) :
    open_ok cfg { shm := shm1, workers := ws, approved := ap } := by
  refine ⟨?_, ?_⟩
  · intro g hg
    simp only [hshm, List.length_set] at hg
    rw [List.getElem?_set_ne (by omega)] at hg
    exact h.1 g hg
  · intro w k hk hc
    have := hws w k hk hc
    unfold shm_t.game_num at this ⊢
    simp only
    rw [hshm, List.length_set]
    exact this

theorem open_full_older {cfg : config} {sys : server} {j : Int}
    (h : open_ok cfg sys) (hfull : game_full cfg sys.shm j = true) : j < sys.shm.game_num := by
  unfold game_full at hfull
  split at hfull
  · rename_i g hg
    obtain ⟨i, rfl, hi⟩ := get_game_iff.mp hg
    simp only [Bool.not_eq_true', decide_eq_false_iff_not, not_lt] at hfull
    have hlt := getElem?_lt hi
    unfold shm_t.game_num
    by_cases hl : i = sys.shm.game.length - 1
    · have := h.1 g (hl ▸ hi)
      omega
    · omega
  · exact absurd hfull (by simp)

theorem open_ok_step {cfg : config} {sys sys1 : server} {e : event}
    (hcap : 1 ≤ cfg.maxplayers) (h : open_ok cfg sys)
    (hstep : step cfg sys e = some sys1) : open_ok cfg sys1 := by
  cases e with
  | connect cl recvd =>
    simp only [step] at hstep
    split at hstep
    · rename_i gn nm s hin
      simp only [Option.some.injEq] at hstep
      subst hstep
      obtain ⟨r, -, -, hsec⟩ := insert_player_admitted hin
      obtain ⟨pre, g, hpre, -, -, -, -, -, hgn, -, hs1⟩ := insert_section_admitted hsec
      have hlen : sys.shm.game.length = pre.length + 1 := by rw [hpre]; simp
      have hw : ∀ (len1 : Nat), pre.length + 1 ≤ len1 → ∀ (w : Nat) (k : worker),
          (sys.workers ++
            [{ cl := cl, game_number := gn, name := nm, at_stage := stage.waiting }])[w]?
              = some k →
          k.at_stage = stage.chatting → k.game_number < (len1 : Int) := by
        intro len1 hl w k hk hc
        rcases getElem?_snoc_cases hk with ⟨-, hold⟩ | ⟨-, rfl⟩
        · have := h.2 w k hold hc
          unfold shm_t.game_num at this
          rw [hlen] at this
          omega
        · simp at hc
      rcases hs1 with ⟨hfull, inv, -, rfl⟩ | ⟨hroom, rfl⟩
      · refine ⟨?_, ?_⟩
        · intro g1 hg1
          simp only [List.length_append, List.length_singleton, Nat.add_sub_cancel] at hg1
          rw [List.getElem?_append_right (by simp)] at hg1
          simp only [List.length_append, List.length_singleton, Nat.sub_self,
            List.getElem?_cons_zero, Option.some.injEq] at hg1
          subst hg1
          simp only [next_game, blank_game]
          omega
        · intro w k hk hc
          have := hw (pre.length + 2) (by omega) w k hk hc
          unfold shm_t.game_num
          simp only [List.length_append, List.length_singleton]
          push_cast at this ⊢
          omega
      · refine ⟨?_, ?_⟩
        · intro g1 hg1
          simp only [List.length_append, List.length_singleton, Nat.add_sub_cancel] at hg1
          rw [List.getElem?_concat_length] at hg1
          simp only [Option.some.injEq] at hg1
          subst hg1
          exact hroom
        · intro w k hk hc
          have := hw (pre.length + 1) (by omega) w k hk hc
          unfold shm_t.game_num
          simp only [List.length_append, List.length_singleton]
          push_cast at this ⊢
          omega
    · rename_i nm s hin
      simp only [Option.some.injEq] at hstep
      subst hstep
      rw [insert_player_rejected hin]
      exact h
    · rename_i s hin
      simp only [Option.some.injEq] at hstep
      subst hstep
      rw [insert_player_closed hin]
      exact h
    · exact absurd hstep (by simp)
  | poll w =>
    simp only [step] at hstep
    split at hstep
    · exact absurd hstep (by simp)
    · rename_i k hk
      split at hstep
      · split at hstep
        · rename_i hfull
          simp only [Option.some.injEq] at hstep
          subst hstep
          refine ⟨h.1, ?_⟩
          intro b kb hkb hc
          simp only [List.getElem?_set] at hkb
          split at hkb
          · split at hkb
            · simp only [Option.some.injEq] at hkb
              subst hkb
              exact @open_full_older cfg sys _ h hfull
            · exact absurd hkb (by simp)
          · exact h.2 b kb hkb hc
        · simp only [Option.some.injEq] at hstep
          subst hstep
          exact h
      · exact absurd hstep (by simp)
  | say w recvd =>
    simp only [step] at hstep
    split at hstep
    · exact absurd hstep (by simp)
    · split at hstep
      · split at hstep
        · exact absurd hstep (by simp)
        · rename_i s hs
          simp only [Option.some.injEq] at hstep
          subst hstep
          unfold action_chat at hs
          split at hs
          · exact absurd hs (by simp)
          · simp only [Option.some.injEq] at hs
            subst hs
            exact h
      · exact absurd hstep (by simp)
  | hangup w =>
    simp only [step] at hstep
    split at hstep
    · exact absurd hstep (by simp)
    · rename_i k hk
      split at hstep
      · rename_i hchat
        split at hstep
        · exact absurd hstep (by simp)
        · rename_i s hs
          simp only [Option.some.injEq] at hstep
          subst hstep
          obtain ⟨i, g, hj, hg, rfl⟩ := action_leave_some hs
          have hold := h.2 w k hk hchat
          unfold shm_t.game_num at hold
          refine open_ok_set h (by omega) _ rfl _ ?_ _
          intro b kb hkb hc
          simp only [List.getElem?_set] at hkb
          split at hkb
          · split at hkb
            · simp only [Option.some.injEq] at hkb
              subst hkb
              simp at hc
            · exact absurd hkb (by simp)
          · exact h.2 b kb hkb hc
      · exact absurd hstep (by simp)

theorem open_ok_run {cfg : config} (hcap : 1 ≤ cfg.maxplayers) (evs : List event)
    (sys : server) (hrun : run cfg evs = some sys) : open_ok cfg sys :=
  run_invariant cfg (open_ok cfg) (fun _ hs => open_ok_boot hcap hs)
    (fun _ _ _ hP hs => open_ok_step hcap hP hs) evs sys hrun

/-- C6: for capacity at least 1, in every state the server reaches from
`init_server`, an approval creates a next game if and only if it brings
`active` of the game it joins to the capacity; it creates at most one game;
the game created has the next number, `active` 0, every slot 0 and the
inventory of the template, and it is the game `shm->game_num` points to, which
the next `insert_player` reads. -/
theorem successor_iff_full (cfg : config) (tpl : List Int) (evs : List event) (sys : server)
    (cl : Int) (recvd : List Char) (gn : Int) (nm : List Char) (s1 : shm_t)
    (hcap : 1 ≤ cfg.maxplayers)
    (htpl : read_inventory cfg.inv_file blank_game.inv = some tpl)
    (hrun : run cfg evs = some sys)
    (hin : insert_player cfg sys.shm cl recvd = Outcome.admitted gn nm s1) :
    ∃ g1, get_game s1 gn = some g1 ∧
      (s1.game_num = sys.shm.game_num ∨ s1.game_num = sys.shm.game_num + 1) ∧
      (s1.game_num = sys.shm.game_num + 1 ↔ g1.active = cfg.maxplayers) ∧
      (s1.game_num = sys.shm.game_num + 1 →
        s1.game_num = gn + 1 ∧ get_game s1 s1.game_num = some (next_game tpl) ∧
        (next_game tpl).active = 0 ∧ (∀ p ∈ (next_game tpl).players, p = 0) ∧
        (next_game tpl).inv = tpl) ∧
      (s1.game_num = sys.shm.game_num → get_game s1 s1.game_num = some g1) := by
  have hopen := open_ok_run hcap evs sys hrun
  obtain ⟨r, -, -, hsec⟩ := insert_player_admitted hin
  obtain ⟨pre, g, hpre, -, -, -, -, -, hgn, -, hs1⟩ := insert_section_admitted hsec
  have hlen : sys.shm.game.length = pre.length + 1 := by rw [hpre]; simp
  have hlt : g.active < cfg.maxplayers := by
    apply hopen.1 g
    rw [hlen, hpre]
    exact List.getElem?_concat_length _ _
  have hgnv : gn = (pre.length : Int) + 1 := by
    rw [hgn]; unfold shm_t.game_num; rw [hlen]; push_cast; rfl
  have hnum : sys.shm.game_num = (pre.length : Int) + 1 := by rw [← hgn, hgnv]
  refine ⟨seat g cl r, ?_, ?_⟩
  · rw [hgnv, get_game_succ]
    rcases hs1 with ⟨-, inv, -, rfl⟩ | ⟨-, rfl⟩
    · simp only
      rw [List.append_assoc, List.getElem?_append_right (le_refl _)]
      simp
    · simp only
      exact List.getElem?_concat_length _ _
  · rcases hs1 with ⟨hfull, inv, hinv, rfl⟩ | ⟨hroom, rfl⟩
    · rw [htpl] at hinv
      simp only [Option.some.injEq] at hinv
      subst hinv
      have hn1 : ({ sys.shm with game := pre ++ [seat g cl r] ++ [next_game tpl] } : shm_t).game_num
          = (pre.length : Int) + 1 + 1 := by
        unfold shm_t.game_num; simp; omega
      rw [hn1, hnum]
      have hact : (seat g cl r).active = cfg.maxplayers := by
        simp only [seat]; omega
      refine ⟨Or.inr rfl, ⟨fun _ => hact, fun _ => rfl⟩, ?_, fun hc => by omega⟩
      intro _
      refine ⟨by rw [hgnv], ?_, rfl, ?_, rfl⟩
      · have : ((pre.length : Int) + 1 + 1) = ((pre.length + 1 : Nat) : Int) + 1 := by push_cast; rfl
        rw [this, get_game_succ]
        simp only
        have h2 : pre.length + 1 = (pre ++ [seat g cl r]).length := by simp
        rw [h2]
        exact List.getElem?_concat_length _ _
      · intro p hp
        simp only [next_game, blank_game, List.mem_replicate] at hp
        exact hp.2
    · have hn1 : ({ sys.shm with game := pre ++ [seat g cl r] } : shm_t).game_num
          = (pre.length : Int) + 1 := by
        unfold shm_t.game_num; simp
      rw [hn1, hnum]
      have hact : (seat g cl r).active ≠ cfg.maxplayers := by
        simp only [seat]; omega
      refine ⟨Or.inl rfl, ⟨fun hc => by omega, fun hc => absurd hc hact⟩, fun hc => by omega, ?_⟩
      intro _
      rw [get_game_succ]
      simp only
      exact List.getElem?_concat_length _ _

/-- Scenario A as an instance of `successor_iff_full`: the approval of Z. -/
theorem successor_iff_full_witness :
    (1 : Int) ≤ scenario_cfg.maxplayers ∧
    read_inventory scenario_cfg.inv_file blank_game.inv = some [5, 0, 0, 0, 0, 0] ∧
    run scenario_cfg (scenario_events.take 2) = some scenario_mid ∧
    insert_player scenario_cfg scenario_mid.shm 6 "Z\ngold\t2\n".toList
      = Outcome.admitted 1 ['Z'] scenario_started ∧
    ∃ g1, get_game scenario_started 1 = some g1 ∧
      (scenario_started.game_num = scenario_mid.shm.game_num ∨
        scenario_started.game_num = scenario_mid.shm.game_num + 1) ∧
      (scenario_started.game_num = scenario_mid.shm.game_num + 1 ↔
        g1.active = scenario_cfg.maxplayers) ∧
      (scenario_started.game_num = scenario_mid.shm.game_num + 1 →
        scenario_started.game_num = 1 + 1 ∧
        get_game scenario_started scenario_started.game_num
          = some (next_game [5, 0, 0, 0, 0, 0]) ∧
        (next_game [5, 0, 0, 0, 0, 0]).active = 0 ∧
        (∀ p ∈ (next_game [5, 0, 0, 0, 0, 0]).players, p = 0) ∧
        (next_game [5, 0, 0, 0, 0, 0]).inv = [5, 0, 0, 0, 0, 0]) ∧
      (scenario_started.game_num = scenario_mid.shm.game_num →
        get_game scenario_started scenario_started.game_num = some g1) :=
  ⟨by decide, by decide, by decide, by decide,
   successor_iff_full scenario_cfg [5, 0, 0, 0, 0, 0] (scenario_events.take 2) scenario_mid
     6 "Z\ngold\t2\n".toList 1 ['Z'] scenario_started
     (by decide) (by decide) (by decide) (by decide)⟩

/-- C3 (code at the failing input): with quota 4, the request gold:2 and
armor:3 (total 5) is disapproved and the shared memory stays as it was; but the
request gold:2147483647, gold:2147483647, gold:2, whose total 4294967296 is
more than the quota, is approved, because `sum` wraps around to 0 in `int`
arithmetic (and so does `temp[0]`, so no gold is deducted). -/
theorem quota_check_wraps :
    init_server scenario_b_cfg = some scenario_b_shm ∧
    insert_player scenario_b_cfg scenario_b_shm 4 "X\ngold\t2\narmor\t3\n".toList
      = Outcome.rejected ['X'] scenario_b_shm ∧
    scan_request "X\ngold\t2147483647\ngold\t2147483647\ngold\t2\n".toList
      = some { ok := true, name := ['X'], temp := [0, 0, 0, 0, 0, 0], sum := 0 } ∧
    insert_player scenario_b_cfg scenario_b_shm 4
        "X\ngold\t2147483647\ngold\t2147483647\ngold\t2\n".toList
      = Outcome.admitted 1 ['X'] (scenario_b_seated ['X'] 5) := by
  decide

/-- C4 (code at the failing input): with gold:2 left, the request gold:3 is
disapproved and the shared memory stays as it was; but the request
gold:2147483647, gold:2147483647, gold:4, which asks 4294967298 units of gold,
is approved and takes the last 2 units, because `temp[0]` wraps around to 2 in
`int` arithmetic. -/
theorem stock_check_wraps :
    insert_player scenario_cfg scenario_mid.shm 5 "Y\ngold\t3\n".toList
      = Outcome.rejected ['Y'] scenario_mid.shm ∧
    scan_request "Y\ngold\t2147483647\ngold\t2147483647\ngold\t4\n".toList
      = some { ok := true, name := ['Y'], temp := [2, 0, 0, 0, 0, 0], sum := 2 } ∧
    ∃ s1, insert_player scenario_cfg scenario_mid.shm 5
        "Y\ngold\t2147483647\ngold\t2147483647\ngold\t4\n".toList
      = Outcome.admitted 1 ['Y'] s1 ∧
      (s1.game.map (fun g => g.inv)) = [[0, 0, 0, 0, 0, 0], [5, 0, 0, 0, 0, 0]] := by
  refine ⟨by decide, by decide, _, rfl, by decide⟩

/-- C5 (code at the failing input): from gold:5 the request gold:3 leaves
gold:2; but the approved request gold:2147483647, gold:2147483647, gold:3,
whose gold lines add up to 4294967297, lowers the live quantity of gold by 1
only, from 5 to 4, because `temp[0]` wraps around in `int` arithmetic. -/
theorem deduction_wraps :
    insert_player scenario_b_cfg scenario_b_shm 4 "X\ngold\t3\n".toList
      = Outcome.admitted 1 ['X'] (scenario_b_seated ['X'] 2) ∧
    insert_player scenario_b_cfg scenario_b_shm 4
        "X\ngold\t2147483647\ngold\t2147483647\ngold\t3\n".toList
      = Outcome.admitted 1 ['X'] (scenario_b_seated ['X'] 4) := by
  decide

/-- C8 (code at the failing input): a first line of white space only is
disapproved; with no line at all `strtok` returns `NULL`, which goes to
`sscanf` (no defined result); and after an empty first line `strtok` hands the
resource line `gold TAB 3` to the name scan, so the player is approved under
the name `gold` with an empty request. -/
theorem resource_line_taken_as_name :
    insert_player scenario_b_cfg scenario_b_shm 4 " \ngold\t3\n".toList
      = Outcome.rejected [] scenario_b_shm ∧
    insert_player scenario_b_cfg scenario_b_shm 4 "\n".toList = Outcome.fault ∧
    strtok (cstr ("\ngold\t3\n".toList.take MAXBUF)) = ["gold\t3".toList] ∧
    insert_player scenario_b_cfg scenario_b_shm 4 "\ngold\t3\n".toList
      = Outcome.admitted 1 "gold".toList (scenario_b_seated "gold".toList 5) := by
  decide

/-- A line that stops the loop whatever the locals hold makes `ok` 0, when the
loop has a defined result. -/
theorem scan_loop_stops (lines : List (List Char)) :
    ∀ (res : Option (List Char)) (num : Option Int) (temp : List Int) (sum : Int)
      (ok : Bool) (temp1 : List Int) (sum1 : Int),
      (∃ l ∈ lines, ∀ res1 num1 r n, scan_line l res1 num1 ≠ line_result.good r n) →
      scan_loop lines res num temp sum = some (ok, temp1, sum1) → ok = false := by
  induction lines with
  | nil =>
    intro res num temp sum ok temp1 sum1 hbad _
    obtain ⟨l, hl, -⟩ := hbad
    simp at hl
  | cons line rest ih =>
    intro res num temp sum ok temp1 sum1 hbad h
    rw [scan_loop] at h
    split at h
    · exact absurd h (by simp)
    · simp only [Option.some.injEq, Prod.mk.injEq] at h
      exact h.1.symm
    · rename_i r n hgood
      obtain ⟨l, hl, hnever⟩ := hbad
      rcases List.mem_cons.mp hl with rfl | hl
      · exact absurd hgood (hnever _ _ _ _)
      · exact ih _ _ _ _ _ _ _ ⟨l, hl, hnever⟩ h

theorem scan_line_two_wrong {line res : List Char} {num : Int}
    (hscan : sscanf_s_d line = scanned.two res num) (hwrong : resource_id res < 0 ∨ num ≤ 0) :
    ∀ res1 num1 r n, scan_line line res1 num1 ≠ line_result.good r n := by
  intro res1 num1 r n
  unfold scan_line
  rw [hscan]
  simp only
  by_cases hm : MAX ≤ res.length
  · rw [if_pos hm]; simp
  · rw [if_neg hm, if_pos hwrong]; simp

theorem scan_line_one {line res : List Char} (hscan : sscanf_s_d line = scanned.one res) :
    ∀ res1 num1 r n, scan_line line res1 num1 ≠ line_result.good r n := by
  intro res1 num1 r n
  unfold scan_line
  rw [hscan]
  simp only
  split <;> simp

/-- A defined parse whose resource lines contain a line that stops the loop has
`ok` 0. -/
theorem scan_request_stops {recvd : List Char} {r : request} {first : List Char}
    {rest : List (List Char)} (hparse : scan_request recvd = some r)
    (hlines : strtok (cstr (recvd.take MAXBUF)) = first :: rest)
    (hbad : ∃ l ∈ rest, ∀ res1 num1 r n, scan_line l res1 num1 ≠ line_result.good r n) :
    r.ok = false := by
  unfold scan_request at hparse
  split at hparse
  · exact absurd hparse (by simp)
  · rw [hlines] at hparse
    simp only at hparse
    split at hparse
    · simp only [Option.some.injEq] at hparse
      rw [← hparse]
    · split at hparse
      · exact absurd hparse (by simp)
      · split at hparse
        · exact absurd hparse (by simp)
        · rename_i ok temp sum hloop
          simp only [Option.some.injEq] at hparse
          rw [← hparse]
          exact scan_loop_stops _ _ _ _ _ _ _ _ hbad hloop

theorem insert_player_not_ok {cfg : config} {s : shm_t} {cl : Int} {recvd : List Char}
    {r : request} {g : game_t} (hne : recvd ≠ []) (hparse : scan_request recvd = some r)
    (hok : r.ok = false) (hg : get_game s s.game_num = some g) :
    insert_player cfg s cl recvd = Outcome.rejected r.name s := by
  unfold insert_player
  rw [if_neg hne, hparse]
  simp only
  unfold insert_section
  rw [hg]
  simp [hok]

/-- The tests on a resource line (supporting C9): `resource_id` gives 0 to 5
for gold, armor, ammo, lumber, magic, rock in this order and -1 for every other
token; and for every received registration whose parse is defined (the buffer
is terminated, every token fits its array, no uninitialised local is read) and
that has, after the first line, a resource line whose name `resource_id` does
not know or whose amount, as `%d` stored it in the `int` `num`, is at most 0,
`insert_player` disapproves and the shared memory stays as it was. The amount
written on the line can differ from the `int` stored (C9). -/
theorem unknown_resource_rejected (cfg : config) (s : shm_t) (cl : Int) (recvd : List Char)
    (r : request) (first : List Char) (rest : List (List Char)) (bad res : List Char)
    (num : Int) (g : game_t)
    (hne : recvd ≠ []) (hparse : scan_request recvd = some r)
    (hlines : strtok (cstr (recvd.take MAXBUF)) = first :: rest) (hbad : bad ∈ rest)
    (hscan : sscanf_s_d bad = scanned.two res num) (hwrong : resource_id res < 0 ∨ num ≤ 0)
    (hg : get_game s s.game_num = some g) :
    insert_player cfg s cl recvd = Outcome.rejected r.name s ∧
    resource_id "gold".toList = 0 ∧ resource_id "armor".toList = 1 ∧
    resource_id "ammo".toList = 2 ∧ resource_id "lumber".toList = 3 ∧
    resource_id "magic".toList = 4 ∧ resource_id "rock".toList = 5 ∧
    ∀ t : List Char, t ≠ "gold".toList → t ≠ "armor".toList → t ≠ "ammo".toList →
      t ≠ "lumber".toList → t ≠ "magic".toList → t ≠ "rock".toList → resource_id t = -1 := by
  refine ⟨?_, by decide, by decide, by decide, by decide, by decide, by decide, ?_⟩
  · exact insert_player_not_ok hne hparse
      (scan_request_stops hparse hlines ⟨bad, hbad, scan_line_two_wrong hscan hwrong⟩) hg
  · intro t h1 h2 h3 h4 h5 h6
    unfold resource_id
    rw [if_neg h1, if_neg h2, if_neg h3, if_neg h4, if_neg h5, if_neg h6]

/-- An instance of `unknown_resource_rejected`: the line `wood TAB 3` after `gold TAB 1`. -/
theorem unknown_resource_rejected_witness :
    "X\ngold\t1\nwood\t3\n".toList ≠ [] ∧
    scan_request "X\ngold\t1\nwood\t3\n".toList
      = some { ok := false, name := ['X'], temp := [1, 0, 0, 0, 0, 0], sum := 1 } ∧
    strtok (cstr ("X\ngold\t1\nwood\t3\n".toList.take MAXBUF))
      = ['X'] :: ["gold\t1".toList, "wood\t3".toList] ∧
    "wood\t3".toList ∈ ["gold\t1".toList, "wood\t3".toList] ∧
    sscanf_s_d "wood\t3".toList = scanned.two "wood".toList 3 ∧
    (resource_id "wood".toList < 0 ∨ (3 : Int) ≤ 0) ∧
    get_game scenario_b_shm scenario_b_shm.game_num = some (next_game [5, 5, 0, 0, 0, 0]) ∧
    (insert_player scenario_b_cfg scenario_b_shm 4 "X\ngold\t1\nwood\t3\n".toList
        = Outcome.rejected ['X'] scenario_b_shm ∧
      resource_id "gold".toList = 0 ∧ resource_id "armor".toList = 1 ∧
      resource_id "ammo".toList = 2 ∧ resource_id "lumber".toList = 3 ∧
      resource_id "magic".toList = 4 ∧ resource_id "rock".toList = 5 ∧
      ∀ t : List Char, t ≠ "gold".toList → t ≠ "armor".toList → t ≠ "ammo".toList →
        t ≠ "lumber".toList → t ≠ "magic".toList → t ≠ "rock".toList → resource_id t = -1) :=
  ⟨by decide, by decide, by decide, by decide, by decide, by decide, by decide,
   unknown_resource_rejected scenario_b_cfg scenario_b_shm 4 "X\ngold\t1\nwood\t3\n".toList
     { ok := false, name := ['X'], temp := [1, 0, 0, 0, 0, 0], sum := 1 } ['X']
     ["gold\t1".toList, "wood\t3".toList] "wood\t3".toList "wood".toList 3
     (next_game [5, 5, 0, 0, 0, 0])
     (by decide) (by decide) (by decide) (by decide) (by decide) (by decide) (by decide)⟩

/-- C7 (counterexample): a resource line with a space instead of the tab, and a
resource line with extra text after the amount, are read as gold:3 and the
registration is approved; a line of white space only after the line gold:1
counts as a second gold:1. -/
theorem malformed_lines_accepted :
    insert_player scenario_b_cfg scenario_b_shm 4 "X\ngold 3\n".toList
      = Outcome.admitted 1 ['X'] (scenario_b_seated ['X'] 2) ∧
    insert_player scenario_b_cfg scenario_b_shm 4 "X\ngold\t3 and more\n".toList
      = Outcome.admitted 1 ['X'] (scenario_b_seated ['X'] 2) ∧
    insert_player scenario_b_cfg scenario_b_shm 4 "X\ngold\t1\n \n".toList
      = Outcome.admitted 1 ['X'] (scenario_b_seated ['X'] 3) := by
  decide

/-- C7 (amended): for every received registration whose parse is defined and
that has, after the first line, a line with a resource name and no amount
(`sscanf` returns 1), `insert_player` disapproves the whole registration and
the shared memory (inventory, slots, `active`, number of games) stays as it
was. -/
theorem missing_amount_rejected (cfg : config) (s : shm_t) (cl : Int) (recvd : List Char)
    (r : request) (first : List Char) (rest : List (List Char)) (bad res : List Char)
    (g : game_t)
    (hne : recvd ≠ []) (hparse : scan_request recvd = some r)
    (hlines : strtok (cstr (recvd.take MAXBUF)) = first :: rest) (hbad : bad ∈ rest)
    (hscan : sscanf_s_d bad = scanned.one res)
    (hg : get_game s s.game_num = some g) :
    insert_player cfg s cl recvd = Outcome.rejected r.name s :=
  insert_player_not_ok hne hparse
    (scan_request_stops hparse hlines ⟨bad, hbad, scan_line_one hscan⟩) hg

/-- An instance of `missing_amount_rejected`: the line `armor` after `gold TAB 1`. -/
theorem missing_amount_rejected_witness :
    "X\ngold\t1\narmor\n".toList ≠ [] ∧
    scan_request "X\ngold\t1\narmor\n".toList
      = some { ok := false, name := ['X'], temp := [1, 0, 0, 0, 0, 0], sum := 1 } ∧
    strtok (cstr ("X\ngold\t1\narmor\n".toList.take MAXBUF))
      = ['X'] :: ["gold\t1".toList, "armor".toList] ∧
    "armor".toList ∈ ["gold\t1".toList, "armor".toList] ∧
    sscanf_s_d "armor".toList = scanned.one "armor".toList ∧
    get_game scenario_b_shm scenario_b_shm.game_num = some (next_game [5, 5, 0, 0, 0, 0]) ∧
    insert_player scenario_b_cfg scenario_b_shm 4 "X\ngold\t1\narmor\n".toList
      = Outcome.rejected ['X'] scenario_b_shm :=
  ⟨by decide, by decide, by decide, by decide, by decide, by decide,
   missing_amount_rejected scenario_b_cfg scenario_b_shm 4 "X\ngold\t1\narmor\n".toList
     { ok := false, name := ['X'], temp := [1, 0, 0, 0, 0, 0], sum := 1 } ['X']
     ["gold\t1".toList, "armor".toList] "armor".toList "armor".toList
     (next_game [5, 5, 0, 0, 0, 0])
     (by decide) (by decide) (by decide) (by decide) (by decide) (by decide)⟩

theorem clear_slots_idem (cap cl : Int) (ps : List Int) :
    clear_slots cap cl (clear_slots cap cl ps) = clear_slots cap cl ps := by
  apply List.ext_getElem?
  intro i
  unfold clear_slots
  rw [clear_slots_getElem?, clear_slots_getElem?]
  split
  · cases ps[i]? with
    | none => rfl
    | some p =>
      simp only [Option.map_some', Option.some.injEq]
      by_cases hp : p = cl
      · rw [if_pos hp]
        split <;> rfl
      · rw [if_neg hp, if_neg hp]
  · rfl

/-- The function `remove_player` is idempotent. -/
theorem remove_player_idem {cfg : config} {s s1 : shm_t} {cl j : Int}
    (h : remove_player cfg s cl j = some s1) : remove_player cfg s1 cl j = some s1 := by
  unfold remove_player at h ⊢
  split at h
  · exact absurd h (by simp)
  · rename_i g hg
    obtain ⟨i, rfl, hi⟩ := get_game_iff.mp hg
    simp only [Option.some.injEq] at h
    subst h
    have hlt := getElem?_lt hi
    rw [put_game_succ, get_game_succ]
    simp only [List.getElem?_set_self hlt]
    rw [put_game_succ]
    simp only [clear_slots_idem, List.set_set]

theorem set_same {α : Type} {l : List α} {i : Nat} {x : α} (h : l[i]? = some x) :
    l.set i x = l := by
  apply List.ext_getElem?
  intro n
  rw [List.getElem?_set]
  split
  · rename_i hin
    subst hin
    rw [if_pos (getElem?_lt h), h]
  · rfl

/-- C10 (counterexample): in scenario A after the start, the worker with handle
4 leaves game 1: slot 0 is cleared and `active` goes from 2 to 1. A second
application, with the slot already empty, leaves the slots alone but lowers
`active` to 0, and a third one lowers it to -1. -/
theorem leave_twice_decrements_twice :
    (action_leave scenario_cfg scenario_started 4 1).map
        (fun s1 => (get_game s1 1).map (fun g => (g.players.take 2, g.active)))
      = some (some ([0, 6], 1)) ∧
    ((action_leave scenario_cfg scenario_started 4 1).bind
        (fun s1 => action_leave scenario_cfg s1 4 1)).map
        (fun s2 => (get_game s2 1).map (fun g => (g.players.take 2, g.active)))
      = some (some ([0, 6], 0)) ∧
    (((action_leave scenario_cfg scenario_started 4 1).bind
        (fun s1 => action_leave scenario_cfg s1 4 1)).bind
        (fun s2 => action_leave scenario_cfg s2 4 1)).map
        (fun s3 => (get_game s3 1).map (fun g => (g.players.take 2, g.active)))
      = some (some ([0, 6], -1)) := by
  decide

/-- C10 (amended): for every state, handle and game, a second application of
the departure (`remove_player`, then `g->active--`) does nothing but decrement
`active` once more: slots, names, inventories and the other games stay as
after the first application, and `remove_player` alone changes nothing the
second time. In the server `action` applies the departure once per worker, and
in every state reached with fresh non-zero handles `active` is at least 0. -/
theorem second_leave_only_decrements (cfg : config) (s s1 s2 : shm_t) (cl j : Int) (g1 : game_t)
    (evs : List event) (sys : server) (j0 : Int) (g0 : game_t)
    (h1 : action_leave cfg s cl j = some s1) (h2 : action_leave cfg s1 cl j = some s2)
    (hg1 : get_game s1 j = some g1)
    (hcap : 1 ≤ cfg.maxplayers) (hnd : (handles evs).Nodup) (hnz : (0 : Int) ∉ handles evs)
    (hrun : run cfg evs = some sys) (hg0 : get_game sys.shm j0 = some g0) :
    s2 = put_game s1 j { g1 with active := wrap32 (g1.active - 1) } ∧
    remove_player cfg s1 cl j = some s1 ∧ 0 ≤ g0.active := by
  obtain ⟨i, g, hj, hg, rfl⟩ := action_leave_some h1
  obtain ⟨i2, g2, hj2, hg2, rfl⟩ := action_leave_some h2
  have hii : i2 = i := by omega
  subst hii
  have hlt := getElem?_lt hg
  simp only [List.getElem?_set_self hlt, Option.some.injEq] at hg2
  subst hg2
  rw [hj, get_game_succ] at hg1
  simp only [List.getElem?_set_self hlt, Option.some.injEq] at hg1
  subst hg1
  have hclear : clear_slots cfg.maxplayers cl (departed cfg cl g).players
      = (departed cfg cl g).players := by
    simp only [departed]
    exact clear_slots_idem _ _ _
  refine ⟨?_, ?_, ?_⟩
  · rw [hj, put_game_succ]
    simp only [List.set_set]
    congr 2
    simp only [departed, clear_slots_idem]
  · unfold remove_player
    rw [hj, get_game_succ]
    simp only [List.getElem?_set_self hlt]
    rw [put_game_succ]
    simp only [hclear, List.set_set]
  · obtain ⟨i0, rfl, hi0⟩ := get_game_iff.mp hg0
    obtain ⟨-, -, q3, -, -, -, -⟩ := (seats_ok_run hcap evs sys hnd hnz hrun).2.2.1 i0 g0 hi0
    rw [q3]
    exact Int.natCast_nonneg _

/-- Scenario A as an instance of `second_leave_only_decrements`: X leaves twice. -/
theorem second_leave_only_decrements_witness :
    action_leave scenario_cfg scenario_started 4 1 = some (scenario_left 1) ∧
    action_leave scenario_cfg (scenario_left 1) 4 1 = some (scenario_left 0) ∧
    get_game (scenario_left 1) 1 = some (scenario_left_game 1) ∧
    (1 : Int) ≤ scenario_cfg.maxplayers ∧ (handles scenario_events).Nodup ∧
    (0 : Int) ∉ handles scenario_events ∧
    run scenario_cfg scenario_events = some scenario_end ∧
    get_game scenario_end.shm 1 = some scenario_game ∧
    (scenario_left 0
        = put_game (scenario_left 1) 1
            { scenario_left_game 1 with active := wrap32 ((scenario_left_game 1).active - 1) } ∧
      remove_player scenario_cfg (scenario_left 1) 4 1 = some (scenario_left 1) ∧
      0 ≤ scenario_game.active) :=
  ⟨by decide, by decide, by decide, by decide, by decide, by decide, by decide, by decide,
   second_leave_only_decrements scenario_cfg scenario_started (scenario_left 1) (scenario_left 0)
     4 1 (scenario_left_game 1) scenario_events scenario_end 1 scenario_game
     (by decide) (by decide) (by decide) (by decide) (by decide) (by decide) (by decide)
     (by decide)⟩

/-- The quota test on the total that the code computed: a parsed request whose
`sum` is more than the quota is disapproved whatever the inventory holds, and
the shared memory stays as it was. -/
theorem over_quota_rejected (cfg : config) (s : shm_t) (cl : Int) (recvd : List Char)
    (r : request) (g : game_t) (hne : recvd ≠ []) (hparse : scan_request recvd = some r)
    (hsum : cfg.quota < r.sum) (hg : get_game s s.game_num = some g) :
    insert_player cfg s cl recvd = Outcome.rejected r.name s := by
  unfold insert_player
  rw [if_neg hne, hparse]
  simp only
  unfold insert_section
  rw [hg]
  simp [hsum]

/-- The stock test on the array `temp` that the code computed: when the newest
game holds non-negative `int` quantities and `temp` asks more of some kind than
is left, the request is disapproved and the shared memory stays as it was. -/
theorem short_stock_rejected (cfg : config) (s : shm_t) (cl : Int) (recvd : List Char)
    (r : request) (g : game_t) (k : Nat) (hne : recvd ≠ [])
    (hparse : scan_request recvd = some r) (hg : get_game s s.game_num = some g)
    (hk : k < 6) (hlive : 0 ≤ g.inv.getD k 0 ∧ g.inv.getD k 0 < 2147483648)
    (hmore : g.inv.getD k 0 < r.temp.getD k 0) :
    insert_player cfg s cl recvd = Outcome.rejected r.name s := by
  have hshape := (scan_request_shape hparse).2 k
  have hneg : wrap32 (g.inv.getD k 0 - r.temp.getD k 0) < 0 := by
    rw [wrap32_id (by omega) (by omega)]
    omega
  have hen : enough g.inv r.temp = false := by
    rw [Bool.eq_false_iff]
    intro hc
    exact enough_getD hc hk hneg
  unfold insert_player
  rw [if_neg hne, hparse]
  simp only
  unfold insert_section
  rw [hg]
  simp [hen]

/-- The effect of an approval in terms of the array `temp` that the code
computed: the game joined is the newest one on entry, its live quantities go
down by `temp` (exactly, when they were non-negative `int`s), its `active` goes
up by 1, and the games before it are not changed. -/
theorem admitted_effect (cfg : config) (s : shm_t) (cl : Int) (recvd : List Char)
    (gn : Int) (nm : List Char) (s1 : shm_t) (r : request) (g : game_t)
    (hin : insert_player cfg s cl recvd = Outcome.admitted gn nm s1)
    (hparse : scan_request recvd = some r) (hg : get_game s s.game_num = some g)
    (hlen : g.inv.length = 6)
    (hlive : ∀ k, k < 6 → 0 ≤ g.inv.getD k 0 ∧ g.inv.getD k 0 < 2147483648) :
    gn = s.game_num ∧ nm = r.name ∧
    (∃ g1, get_game s1 gn = some g1 ∧ g1.active = g.active + 1 ∧
      ∀ k, k < 6 → g1.inv.getD k 0 = g.inv.getD k 0 - r.temp.getD k 0) ∧
    ∀ j : Int, j < gn → get_game s1 j = get_game s j := by
  obtain ⟨r1, -, hr1, hsec⟩ := insert_player_admitted hin
  rw [hparse] at hr1
  simp only [Option.some.injEq] at hr1
  subst hr1
  obtain ⟨pre, g2, hpre, -, hen, -, -, -, hgn, hnm, hs1⟩ := insert_section_admitted hsec
  obtain ⟨pre2, hpre2⟩ := get_game_open hg
  have hgg : g2 = g := by
    have := hpre.symm.trans hpre2
    have h2 := List.append_inj' this (by simp)
    simpa using h2.2
  subst hgg
  have hgnv : gn = (pre.length : Int) + 1 := by
    rw [hgn]; unfold shm_t.game_num; rw [hpre]; simp
  have hgame : ∃ tail, s1.game = pre ++ [seat g2 cl r] ++ tail := by
    rcases hs1 with ⟨-, inv, -, rfl⟩ | ⟨-, rfl⟩
    · exact ⟨[next_game inv], rfl⟩
    · exact ⟨[], by simp⟩
  obtain ⟨tail, htail⟩ := hgame
  refine ⟨hgn, hnm, ⟨seat g2 cl r, ?_, rfl, ?_⟩, ?_⟩
  · rw [hgnv, get_game_succ, htail, List.append_assoc,
      List.getElem?_append_right (le_refl _)]
    simp
  · intro k hk
    exact (seat_stock hlen hlive (scan_request_shape hparse).2 hen hk).1
  · intro j hj
    by_cases hj1 : 1 ≤ j
    · obtain ⟨i, hi⟩ : ∃ i : Nat, j = (i : Int) + 1 := ⟨(j - 1).toNat, by omega⟩
      subst hi
      have hip : i < pre.length := by omega
      rw [get_game_succ, get_game_succ, htail, hpre, List.append_assoc,
        List.getElem?_append_left hip, List.getElem?_append_left hip]
    · unfold get_game
      rw [if_neg hj1, if_neg hj1]

theorem zip_getElem? (ps : List Int) (ns : List (List Char)) {n : Nat}
    (hp : n < ps.length) (hn : n < ns.length) :
    (ps.zip ns)[n]? = some (ps.getD n 0, ns.getD n []) := by
  rw [List.zip_eq_zipWith, List.getElem?_zipWith, List.getD_eq_getElem?_getD,
    List.getD_eq_getElem?_getD, List.getElem?_eq_getElem hp, List.getElem?_eq_getElem hn]
  rfl

theorem show_players_eq (ps : List Int) (ns : List (List Char)) (n : Nat)
    (hp : n ≤ ps.length) (hn : n ≤ ns.length) :
    (List.range n).foldl (fun out j => if ps.getD j 0 ≠ 0 then out ++ [ns.getD j []] else out) []
      = (((ps.zip ns).take n).filter (fun pn => pn.1 != 0)).map (fun pn => pn.2) := by
  induction n with
  | zero => simp
  | succ n ih =>
    rw [List.range_succ, List.foldl_append, ih (by omega) (by omega), List.take_succ,
      zip_getElem? ps ns (by omega) (by omega)]
    simp only [List.foldl_cons, List.foldl_nil, Option.toList_some, List.filter_append,
      List.map_append]
    by_cases h0 : ps[n]?.getD 0 = 0
    · simp [h0]
    · simp [h0]

theorem show_game_eq (cfg : config) (id : Int) (g : game_t) (hmax : cfg.maxplayers ≤ (MAX : Int))
    (hp : g.players.length = MAX) (hn : g.names.length = MAX) (hi : g.inv.length = 6) :
    show_game cfg id g = Snapshot_entry cfg id g := by
  have hcap : cfg.maxplayers.toNat ≤ 16 := by
    have : (MAX : Int) = 16 := rfl
    omega
  have hs := show_players_eq g.players g.names cfg.maxplayers.toNat
    (by rw [hp]; exact hcap) (by rw [hn]; exact hcap)
  obtain ⟨a, b, c, d, e, f, hinv⟩ := length6 hi
  unfold show_game Snapshot_entry show_players
  rw [hs, hinv]
  simp only [List.getD_cons_zero, List.getD_cons_succ, game_info.mk.injEq, true_and, and_true]
  cases List.filter (fun pn => pn.1 != 0) (List.take cfg.maxplayers.toNat (g.players.zip g.names))
    <;> rfl

theorem show_loop_eq (cfg : config) (s : shm_t) (hmax : cfg.maxplayers ≤ (MAX : Int))
    (gs : List game_t) :
    ∀ pre : List game_t, s.game = pre ++ gs →
      (∀ g ∈ gs, g.players.length = MAX ∧ g.names.length = MAX ∧ g.inv.length = 6) →
      show_loop cfg s pre.length gs.length
        = some (Snapshot_from cfg ((pre.length : Int) + 1) gs) := by
  induction gs with
  | nil => intro pre _ _; rfl
  | cons g t ih =>
    intro pre hpre hshape
    have hg : get_game s ((pre.length : Int) + 1) = some g := by
      rw [get_game_succ, hpre, List.getElem?_append_right (le_refl _)]
      simp
    have hrec := ih (pre ++ [g]) (by rw [hpre]; simp)
      (fun g1 hg1 => hshape g1 (List.mem_cons_of_mem _ hg1))
    simp only [List.length_append, List.length_singleton, Nat.cast_add, Nat.cast_one] at hrec
    obtain ⟨h1, h2, h3⟩ := hshape g (List.mem_cons_self _ _)
    simp only [List.length_cons, show_loop, hg, hrec, Snapshot_from,
      show_game_eq cfg _ g hmax h1 h2 h3]

/-- C14: on a shared memory whose arrays have their declared sizes, with
`maxplayers` at most `MAX`, `show_info` prints exactly the snapshot of the
specification: one entry per game from number 1 to `game_num` in creation
order, with the names of the slots whose file descriptor is set, in slot order
(none, and the flag `empty`, for a game without players), and the six
quantities of the inventory from gold to rock; and the shared memory after it is
the shared memory before it. -/
theorem show_info_snapshot (cfg : config) (s : shm_t) (hmax : cfg.maxplayers ≤ (MAX : Int))
    (hshape : ∀ g ∈ s.game, g.players.length = MAX ∧ g.names.length = MAX ∧ g.inv.length = 6) :
    show_info cfg s = some (Snapshot cfg s, s) ∧ (Snapshot cfg s).length = s.game.length := by
  have h := show_loop_eq cfg s hmax s.game [] rfl hshape
  refine ⟨?_, ?_⟩
  · unfold show_info Snapshot
    have hn : s.game_num.toNat = s.game.length := by unfold shm_t.game_num; omega
    rw [hn]
    simp only [List.length_nil, Nat.cast_zero, zero_add] at h
    rw [h]
  · unfold Snapshot
    generalize (1 : Int) = id
    induction s.game generalizing id with
    | nil => rfl
    | cons g t ih => simp only [Snapshot_from, List.length_cons, ih]

/-- The end of scenario A as an instance of `show_info_snapshot`. -/
theorem show_info_snapshot_witness :
    scenario_cfg.maxplayers ≤ (MAX : Int) ∧
    (∀ g ∈ scenario_end.shm.game,
      g.players.length = MAX ∧ g.names.length = MAX ∧ g.inv.length = 6) ∧
    Snapshot scenario_cfg scenario_end.shm
      = [{ number := 1, online := [['Z']], empty := false, inventory := [0, 0, 0, 0, 0, 0] },
         { number := 2, online := [], empty := true, inventory := [5, 0, 0, 0, 0, 0] }] ∧
    (show_info scenario_cfg scenario_end.shm
        = some (Snapshot scenario_cfg scenario_end.shm, scenario_end.shm) ∧
      (Snapshot scenario_cfg scenario_end.shm).length = scenario_end.shm.game.length) :=
  ⟨by decide, by decide, by decide,
   show_info_snapshot scenario_cfg scenario_end.shm (by decide) (by decide)⟩

theorem send_loop_eq (cfg : config) (g : game_t) (cl : Int) :
    send_loop cfg g cl
      = (g.players.take cfg.maxplayers.toNat).filter (fun p => p != 0 && p != cl) := by
  unfold send_loop
  generalize cfg.maxplayers.toNat = n
  induction n with
  | zero => simp
  | succ n ih =>
    rw [List.range_succ, List.foldl_append, ih, List.take_succ]
    simp only [List.foldl_cons, List.foldl_nil, List.filter_append, List.getD_eq_getElem?_getD]
    cases hps : g.players[n]? with
    | none => simp
    | some p =>
      simp only [Option.getD_some, Option.toList_some]
      by_cases h0 : p = 0
      · simp [h0]
      · by_cases hc : p = cl
        · simp [hc]
        · simp [h0, hc]

theorem action_chat_some {s0 s : shm_t} {cl j : Int} {name recvd : List Char}
    (h : action_chat s0 cl j name recvd = some s) :
    ∃ m, chat_line name recvd = some m ∧
      s = { s0 with message := m, client := cl, gamenum := j } := by
  unfold action_chat at h
  split at h
  · exact absurd h (by simp)
  · rename_i m hm
    simp only [Option.some.injEq] at h
    exact ⟨m, hm, h.symm⟩

theorem unique_pair {cfg : config} {s : shm_t} (hu : handles_unique cfg s) {i i1 : Nat}
    {g g1 : game_t} (hne : i ≠ i1) (hg : s.game[i]? = some g) (hg1 : s.game[i1]? = some g1)
    {h : Int} (hh : h ∈ g.players.take cfg.maxplayers.toNat) (h0 : h ≠ 0) :
    h ∉ g1.players.take cfg.maxplayers.toNat := by
  have hp := List.pairwise_iff_getElem.mp hu.2
  have hi := getElem?_lt hg
  have hi1 := getElem?_lt hg1
  rw [List.getElem?_eq_getElem hi] at hg
  rw [List.getElem?_eq_getElem hi1] at hg1
  simp only [Option.some.injEq] at hg hg1
  rcases Nat.lt_or_gt_of_ne hne with hlt | hgt
  · have := hp i i1 hi hi1 hlt
    rw [hg, hg1] at this
    exact this h hh h0
  · have := hp i1 i hi1 hi hgt
    rw [hg, hg1] at this
    intro hc
    exact this h hc h0 hh

/-- C12: for every shared memory in which the handles of the slots are unique,
when the worker of the handle `cl` in game `j` posts a chat line, `send_msg`
calls `send` with that line on exactly the non-zero file descriptors stored in
the first `maxplayers` slots of game `j` other than `cl`: each of them once,
never `cl` itself, and no file descriptor stored in a slot of another game. -/
theorem broadcast_recipients (cfg : config) (s0 s : shm_t) (cl j : Int)
    (name recvd : List Char) (g : game_t)
    (hu : handles_unique cfg s0) (hchat : action_chat s0 cl j name recvd = some s)
    (hg : get_game s0 j = some g) :
    ∃ sends, send_msg cfg s = some sends ∧
      (∀ p ∈ sends, p.2 = s.message) ∧
      (∀ h, h ∈ sends.map Prod.fst ↔
        (h ≠ 0 ∧ h ≠ cl ∧ h ∈ g.players.take cfg.maxplayers.toNat)) ∧
      (sends.map Prod.fst).Nodup ∧ cl ∉ sends.map Prod.fst ∧
      ∀ (j1 : Int) (g1 : game_t), j1 ≠ j → get_game s0 j1 = some g1 →
        ∀ h ∈ sends.map Prod.fst, h ∉ g1.players.take cfg.maxplayers.toNat := by
  obtain ⟨m, -, rfl⟩ := action_chat_some hchat
  have hgs : get_game { s0 with message := m, client := cl, gamenum := j } j = some g := hg
  have hfst : ((send_loop cfg g cl).map (fun fd => (fd, m))).map Prod.fst = send_loop cfg g cl := by
    rw [List.map_map]
    exact List.map_id _
  have hmem : ∀ h, h ∈ send_loop cfg g cl ↔
      (h ≠ 0 ∧ h ≠ cl ∧ h ∈ g.players.take cfg.maxplayers.toNat) := by
    intro h
    rw [send_loop_eq, List.mem_filter]
    simp only [Bool.and_eq_true, bne_iff_ne, ne_eq]
    tauto
  refine ⟨(send_loop cfg g cl).map (fun fd => (fd, m)), ?_, ?_, ?_, ?_, ?_, ?_⟩
  · unfold send_msg
    simp only
    rw [hgs]
  · intro p hp
    rw [List.mem_map] at hp
    obtain ⟨fd, -, rfl⟩ := hp
    rfl
  · intro h
    rw [hfst]
    exact hmem h
  · rw [hfst, send_loop_eq]
    have hg0 : g ∈ s0.game := by
      obtain ⟨i, -, hi⟩ := get_game_iff.mp hg
      exact List.getElem?_mem hi
    have := hu.1 g hg0
    have h2 : (g.players.take cfg.maxplayers.toNat).filter (fun p => p != 0 && p != cl)
        = ((g.players.take cfg.maxplayers.toNat).filter (fun p => p != 0)).filter
            (fun p => p != cl) := by
      rw [List.filter_filter]
      congr 1
      funext p
      exact Bool.and_comm _ _
    rw [h2]
    exact List.Nodup.filter _ this
  · rw [hfst]
    intro hc
    exact ((hmem cl).mp hc).2.1 rfl
  · intro j1 g1 hne hg1 h hh
    rw [hfst] at hh
    obtain ⟨h0, -, hin⟩ := (hmem h).mp hh
    obtain ⟨i, hi, hgi⟩ := get_game_iff.mp hg
    obtain ⟨i1, hi1, hgi1⟩ := get_game_iff.mp hg1
    exact unique_pair hu (by omega) hgi hgi1 hin h0

/-- Scenario C as an instance of `broadcast_recipients`: X says hello, Z gets it. -/
theorem broadcast_recipients_witness :
    handles_unique scenario_cfg scenario_started ∧
    action_chat scenario_started 4 1 ['X'] "hello".toList
      = some { scenario_started with message := "X : hello".toList, client := 4, gamenum := 1 } ∧
    send_msg scenario_cfg
        { scenario_started with message := "X : hello".toList, client := 4, gamenum := 1 }
      = some [(6, "X : hello".toList)] ∧
    ∃ g, get_game scenario_started 1 = some g ∧
    ∃ sends, send_msg scenario_cfg
        { scenario_started with message := "X : hello".toList, client := 4, gamenum := 1 }
        = some sends ∧
      (∀ p ∈ sends, p.2 = "X : hello".toList) ∧
      (∀ h, h ∈ sends.map Prod.fst ↔
        (h ≠ 0 ∧ h ≠ 4 ∧ h ∈ g.players.take scenario_cfg.maxplayers.toNat)) ∧
      (sends.map Prod.fst).Nodup ∧ (4 : Int) ∉ sends.map Prod.fst ∧
      ∀ (j1 : Int) (g1 : game_t), j1 ≠ 1 → get_game scenario_started j1 = some g1 →
        ∀ h ∈ sends.map Prod.fst, h ∉ g1.players.take scenario_cfg.maxplayers.toNat :=
  ⟨by unfold handles_unique; decide, by decide, by decide, _, rfl,
   broadcast_recipients scenario_cfg scenario_started
     { scenario_started with message := "X : hello".toList, client := 4, gamenum := 1 }
     4 1 ['X'] "hello".toList _
     (by unfold handles_unique; decide) (by decide) rfl⟩

theorem cstr_id {t : List Char} (h : '\x00' ∉ t) : cstr t = t := by
  unfold cstr
  rw [List.takeWhile_eq_self_iff]
  intro c hc
  simp only [bne_iff_ne, ne_eq]
  intro h0
  exact h (h0 ▸ hc)

theorem chat_line_fits {n t : List Char} (hnul : '\x00' ∉ t)
    (hfit : n.length + 3 + t.length < MAXBUF) :
    chat_line n t = some (n ++ " : ".toList ++ t) := by
  have htake : t.take MAXBUF = t := List.take_of_length_le (by omega)
  have h3 : " : ".toList.length = 3 := rfl
  unfold chat_line
  rw [htake, cstr_id hnul, if_neg (by omega), if_neg]
  simp only [List.length_append, h3]
  omega

/-- C13: for every sender name `n` and chat text `t` (no NUL byte) that fit
the buffer `message[MAXBUF]` together with `" : "` and the terminating NUL, the
line `action` builds is `n ++ " : " ++ t`; `action` posts that line in
`shm->message` with the sender and the game, and every call of `send` that
`send_msg` makes for it carries that line. -/
theorem chat_line_format (n t : List Char) (hnul : '\x00' ∉ t)
    (hfit : n.length + 3 + t.length < MAXBUF) :
    chat_line n t = some (n ++ [' ', ':', ' '] ++ t) ∧
    ∀ (cfg : config) (s : shm_t) (cl j : Int),
      action_chat s cl j n t
        = some { s with message := n ++ [' ', ':', ' '] ++ t, client := cl, gamenum := j } ∧
      ∀ g, get_game s j = some g →
        send_msg cfg { s with message := n ++ [' ', ':', ' '] ++ t, client := cl, gamenum := j }
          = some ((send_loop cfg g cl).map (fun fd => (fd, n ++ [' ', ':', ' '] ++ t))) := by
  have h := chat_line_fits hnul hfit
  have e : " : ".toList = [' ', ':', ' '] := rfl
  rw [e] at h
  refine ⟨h, ?_⟩
  intro cfg s cl j
  refine ⟨?_, ?_⟩
  · unfold action_chat
    rw [h]
  · intro g hg
    have hgs : get_game { s with message := n ++ [' ', ':', ' '] ++ t, client := cl, gamenum := j } j
        = some g := hg
    unfold send_msg
    simp only
    rw [hgs]

/-- Scenario C as an instance of `chat_line_format`: name X and text hello give
the line `X : hello`. -/
theorem chat_line_format_witness :
    chat_line ['X'] "hello".toList = some "X : hello".toList ∧
    ∀ (cfg : config) (s : shm_t) (cl j : Int),
      action_chat s cl j ['X'] "hello".toList
        = some { s with message := "X : hello".toList, client := cl, gamenum := j } ∧
      ∀ g, get_game s j = some g →
        send_msg cfg { s with message := "X : hello".toList, client := cl, gamenum := j }
          = some ((send_loop cfg g cl).map (fun fd => (fd, "X : hello".toList))) :=
  chat_line_format ['X'] "hello".toList (by decide) (by decide)

theorem next_game_fill (inv : List Int) :
    (next_game inv).players.length = MAX ∧ (next_game inv).names.length = MAX ∧
    ∀ x, x < MAX → ((next_game inv).players.getD x 0 ≠ 0 ↔ (x : Int) < (next_game inv).active) := by
  refine ⟨by simp [next_game, blank_game], by simp [next_game, blank_game], ?_⟩
  intro x hx
  simp only [next_game, blank_game, List.getD_eq_getElem?_getD, List.getElem?_replicate]
  split <;> simp

theorem fill_ok_boot {cfg : config} {sys : server} (h : boot cfg = some sys) : fill_ok sys := by
  unfold boot init_server at h
  split at h
  · exact absurd h (by simp)
  · rename_i s hs
    split at hs
    · exact absurd hs (by simp)
    · simp only [Option.some.injEq] at hs h
      subst hs
      subst h
      intro g hg
      simp only [List.length_singleton, Nat.sub_self, List.getElem?_cons_zero,
        Option.some.injEq] at hg
      subst hg
      exact next_game_fill _

theorem seat_fill {g : game_t} {cl : Int} (r : request)
    (hlen : g.players.length = MAX) (hnames : g.names.length = MAX)
    (hfill : ∀ x, x < MAX → (g.players.getD x 0 ≠ 0 ↔ (x : Int) < g.active))
    (ha0 : 0 ≤ g.active) (ha16 : g.active < (MAX : Int)) (hcl : cl ≠ 0) :
    (seat g cl r).players.length = MAX ∧ (seat g cl r).names.length = MAX ∧
    ∀ x, x < MAX → ((seat g cl r).players.getD x 0 ≠ 0 ↔ (x : Int) < (seat g cl r).active) := by
  have haL : g.active.toNat < g.players.length := by rw [hlen]; omega
  refine ⟨by simp [seat, hlen], by simp [seat, hnames], ?_⟩
  intro x hx
  have hold := hfill x hx
  simp only [seat]
  by_cases hxa : x = g.active.toNat
  · subst hxa
    rw [List.getD_eq_getElem?_getD, List.getElem?_set_self haL]
    simp only [Option.getD_some, ne_eq, hcl, not_false_eq_true, true_iff]
    omega
  · rw [List.getD_eq_getElem?_getD, List.getElem?_set_ne (Ne.symm hxa),
      ← List.getD_eq_getElem?_getD, hold]
    omega

theorem fill_ok_step {cfg : config} {sys sys1 : server} {e : event}
    (hopen : open_ok cfg sys) (h : fill_ok sys)
    (hnz : ∀ c ∈ handles [e], c ≠ 0)
    (hstep : step cfg sys e = some sys1) : fill_ok sys1 := by
  cases e with
  | connect cl recvd =>
    have hc := hnz cl (by simp [handles])
    simp only [step] at hstep
    split at hstep
    · rename_i gn nm s hin
      simp only [Option.some.injEq] at hstep
      subst hstep
      obtain ⟨r, -, -, hsec⟩ := insert_player_admitted hin
      obtain ⟨pre, g, hpre, -, -, -, ha0, ha16, hgn, -, hs1⟩ := insert_section_admitted hsec
      have hlen : sys.shm.game.length = pre.length + 1 := by rw [hpre]; simp
      have hg := h g (by rw [hlen, hpre]; exact List.getElem?_concat_length _ _)
      rcases hs1 with ⟨hfull, inv, -, rfl⟩ | ⟨hroom, rfl⟩
      · intro g1 hg1
        simp only [List.length_append, List.length_singleton, Nat.add_sub_cancel] at hg1
        rw [List.getElem?_append_right (by simp)] at hg1
        simp only [List.length_append, List.length_singleton, Nat.sub_self,
          List.getElem?_cons_zero, Option.some.injEq] at hg1
        subst hg1
        exact next_game_fill inv
      · intro g1 hg1
        simp only [List.length_append, List.length_singleton, Nat.add_sub_cancel] at hg1
        rw [List.getElem?_concat_length] at hg1
        simp only [Option.some.injEq] at hg1
        subst hg1
        exact seat_fill r hg.1 hg.2.1 hg.2.2 ha0 ha16 hc
    · rename_i nm s hin
      simp only [Option.some.injEq] at hstep
      subst hstep
      rw [insert_player_rejected hin]
      exact h
    · rename_i s hin
      simp only [Option.some.injEq] at hstep
      subst hstep
      rw [insert_player_closed hin]
      exact h
    · exact absurd hstep (by simp)
  | poll w =>
    simp only [step] at hstep
    split at hstep
    · exact absurd hstep (by simp)
    · split at hstep
      · split at hstep
        · simp only [Option.some.injEq] at hstep
          subst hstep
          exact h
        · simp only [Option.some.injEq] at hstep
          subst hstep
          exact h
      · exact absurd hstep (by simp)
  | say w recvd =>
    simp only [step] at hstep
    split at hstep
    · exact absurd hstep (by simp)
    · split at hstep
      · split at hstep
        · exact absurd hstep (by simp)
        · rename_i s hs
          simp only [Option.some.injEq] at hstep
          subst hstep
          unfold action_chat at hs
          split at hs
          · exact absurd hs (by simp)
          · simp only [Option.some.injEq] at hs
            subst hs
            exact h
      · exact absurd hstep (by simp)
  | hangup w =>
    simp only [step] at hstep
    split at hstep
    · exact absurd hstep (by simp)
    · rename_i k hk
      split at hstep
      · rename_i hchat
        split at hstep
        · exact absurd hstep (by simp)
        · rename_i s hs
          simp only [Option.some.injEq] at hstep
          subst hstep
          obtain ⟨i, g, hj, hg, rfl⟩ := action_leave_some hs
          have hold := hopen.2 w k hk hchat
          unfold shm_t.game_num at hold
          intro g1 hg1
          simp only [List.length_set] at hg1
          rw [List.getElem?_set_ne (by omega)] at hg1
          exact h g1 hg1
      · exact absurd hstep (by simp)

theorem fill_ok_run {cfg : config} (hcap : 1 ≤ cfg.maxplayers) (evs : List event) :
    ∀ sys, (0 : Int) ∉ handles evs → run cfg evs = some sys → fill_ok sys := by
  induction evs using List.reverseRecOn with
  | nil =>
    intro sys _ hrun
    exact fill_ok_boot hrun
  | append_singleton evs e ih =>
    intro sys hnz hrun
    rw [run_snoc] at hrun
    cases hprev : run cfg evs with
    | none => rw [hprev] at hrun; exact absurd hrun (by simp)
    | some sys0 =>
      rw [hprev] at hrun
      simp only [Option.some_bind] at hrun
      rw [handles_append] at hnz
      have h0 := ih sys0 (fun hc => hnz (List.mem_append_left _ hc)) hprev
      refine fill_ok_step (open_ok_run hcap evs sys0 hprev) h0 ?_ hrun
      intro c hc hz
      exact hnz (List.mem_append_right _ (hz ▸ hc))

/-- C17: for capacity at least 1, in every state the server reaches from
`init_server` by approvals with non-zero handles, starts, chats and
departures, an approving `insert_player` stores the file descriptor `cl` and
the name at index `a = g->active` of the newest game; that index is below the
capacity and below `MAX`, the slot at `a` is empty (0) before the call and
every slot below `a` is occupied, and every other slot and name of the game is
left as it was. -/
theorem admit_first_empty_slot (cfg : config) (evs : List event) (sys : server)
    (cl : Int) (recvd : List Char) (gn : Int) (nm : List Char) (s1 : shm_t)
    (hcap : 1 ≤ cfg.maxplayers) (hnz : (0 : Int) ∉ handles evs)
    (hrun : run cfg evs = some sys)
    (hin : insert_player cfg sys.shm cl recvd = Outcome.admitted gn nm s1) :
    ∃ (g g1 : game_t) (a : Nat),
      gn = sys.shm.game_num ∧ get_game sys.shm gn = some g ∧ get_game s1 gn = some g1 ∧
      (a : Int) = g.active ∧ (a : Int) < cfg.maxplayers ∧ a < MAX ∧
      g.players.getD a 0 = 0 ∧ (∀ x, x < a → g.players.getD x 0 ≠ 0) ∧
      g1.players.getD a 0 = cl ∧ g1.names.getD a [] = nm ∧
      ∀ x, x ≠ a → g1.players.getD x 0 = g.players.getD x 0 ∧
        g1.names.getD x [] = g.names.getD x [] := by
  have hopen := open_ok_run hcap evs sys hrun
  have hfill := fill_ok_run hcap evs sys hnz hrun
  obtain ⟨r, -, -, hsec⟩ := insert_player_admitted hin
  obtain ⟨pre, g, hpre, -, -, -, ha0, ha16, hgn, hnm, hs1⟩ := insert_section_admitted hsec
  have hlen : sys.shm.game.length = pre.length + 1 := by rw [hpre]; simp
  have hlast : sys.shm.game[sys.shm.game.length - 1]? = some g := by
    rw [hlen, hpre]; exact List.getElem?_concat_length _ _
  have hlt : g.active < cfg.maxplayers := hopen.1 g hlast
  obtain ⟨hpl, hnl, hf⟩ := hfill g hlast
  have hgnv : gn = (pre.length : Int) + 1 := by
    rw [hgn]; unfold shm_t.game_num; rw [hlen]; push_cast; rfl
  have hcast : ((g.active.toNat : Nat) : Int) = g.active := Int.toNat_of_nonneg ha0
  have haM : g.active.toNat < MAX := by omega
  refine ⟨g, seat g cl r, g.active.toNat, hgn, ?_, ?_, hcast, by omega, haM, ?_, ?_, ?_, ?_, ?_⟩
  · rw [hgnv, get_game_succ, hpre]
    exact List.getElem?_concat_length _ _
  · rw [hgnv, get_game_succ]
    rcases hs1 with ⟨-, inv, -, rfl⟩ | ⟨-, rfl⟩
    · simp only
      rw [List.getElem?_append_left (by simp)]
      exact List.getElem?_concat_length _ _
    · exact List.getElem?_concat_length _ _
  · by_contra hne
    have := (hf g.active.toNat haM).mp hne
    omega
  · intro x hx
    exact (hf x (by omega)).mpr (by omega)
  · simp only [seat]
    rw [List.getD_eq_getElem?_getD, List.getElem?_set_self (by omega)]
    rfl
  · simp only [seat]
    rw [List.getD_eq_getElem?_getD, List.getElem?_set_self (by omega), hnm]
    rfl
  · intro x hx
    simp only [seat]
    refine ⟨?_, ?_⟩
    · rw [List.getD_eq_getElem?_getD, List.getElem?_set_ne (Ne.symm hx),
        ← List.getD_eq_getElem?_getD]
    · rw [List.getD_eq_getElem?_getD, List.getElem?_set_ne (Ne.symm hx),
        ← List.getD_eq_getElem?_getD]

/-- Scenario A as an instance of `admit_first_empty_slot`: with X in slot 0, Z
is stored in slot 1. -/
theorem admit_first_empty_slot_witness :
    (1 : Int) ≤ scenario_cfg.maxplayers ∧ (0 : Int) ∉ handles (scenario_events.take 2) ∧
    run scenario_cfg (scenario_events.take 2) = some scenario_mid ∧
    insert_player scenario_cfg scenario_mid.shm 6 "Z\ngold\t2\n".toList
      = Outcome.admitted 1 ['Z'] scenario_started ∧
    ∃ (g g1 : game_t) (a : Nat),
      1 = scenario_mid.shm.game_num ∧ get_game scenario_mid.shm 1 = some g ∧
      get_game scenario_started 1 = some g1 ∧
      (a : Int) = g.active ∧ (a : Int) < scenario_cfg.maxplayers ∧ a < MAX ∧
      g.players.getD a 0 = 0 ∧ (∀ x, x < a → g.players.getD x 0 ≠ 0) ∧
      g1.players.getD a 0 = 6 ∧ g1.names.getD a [] = ['Z'] ∧
      ∀ x, x ≠ a → g1.players.getD x 0 = g.players.getD x 0 ∧
        g1.names.getD x [] = g.names.getD x [] :=
  ⟨by decide, by decide, by decide, by decide,
   admit_first_empty_slot scenario_cfg (scenario_events.take 2) scenario_mid 6
     "Z\ngold\t2\n".toList 1 ['Z'] scenario_started
     (by decide) (by decide) (by decide) (by decide)⟩

theorem names_ok_boot {cfg : config} {sys : server} (h : boot cfg = some sys) :
    names_ok cfg sys := by
  unfold boot at h
  split at h
  · exact absurd h (by simp)
  · simp only [Option.some.injEq] at h
    subst h
    intro w k hk
    simp at hk

theorem names_ok_step {cfg : config} {used : List Int} {sys sys1 : server} {e : event}
    (hseats : seats_ok cfg used sys) (hopen : open_ok cfg sys) (hfill : fill_ok sys)
    (h : names_ok cfg sys) (hstep : step cfg sys e = some sys1) : names_ok cfg sys1 := by
  obtain ⟨-, -, -, h4, h5⟩ := hseats
  cases e with
  | connect cl recvd =>
    simp only [step] at hstep
    split at hstep
    · rename_i gn nm s hin
      simp only [Option.some.injEq] at hstep
      subst hstep
      obtain ⟨r, -, -, hsec⟩ := insert_player_admitted hin
      obtain ⟨pre, g, hpre, -, -, -, ha0, ha16, hgn, hnm, hs1⟩ := insert_section_admitted hsec
      have hlen : sys.shm.game.length = pre.length + 1 := by rw [hpre]; simp
      have hlast : sys.shm.game[sys.shm.game.length - 1]? = some g := by
        rw [hlen, hpre]; exact List.getElem?_concat_length _ _
      have hlt : g.active < cfg.maxplayers := hopen.1 g hlast
      obtain ⟨hpl, hnl, hf⟩ := hfill g hlast
      have hgnv : gn = (pre.length : Int) + 1 := by
        rw [hgn]; unfold shm_t.game_num; rw [hlen]; push_cast; rfl
      have haM : g.active.toNat < MAX := by omega
      have hzero : g.players.getD g.active.toNat 0 = 0 := by
        by_contra hne
        have := (hf g.active.toNat haM).mp hne
        omega
      have key : ∀ games1 : List game_t, (∀ i, i < pre.length → games1[i]? = pre[i]?) →
          games1[pre.length]? = some (seat g cl r) →
          ∀ (w : Nat) (k : worker),
            (sys.workers ++
              [{ cl := cl, game_number := gn, name := nm, at_stage := stage.waiting }])[w]?
                = some k →
            k.at_stage ≠ stage.gone →
            ∃ (i : Nat) (g1 : game_t) (x : Nat), k.game_number = (i : Int) + 1 ∧
              games1[i]? = some g1 ∧ x < cfg.maxplayers.toNat ∧
              g1.players[x]? = some k.cl ∧ g1.names[x]? = some k.name := by
        intro games1 hA hB w k hk hng
        rcases getElem?_snoc_cases hk with ⟨-, hold⟩ | ⟨-, rfl⟩
        · obtain ⟨i, g0, x, hj, hg0, hx, hp, hn⟩ := h w k hold hng
          have hk0 := (h4 w k hold).1
          rw [hpre] at hg0
          rcases getElem?_snoc_cases hg0 with ⟨hi, hg0⟩ | ⟨hi, hgg⟩
          · exact ⟨i, g0, x, hj, by rw [hA i hi]; exact hg0, hx, hp, hn⟩
          · subst hi
            rw [hgg] at hp hn
            have hxa : g.active.toNat ≠ x := by
              intro hxa
              rw [hxa, List.getD_eq_getElem?_getD, hp] at hzero
              exact hk0 hzero
            refine ⟨pre.length, seat g cl r, x, hj, hB, hx, ?_, ?_⟩
            · simp only [seat]
              rw [List.getElem?_set_ne hxa]
              exact hp
            · simp only [seat]
              rw [List.getElem?_set_ne hxa]
              exact hn
        · refine ⟨pre.length, seat g cl r, g.active.toNat, hgnv, hB, by omega, ?_, ?_⟩
          · simp only [seat]
            rw [List.getElem?_set_self (by omega)]
          · simp only [seat]
            rw [List.getElem?_set_self (by omega), hnm]
      rcases hs1 with ⟨-, inv, -, rfl⟩ | ⟨-, rfl⟩
      · intro w k hk hng
        refine key _ ?_ ?_ w k hk hng
        · intro i hi
          simp only
          rw [List.getElem?_append_left (by simp; omega), List.getElem?_append_left hi]
        · simp only
          rw [List.getElem?_append_left (by simp)]
          exact List.getElem?_concat_length _ _
      · intro w k hk hng
        refine key _ ?_ ?_ w k hk hng
        · intro i hi
          simp only
          rw [List.getElem?_append_left hi]
        · exact List.getElem?_concat_length _ _
    · rename_i nm s hin
      simp only [Option.some.injEq] at hstep
      subst hstep
      rw [insert_player_rejected hin]
      exact h
    · rename_i s hin
      simp only [Option.some.injEq] at hstep
      subst hstep
      rw [insert_player_closed hin]
      exact h
    · exact absurd hstep (by simp)
  | poll w =>
    simp only [step] at hstep
    split at hstep
    · exact absurd hstep (by simp)
    · rename_i k hk
      split at hstep
      · rename_i hwait
        split at hstep
        · simp only [Option.some.injEq] at hstep
          subst hstep
          intro b kb hkb hng
          simp only [List.getElem?_set] at hkb
          split at hkb
          · split at hkb
            · simp only [Option.some.injEq] at hkb
              subst hkb
              rename_i hwb _
              subst hwb
              exact h w k hk (by rw [hwait]; simp)
            · exact absurd hkb (by simp)
          · exact h b kb hkb hng
        · simp only [Option.some.injEq] at hstep
          subst hstep
          exact h
      · exact absurd hstep (by simp)
  | say w recvd =>
    simp only [step] at hstep
    split at hstep
    · exact absurd hstep (by simp)
    · split at hstep
      · split at hstep
        · exact absurd hstep (by simp)
        · rename_i s hs
          simp only [Option.some.injEq] at hstep
          subst hstep
          unfold action_chat at hs
          split at hs
          · exact absurd hs (by simp)
          · simp only [Option.some.injEq] at hs
            subst hs
            exact h
      · exact absurd hstep (by simp)
  | hangup w =>
    simp only [step] at hstep
    split at hstep
    · exact absurd hstep (by simp)
    · rename_i k hk
      split at hstep
      · rename_i hchat
        split at hstep
        · exact absurd hstep (by simp)
        · rename_i s hs
          simp only [Option.some.injEq] at hstep
          subst hstep
          obtain ⟨i, g, hj, hg, rfl⟩ := action_leave_some hs
          intro b kb hkb hng
          simp only [List.getElem?_set] at hkb
          split at hkb
          · split at hkb
            · simp only [Option.some.injEq] at hkb
              subst hkb
              exact absurd rfl hng
            · exact absurd hkb (by simp)
          · rename_i hwb
            have hne : kb.cl ≠ k.cl := fun heq => hwb (h5 w b k kb hk hkb heq.symm)
            obtain ⟨i2, g2, x, hj2, hg2, hx, hp, hn⟩ := h b kb hkb hng
            by_cases hi2 : i = i2
            · subst hi2
              rw [hg] at hg2
              simp only [Option.some.injEq] at hg2
              subst hg2
              refine ⟨i, departed cfg k.cl g, x, hj2, ?_, hx, ?_, ?_⟩
              · simp only
                rw [List.getElem?_set_self (getElem?_lt hg)]
              · simp only [departed, clear_slots]
                rw [clear_slots_getElem?, if_pos hx, hp]
                simp [hne]
              · simp only [departed]
                exact hn
            · refine ⟨i2, g2, x, hj2, ?_, hx, hp, hn⟩
              simp only
              rw [List.getElem?_set_ne hi2]
              exact hg2
      · exact absurd hstep (by simp)

theorem names_ok_run {cfg : config} (hcap : 1 ≤ cfg.maxplayers) (evs : List event) :
    ∀ sys, (handles evs).Nodup → (0 : Int) ∉ handles evs → run cfg evs = some sys →
      names_ok cfg sys := by
  induction evs using List.reverseRecOn with
  | nil =>
    intro sys _ _ hrun
    exact names_ok_boot hrun
  | append_singleton evs e ih =>
    intro sys hnd hnz hrun
    rw [run_snoc] at hrun
    cases hprev : run cfg evs with
    | none => rw [hprev] at hrun; exact absurd hrun (by simp)
    | some sys0 =>
      rw [hprev] at hrun
      simp only [Option.some_bind] at hrun
      rw [handles_append] at hnd hnz
      rw [List.nodup_append] at hnd
      have hnz0 : (0 : Int) ∉ handles evs := fun hc => hnz (List.mem_append_left _ hc)
      exact names_ok_step (seats_ok_run hcap evs sys0 hnd.1 hnz0 hprev)
        (open_ok_run hcap evs sys0 hprev) (fill_ok_run hcap evs sys0 hnz0 hprev)
        (ih sys0 hnd.1 hnz0 hprev) hrun

theorem later_of_refl (sys : server) : later_of sys sys :=
  ⟨Nat.le_refl _, fun _ k hk => ⟨k, hk, rfl, rfl, rfl, fun h => h⟩⟩

theorem later_of_trans {a b c : server} (hab : later_of a b) (hbc : later_of b c) :
    later_of a c := by
  refine ⟨Nat.le_trans hab.1 hbc.1, ?_⟩
  intro w k hk
  obtain ⟨k1, hk1, q1, q2, q3, q4⟩ := hab.2 w k hk
  obtain ⟨k2, hk2, p1, p2, p3, p4⟩ := hbc.2 w k1 hk1
  exact ⟨k2, hk2, by rw [p1, q1], by rw [p2, q2], by rw [p3, q3], fun h => p4 (q4 h)⟩

theorem later_of_set {sys : server} {w : Nat} {k : worker} (hk : sys.workers[w]? = some k)
    (st : stage) (hst : st ≠ stage.waiting) (shm1 : shm_t)
    (hlen : sys.shm.game.length ≤ shm1.game.length) :
    later_of sys
      { sys with shm := shm1, workers := sys.workers.set w { k with at_stage := st } } := by
  refine ⟨hlen, ?_⟩
  intro b kb hkb
  by_cases hwb : w = b
  · subst hwb
    rw [hk] at hkb
    simp only [Option.some.injEq] at hkb
    subst hkb
    refine ⟨{ k with at_stage := st }, ?_, rfl, rfl, rfl, fun _ => hst⟩
    simp only
    rw [List.getElem?_set_self (getElem?_lt hk)]
  · refine ⟨kb, ?_, rfl, rfl, rfl, fun h => h⟩
    simp only
    rw [List.getElem?_set_ne hwb]
    exact hkb

theorem step_later {cfg : config} {sys sys1 : server} {e : event}
    (hstep : step cfg sys e = some sys1) : later_of sys sys1 := by
  cases e with
  | connect cl recvd =>
    simp only [step] at hstep
    split at hstep
    · rename_i gn nm s hin
      simp only [Option.some.injEq] at hstep
      subst hstep
      obtain ⟨r, -, -, hsec⟩ := insert_player_admitted hin
      obtain ⟨pre, g, hpre, -, -, -, -, -, -, -, hs1⟩ := insert_section_admitted hsec
      have hlen : sys.shm.game.length = pre.length + 1 := by rw [hpre]; simp
      refine ⟨?_, ?_⟩
      · rcases hs1 with ⟨-, inv, -, rfl⟩ | ⟨-, rfl⟩
        · simp only [List.length_append, List.length_singleton]
          omega
        · simp only [List.length_append, List.length_singleton]
          omega
      · intro w k hk
        refine ⟨k, ?_, rfl, rfl, rfl, fun h => h⟩
        simp only
        rw [List.getElem?_append_left (getElem?_lt hk)]
        exact hk
    · rename_i nm s hin
      simp only [Option.some.injEq] at hstep
      subst hstep
      rw [insert_player_rejected hin]
      exact later_of_refl sys
    · rename_i s hin
      simp only [Option.some.injEq] at hstep
      subst hstep
      rw [insert_player_closed hin]
      exact later_of_refl sys
    · exact absurd hstep (by simp)
  | poll w =>
    simp only [step] at hstep
    split at hstep
    · exact absurd hstep (by simp)
    · rename_i k hk
      split at hstep
      · split at hstep
        · simp only [Option.some.injEq] at hstep
          subst hstep
          exact later_of_set hk stage.chatting (by simp) sys.shm (Nat.le_refl _)
        · simp only [Option.some.injEq] at hstep
          subst hstep
          exact later_of_refl sys
      · exact absurd hstep (by simp)
  | say w recvd =>
    simp only [step] at hstep
    split at hstep
    · exact absurd hstep (by simp)
    · split at hstep
      · split at hstep
        · exact absurd hstep (by simp)
        · rename_i s hs
          simp only [Option.some.injEq] at hstep
          subst hstep
          unfold action_chat at hs
          split at hs
          · exact absurd hs (by simp)
          · simp only [Option.some.injEq] at hs
            subst hs
            exact ⟨Nat.le_refl _, fun _ k hk => ⟨k, hk, rfl, rfl, rfl, fun h => h⟩⟩
      · exact absurd hstep (by simp)
  | hangup w =>
    simp only [step] at hstep
    split at hstep
    · exact absurd hstep (by simp)
    · rename_i k hk
      split at hstep
      · split at hstep
        · exact absurd hstep (by simp)
        · rename_i s hs
          simp only [Option.some.injEq] at hstep
          subst hstep
          obtain ⟨i, g, -, -, rfl⟩ := action_leave_some hs
          exact later_of_set hk stage.gone (by simp) _ (by simp)
      · exact absurd hstep (by simp)

theorem run_later {cfg : config} {evs : List event} {sys : server}
    (hrun : run cfg evs = some sys) (more : List event) :
    ∀ sys2, run cfg (evs ++ more) = some sys2 → later_of sys sys2 := by
  induction more using List.reverseRecOn with
  | nil =>
    intro sys2 h2
    rw [List.append_nil, hrun] at h2
    simp only [Option.some.injEq] at h2
    subst h2
    exact later_of_refl sys
  | append_singleton more e ih =>
    intro sys2 h2
    rw [← List.append_assoc, run_snoc] at h2
    cases hprev : run cfg (evs ++ more) with
    | none => rw [hprev] at h2; exact absurd h2 (by simp)
    | some sys1 =>
      rw [hprev] at h2
      simp only [Option.some_bind] at h2
      exact later_of_trans (ih sys1 hprev) (step_later h2)

theorem action_leave_of_get (cfg : config) {s : shm_t} (cl : Int) {i : Nat} {g : game_t}
    (h : s.game[i]? = some g) :
    action_leave cfg s cl ((i : Int) + 1)
      = some { s with game := s.game.set i (departed cfg cl g) } := by
  have hlt := getElem?_lt h
  unfold action_leave remove_player
  rw [get_game_succ, h]
  simp only
  rw [put_game_succ, get_game_succ]
  simp only [List.getElem?_set_self hlt]
  rw [put_game_succ]
  simp [departed]

theorem clear_slots_one {cap cl : Int} {ps : List Int} {x : Nat}
    (hnd : ((ps.take cap.toNat).filter (fun p => p != 0)).Nodup) (hcl : cl ≠ 0)
    (hx : x < cap.toNat) (hp : ps[x]? = some cl) :
    clear_slots cap cl ps = ps.set x 0 := by
  have hxl := getElem?_lt hp
  have hget : ps.getD x 0 = cl := by rw [List.getD_eq_getElem?_getD, hp]; rfl
  obtain ⟨A, B, h1, -, hA⟩ := take_set_split ps x cap.toNat 0 hxl hx
  rw [hget] at h1
  rw [h1] at hnd
  have hcl2 : (cl != 0) = true := by simpa using hcl
  simp only [List.filter_append, List.filter_cons, hcl2, if_true] at hnd
  rw [List.nodup_middle, List.nodup_cons] at hnd
  have hnot := hnd.1
  simp only [List.mem_append, List.mem_filter, not_or, not_and] at hnot
  have hnA : cl ∉ A := fun hc => hnot.1 hc hcl2
  have hnB : cl ∉ B := fun hc => hnot.2 hc hcl2
  apply List.ext_getElem?
  intro y
  unfold clear_slots
  rw [clear_slots_getElem?]
  by_cases hyx : y = x
  · subst hyx
    rw [if_pos hx, hp, List.getElem?_set_self hxl]
    simp
  · rw [List.getElem?_set_ne (Ne.symm hyx)]
    by_cases hy : y < cap.toNat
    · rw [if_pos hy]
      cases hpy : ps[y]? with
      | none => rfl
      | some p =>
        have hne : p ≠ cl := by
          intro hpc
          have hty : (ps.take cap.toNat)[y]? = some cl := by
            rw [List.getElem?_take_of_lt hy, hpy, hpc]
          rw [h1] at hty
          by_cases hya : y < A.length
          · rw [List.getElem?_append_left hya] at hty
            exact hnA (List.getElem?_mem hty)
          · rw [List.getElem?_append_right (by omega)] at hty
            have hpos : y - A.length ≠ 0 := by omega
            obtain ⟨z, hz⟩ := Nat.exists_eq_succ_of_ne_zero hpos
            rw [hz, List.getElem?_cons_succ] at hty
            exact hnB (List.getElem?_mem hty)
        simp [hne]
    · rw [if_neg hy]

theorem zip_set_take (ps : List Int) (ns : List (List Char)) (x n : Nat) (nm : List Char)
    (hn : ns[x]? = some nm) (hx : x < ps.length) :
    ((ps.set x 0).zip ns).take n = ((ps.zip ns).take n).set x (0, nm) := by
  have hxn := getElem?_lt hn
  apply List.ext_getElem?
  intro y
  by_cases hy : y < n
  · rw [List.getElem?_take_of_lt hy]
    by_cases hyx : x = y
    · subst hyx
      rw [List.getElem?_set_self (by simp; omega), List.zip_eq_zipWith, List.getElem?_zipWith,
        List.getElem?_set_self hx, hn]
    · rw [List.getElem?_set_ne hyx, List.getElem?_take_of_lt hy]
      simp only [List.zip_eq_zipWith, List.getElem?_zipWith]
      rw [List.getElem?_set_ne hyx]
  · rw [List.getElem?_eq_none (by simp; omega), List.getElem?_eq_none (by simp; omega)]

theorem listing_removed (L : List (Int × List Char)) (x : Nat) (c : Int) (nm : List Char)
    (hc : c ≠ 0) (hL : L[x]? = some (c, nm)) :
    ∃ before after,
      (L.filter (fun pn => pn.1 != 0)).map (fun pn => pn.2) = before ++ nm :: after ∧
      ((L.set x (0, nm)).filter (fun pn => pn.1 != 0)).map (fun pn => pn.2) = before ++ after := by
  have hx := getElem?_lt hL
  have hget : L[x] = (c, nm) := by
    rw [List.getElem?_eq_getElem hx] at hL
    exact Option.some.inj hL
  have hsplit : L = L.take x ++ (c, nm) :: L.drop (x + 1) := by
    rw [← hget, ← List.drop_eq_getElem_cons hx, List.take_append_drop]
  have hset : L.set x (0, nm) = L.take x ++ (0, nm) :: L.drop (x + 1) := by
    rw [List.set_eq_take_append_cons_drop, if_pos hx]
  have hc2 : (c != 0) = true := by simpa using hc
  refine ⟨((L.take x).filter (fun pn => pn.1 != 0)).map (fun pn => pn.2),
    ((L.drop (x + 1)).filter (fun pn => pn.1 != 0)).map (fun pn => pn.2), ?_, ?_⟩
  · conv_lhs => rw [hsplit]
    simp [List.filter_append, List.filter_cons, hc2]
  · rw [hset]
    simp [List.filter_append, List.filter_cons]

/-- C11: for capacity at least 1, in every state the server reaches from
`init_server` by approvals with fresh non-zero handles, starts, chats and
departures, the departure of a chatting worker is defined and changes its game
`g` only: exactly one slot `x` below the capacity holds the worker's file
descriptor, with the worker's name in `names`, and after `remove_player` and
`g->active--` that slot is 0 and `active` is one less, while the inventory and
the names of the game, every other slot, every other game, the mailbox and the
number of games stay as they were. The game left is older than the newest one,
so every `insert_player` that approves in any later state returns the newest
game and never the game left; and `show_info` then prints the names it printed
before without the entry of slot `x`. -/
theorem leave_clears_one_slot (cfg : config) (evs : List event) (sys : server) (w : Nat)
    (k : worker) (hcap : 1 ≤ cfg.maxplayers) (hnd : (handles evs).Nodup)
    (hnz : (0 : Int) ∉ handles evs) (hrun : run cfg evs = some sys)
    (hk : sys.workers[w]? = some k) (hchat : k.at_stage = stage.chatting) :
    ∃ (i : Nat) (g g1 : game_t) (x : Nat) (s1 : shm_t) (sys1 : server),
      k.game_number = (i : Int) + 1 ∧ sys.shm.game[i]? = some g ∧
      x < cfg.maxplayers.toNat ∧ g.players[x]? = some k.cl ∧ g.names[x]? = some k.name ∧
      action_leave cfg sys.shm k.cl k.game_number = some s1 ∧
      step cfg sys (event.hangup w) = some sys1 ∧ sys1.shm = s1 ∧
      s1.game = sys.shm.game.set i g1 ∧ s1.message = sys.shm.message ∧
      s1.client = sys.shm.client ∧ s1.gamenum = sys.shm.gamenum ∧
      g1.players = g.players.set x 0 ∧ g1.active = g.active - 1 ∧
      g1.inv = g.inv ∧ g1.names = g.names ∧
      s1.game_num = sys.shm.game_num ∧ k.game_number < s1.game_num ∧
      (cfg.maxplayers ≤ (MAX : Int) → ∃ before after,
        show_players cfg g = before ++ k.name :: after ∧
        show_players cfg g1 = before ++ after) ∧
      ∀ (more : List event) (sys2 : server),
        run cfg (evs ++ [event.hangup w] ++ more) = some sys2 →
        ∀ (cl : Int) (recvd : List Char) (gn : Int) (nm : List Char) (s3 : shm_t),
          insert_player cfg sys2.shm cl recvd = Outcome.admitted gn nm s3 →
          gn = sys2.shm.game_num ∧ k.game_number < gn := by
  have hs := seats_ok_run hcap evs sys hnd hnz hrun
  have hn := names_ok_run hcap evs sys hnd hnz hrun
  obtain ⟨-, -, h3, h4, -⟩ := hs
  obtain ⟨b1, -, -, b4⟩ := h4 w k hk
  obtain ⟨i, g, x, hj, hg, hx, hp, hnm⟩ := hn w k hk (by rw [hchat]; simp)
  obtain ⟨q1, q2, q3, q4, -, -, -⟩ := h3 i g hg
  have hmem : k.cl ∈ g.players.take cfg.maxplayers.toNat := by
    have : (g.players.take cfg.maxplayers.toNat)[x]? = some k.cl := by
      rw [List.getElem?_take_of_lt hx, hp]
    exact List.getElem?_mem this
  obtain ⟨-, d2, -, -, -, -⟩ := depart_slots q1 q3 q4 b1 hmem
  have hclear : (departed cfg k.cl g).players = g.players.set x 0 := by
    simp only [departed]
    exact clear_slots_one q4 b1 hx hp
  have hleave := action_leave_of_get cfg k.cl hg
  rw [← hj] at hleave
  have hold := b4 hchat
  have hstep : step cfg sys (event.hangup w)
      = some { sys with shm := { sys.shm with game := sys.shm.game.set i (departed cfg k.cl g) },
                        workers := sys.workers.set w { k with at_stage := stage.gone } } := by
    simp only [step, hk, hchat, hleave, if_true]
  refine ⟨i, g, departed cfg k.cl g, x, _, _, hj, hg, hx, hp, hnm, hleave, hstep, rfl, rfl, rfl,
    rfl, rfl, hclear, d2, rfl, rfl, ?_, ?_, ?_, ?_⟩
  · unfold shm_t.game_num
    simp
  · unfold shm_t.game_num at hold ⊢
    simp only [List.length_set]
    exact hold
  · intro hmax
    have hcapn : cfg.maxplayers.toNat ≤ 16 := by
      have : (MAX : Int) = 16 := rfl
      omega
    have hM : MAX = 16 := rfl
    have e1 := show_players_eq g.players g.names cfg.maxplayers.toNat (by omega) (by omega)
    have e2 := show_players_eq (g.players.set x 0) g.names cfg.maxplayers.toNat
      (by rw [List.length_set]; omega) (by omega)
    have hL : ((g.players.zip g.names).take cfg.maxplayers.toNat)[x]? = some (k.cl, k.name) := by
      rw [List.getElem?_take_of_lt hx, List.zip_eq_zipWith, List.getElem?_zipWith, hp, hnm]
    obtain ⟨before, after, r1, r2⟩ := listing_removed _ x k.cl k.name b1 hL
    refine ⟨before, after, ?_, ?_⟩
    · unfold show_players
      rw [e1]
      exact r1
    · unfold show_players
      rw [hclear]
      simp only [departed]
      rw [e2, zip_set_take g.players g.names x cfg.maxplayers.toNat k.name hnm (getElem?_lt hp)]
      exact r2
  · intro more sys2 h2 cl recvd gn nm s3 hin
    have hrun1 : run cfg (evs ++ [event.hangup w])
        = some { sys with shm := { sys.shm with game := sys.shm.game.set i (departed cfg k.cl g) },
                          workers := sys.workers.set w { k with at_stage := stage.gone } } := by
      rw [run_snoc, hrun]
      exact hstep
    have hl := (run_later hrun1 more sys2 h2).1
    simp only [List.length_set] at hl
    obtain ⟨r, -, -, hsec⟩ := insert_player_admitted hin
    obtain ⟨pre, g2, -, -, -, -, -, -, hgn, -, -⟩ := insert_section_admitted hsec
    refine ⟨hgn, ?_⟩
    rw [hgn]
    unfold shm_t.game_num at hold ⊢
    omega

/-- Scenario D as an instance of `leave_clears_one_slot`: X leaves the first
game of scenario A after saying hello. -/
theorem leave_clears_one_slot_witness :
    (1 : Int) ≤ scenario_cfg.maxplayers ∧ (handles (scenario_events.take 6)).Nodup ∧
    (0 : Int) ∉ handles (scenario_events.take 6) ∧
    run scenario_cfg (scenario_events.take 6) = some scenario_said ∧
    scenario_said.workers[0]?
      = some { cl := 4, game_number := 1, name := ['X'], at_stage := stage.chatting } ∧
    action_leave scenario_cfg scenario_said.shm 4 1 = some scenario_end.shm ∧
    show_players scenario_cfg scenario_game = [['Z']] ∧
    ∃ (i : Nat) (g g1 : game_t) (x : Nat) (s1 : shm_t) (sys1 : server),
      (1 : Int) = (i : Int) + 1 ∧ scenario_said.shm.game[i]? = some g ∧
      x < scenario_cfg.maxplayers.toNat ∧ g.players[x]? = some 4 ∧ g.names[x]? = some ['X'] ∧
      action_leave scenario_cfg scenario_said.shm 4 1 = some s1 ∧
      step scenario_cfg scenario_said (event.hangup 0) = some sys1 ∧ sys1.shm = s1 ∧
      s1.game = scenario_said.shm.game.set i g1 ∧ s1.message = scenario_said.shm.message ∧
      s1.client = scenario_said.shm.client ∧ s1.gamenum = scenario_said.shm.gamenum ∧
      g1.players = g.players.set x 0 ∧ g1.active = g.active - 1 ∧
      g1.inv = g.inv ∧ g1.names = g.names ∧
      s1.game_num = scenario_said.shm.game_num ∧ 1 < s1.game_num ∧
      (scenario_cfg.maxplayers ≤ (MAX : Int) → ∃ before after,
        show_players scenario_cfg g = before ++ ['X'] :: after ∧
        show_players scenario_cfg g1 = before ++ after) ∧
      ∀ (more : List event) (sys2 : server),
        run scenario_cfg (scenario_events.take 6 ++ [event.hangup 0] ++ more) = some sys2 →
        ∀ (cl : Int) (recvd : List Char) (gn : Int) (nm : List Char) (s3 : shm_t),
          insert_player scenario_cfg sys2.shm cl recvd = Outcome.admitted gn nm s3 →
          gn = sys2.shm.game_num ∧ 1 < gn :=
  ⟨by decide, by decide, by decide, by decide, by decide, by decide, by decide,
   leave_clears_one_slot scenario_cfg (scenario_events.take 6) scenario_said 0
     { cl := 4, game_number := 1, name := ['X'], at_stage := stage.chatting }
     (by decide) (by decide) (by decide) (by decide) (by decide) rfl⟩

/-- C19 (code at the failing input): in scenario A the first game is full once
Z is approved (the test `g->active < maxplayers` of the waiting loop reports
the start), and after X has left it the same test reports that the game has
not started. In the variant where X sees the start and leaves before Z has
tested, Z, approved into a game that filled, finds the test false at every
later poll: it stays in the loop `while(g->active < maxplayers)` and is never
sent `START`. -/
theorem full_test_not_sticky :
    run scenario_cfg (scenario_events.take 3) = some scenario_full ∧
    game_full scenario_cfg scenario_full.shm 1 = true ∧
    run scenario_cfg scenario_events = some scenario_end ∧
    game_full scenario_cfg scenario_end.shm 1 = false ∧
    scenario_stuck_events.take 3 = scenario_events.take 3 ∧
    run scenario_cfg scenario_stuck_events = some scenario_stuck ∧
    game_full scenario_cfg scenario_stuck.shm 1 = false ∧
    step scenario_cfg scenario_stuck (event.poll 1) = some scenario_stuck := by
  decide

/-- What stays true of a game that was full (supporting C19): for capacity at
least 1, once the test of the waiting loop has reported a game full in a state
the server reaches from `init_server`, in every later state that game is older
than the newest game, no `insert_player` that approves returns its number, and
every worker that had left the waiting loop is still past it, with the same
game number. -/
theorem started_never_reopens (cfg : config) (evs more : List event) (sys sys2 : server)
    (j : Int) (hcap : 1 ≤ cfg.maxplayers) (hrun : run cfg evs = some sys)
    (hfull : game_full cfg sys.shm j = true)
    (hlater : run cfg (evs ++ more) = some sys2) :
    j < sys2.shm.game_num ∧
    (∀ (cl : Int) (recvd : List Char) (gn : Int) (nm : List Char) (s3 : shm_t),
      insert_player cfg sys2.shm cl recvd = Outcome.admitted gn nm s3 →
      gn = sys2.shm.game_num ∧ gn ≠ j) ∧
    ∀ (w : Nat) (k : worker), sys.workers[w]? = some k → k.at_stage ≠ stage.waiting →
      ∃ k2, sys2.workers[w]? = some k2 ∧ k2.cl = k.cl ∧ k2.game_number = k.game_number ∧
        k2.at_stage ≠ stage.waiting := by
  have hopen := open_ok_run hcap evs sys hrun
  have hold : j < sys.shm.game_num := @open_full_older cfg sys j hopen hfull
  obtain ⟨hl, hw⟩ := run_later hrun more sys2 hlater
  have hj2 : j < sys2.shm.game_num := by
    unfold shm_t.game_num at hold ⊢
    omega
  refine ⟨hj2, ?_, ?_⟩
  · intro cl recvd gn nm s3 hin
    obtain ⟨r, -, -, hsec⟩ := insert_player_admitted hin
    obtain ⟨pre, g2, -, -, -, -, -, -, hgn, -, -⟩ := insert_section_admitted hsec
    refine ⟨hgn, ?_⟩
    rw [hgn]
    omega
  · intro w k hk hst
    obtain ⟨k2, hk2, p1, p2, -, p4⟩ := hw w k hk
    exact ⟨k2, hk2, p1, p2, p4 hst⟩

/-- Scenario A as an instance of `started_never_reopens`: the first game is
full after Z's approval and stays older than the newest game to the end. -/
theorem started_never_reopens_witness :
    (1 : Int) ≤ scenario_cfg.maxplayers ∧
    run scenario_cfg (scenario_events.take 3) = some scenario_full ∧
    game_full scenario_cfg scenario_full.shm 1 = true ∧
    run scenario_cfg (scenario_events.take 3 ++ scenario_events.drop 3) = some scenario_end ∧
    ((1 : Int) < scenario_end.shm.game_num ∧
    (∀ (cl : Int) (recvd : List Char) (gn : Int) (nm : List Char) (s3 : shm_t),
      insert_player scenario_cfg scenario_end.shm cl recvd = Outcome.admitted gn nm s3 →
      gn = scenario_end.shm.game_num ∧ gn ≠ 1) ∧
    ∀ (w : Nat) (k : worker), scenario_full.workers[w]? = some k → k.at_stage ≠ stage.waiting →
      ∃ k2, scenario_end.workers[w]? = some k2 ∧ k2.cl = k.cl ∧
        k2.game_number = k.game_number ∧ k2.at_stage ≠ stage.waiting) :=
  ⟨by decide, by decide, by decide, by decide,
   started_never_reopens scenario_cfg (scenario_events.take 3) (scenario_events.drop 3)
     scenario_full scenario_end 1 (by decide) (by decide) (by decide) (by decide)⟩

/-- C18 (code at the failing input): the registration X, gold:2147483647,
gold:2147483647 (34 bytes) asks 4294967294 units of gold, but the array `temp`
and the total `sum` that `insert_player` compares hold -2, because the
additions wrap around in `int` arithmetic; the request passes both tests, is
approved, and the live quantity of gold goes up from 5 to 7. -/
theorem request_sums_wrap :
    "X\ngold\t2147483647\ngold\t2147483647\n".toList.length = 34 ∧
    strtok (cstr ("X\ngold\t2147483647\ngold\t2147483647\n".toList.take MAXBUF))
      = [['X'], "gold\t2147483647".toList, "gold\t2147483647".toList] ∧
    sscanf_s_d "gold\t2147483647".toList = scanned.two "gold".toList 2147483647 ∧
    scan_request "X\ngold\t2147483647\ngold\t2147483647\n".toList
      = some { ok := true, name := ['X'], temp := [-2, 0, 0, 0, 0, 0], sum := -2 } ∧
    get_game scenario_b_shm scenario_b_shm.game_num = some (next_game [5, 5, 0, 0, 0, 0]) ∧
    insert_player scenario_b_cfg scenario_b_shm 4
        "X\ngold\t2147483647\ngold\t2147483647\n".toList
      = Outcome.admitted 1 ['X'] (scenario_b_seated ['X'] 7) := by
  decide

end ProcessesSemaphores

namespace ThreadsMutex
open LibC

/-- For every capacity from 1 to 16 the block allocated for `names` takes three
`char *` objects before the next chunk is touched. -/
theorem names_slots_eq (cfg : ProcessesSemaphores.config) (h1 : 1 ≤ cfg.maxplayers)
    (h16 : cfg.maxplayers ≤ 16) : names_slots cfg = 3 := by
  unfold names_slots chunk_size sizeof_char sizeof_pointer
  omega

/-- C15 (code at the failing input): capacity 5, template gold:5, quota 10, and
ten connections (handles 4 to 13) that each send a name and no resource line,
served one after the other. Both realizations approve all ten, the first five
into game 1 and the next five into game 2, and create game 3. In the process
realization game 2 then has gold 5 and the other kinds 0. In the thread
realization the block behind `names` of game 2 takes three pointers and the
block of `inv` is the chunk right behind it, so the store to `g->names[4]` of
the tenth approval overwrites `inv[0]` and `inv[1]` of game 2: the quantities
of gold and armor of game 2 are the two halves of the address of J's name.
After nine players no entry of `inv` is overwritten yet. -/
theorem thread_names_store_hits_inventory :
    (ProcessesSemaphores.run ten_cfg
        (ten_players.map (fun p => ProcessesSemaphores.event.connect p.1 p.2))).map
        (fun sys => sys.workers.map (fun k => k.game_number))
      = some [1, 1, 1, 1, 1, 2, 2, 2, 2, 2] ∧
    (ProcessesSemaphores.run ten_cfg
        (ten_players.map (fun p => ProcessesSemaphores.event.connect p.1 p.2))).map
        (fun sys => sys.shm.game.map (fun g => g.inv))
      = some [[5, 0, 0, 0, 0, 0], [5, 0, 0, 0, 0, 0], [5, 0, 0, 0, 0, 0]] ∧
    (ProcessesSemaphores.run ten_cfg
        (ten_players.map (fun p => ProcessesSemaphores.event.connect p.1 p.2))).map
        (fun sys => sys.shm.game.map (fun g => g.active))
      = some [5, 5, 0] ∧
    init_server ten_cfg = some { game := [first_game ten_cfg [5, 0, 0, 0, 0, 0]] } ∧
    names_slots ten_cfg = 3 ∧
    ((init_server ten_cfg).bind (fun s => admit_all ten_cfg s ten_players)).map (fun p => p.1)
      = some [some 1, some 1, some 1, some 1, some 1, some 2, some 2, some 2, some 2, some 2] ∧
    ((init_server ten_cfg).bind (fun s => admit_all ten_cfg s ten_players)).map
        (fun p => p.2.game.map (fun g => g.active))
      = some [5, 5, 0] ∧
    ((init_server ten_cfg).bind (fun s => admit_all ten_cfg s ten_players)).map
        (fun p => p.2.game.map (fun g => g.names))
      = some [[some ['A'], some ['B'], some ['C'], some ['D'], some ['E']],
              [some ['F'], some ['G'], some ['H'], some ['I'], some ['J']],
              [none, none, none, none, none]] ∧
    ((init_server ten_cfg).bind (fun s => admit_all ten_cfg s (ten_players.take 9))).map
        (fun p => p.2.game.map (fun g => g.stray))
      = some [[], []] ∧
    ((init_server ten_cfg).bind (fun s => admit_all ten_cfg s ten_players)).map
        (fun p => p.2.game.map (fun g => g.stray))
      = some [[], [0, 1], []] := by
  decide

end ThreadsMutex

namespace ProcessesSemaphores
open LibC

theorem cleared_subset (cfg : config) (cl : Int) (g : game_t) :
    ∀ h ∈ (departed cfg cl g).players.take cfg.maxplayers.toNat, h ≠ 0 →
      h ∈ g.players.take cfg.maxplayers.toNat := by
  intro h hh h0
  simp only [departed] at hh
  rw [clear_slots_take, List.mem_map] at hh
  obtain ⟨q, hq, hqp⟩ := hh
  by_cases hqc : q = cl
  · rw [if_pos hqc] at hqp
    exact absurd hqp.symm h0
  · rw [if_neg hqc] at hqp
    rw [← hqp]
    exact hq

theorem blank_no_handle (cfg : config) (inv : List Int) :
    ∀ h ∈ (next_game inv).players.take cfg.maxplayers.toNat, h = 0 := by
  intro h hh
  have := List.mem_of_mem_take hh
  simp only [next_game, blank_game] at this
  exact List.eq_of_mem_replicate this

theorem apart_step {cfg : config} {used : List Int} {sys sys1 : server} {e : event}
    (hs : seats_ok cfg used sys) (hfresh : ∀ c ∈ handles [e], c ≠ 0 ∧ c ∉ used)
    (h : sys.shm.game.Pairwise (fun g g1 => ∀ h ∈ g.players.take cfg.maxplayers.toNat, h ≠ 0 →
      h ∉ g1.players.take cfg.maxplayers.toNat))
    (hstep : step cfg sys e = some sys1) :
    sys1.shm.game.Pairwise (fun g g1 => ∀ h ∈ g.players.take cfg.maxplayers.toNat, h ≠ 0 →
      h ∉ g1.players.take cfg.maxplayers.toNat) := by
  obtain ⟨-, -, h3, h4, -⟩ := hs
  cases e with
  | connect cl recvd =>
    have hc := hfresh cl (by simp [handles])
    simp only [step] at hstep
    split at hstep
    · rename_i gn nm s hin
      simp only [Option.some.injEq] at hstep
      subst hstep
      obtain ⟨r, -, -, hsec⟩ := insert_player_admitted hin
      obtain ⟨pre, g, hpre, -, -, -, ha0, ha16, -, -, hs1⟩ := insert_section_admitted hsec
      have hlen : sys.shm.game.length = pre.length + 1 := by rw [hpre]; simp
      have hlast : sys.shm.game[pre.length]? = some g := by
        rw [hpre]; exact List.getElem?_concat_length _ _
      obtain ⟨q1, -, q3, -, -, q6, -⟩ := h3 pre.length g hlast
      obtain ⟨hlt, hfill⟩ := q6 (by omega)
      obtain ⟨-, -, t3, -, -, -, -⟩ := seat_slots r q1 q3 hlt hfill ha16 hc.1
      rw [hpre, List.pairwise_append] at h
      obtain ⟨hP, -, hcross⟩ := h
      have hused : ∀ a ∈ pre, ∀ p ∈ a.players.take cfg.maxplayers.toNat, p ≠ 0 → p ∈ used := by
        intro a ha p hp hp0
        obtain ⟨i, hi⟩ := List.getElem?_of_mem ha
        have hia : sys.shm.game[i]? = some a := by
          rw [hpre, List.getElem?_append_left (getElem?_lt hi)]
          exact hi
        exact (h3 i a hia).2.2.2.2.1 p hp hp0
      have hseat : (pre ++ [seat g cl r]).Pairwise
          (fun g g1 => ∀ h ∈ g.players.take cfg.maxplayers.toNat, h ≠ 0 →
            h ∉ g1.players.take cfg.maxplayers.toNat) := by
        rw [List.pairwise_append]
        refine ⟨hP, List.pairwise_singleton _ _, ?_⟩
        intro a ha b hb p hp hp0 hpb
        rw [List.mem_singleton] at hb
        subst hb
        rcases t3 p hpb with hpc | hpg
        · exact hc.2 (hpc ▸ hused a ha p hp hp0)
        · exact hcross a ha g (List.mem_singleton.mpr rfl) p hp hp0 hpg
      rcases hs1 with ⟨-, inv, -, rfl⟩ | ⟨-, rfl⟩
      · simp only
        rw [List.pairwise_append]
        refine ⟨hseat, List.pairwise_singleton _ _, ?_⟩
        intro a _ b hb p _ hp0 hpb
        rw [List.mem_singleton] at hb
        subst hb
        exact hp0 (blank_no_handle cfg inv p hpb)
      · exact hseat
    · rename_i nm s hin
      simp only [Option.some.injEq] at hstep
      subst hstep
      rw [insert_player_rejected hin]
      exact h
    · rename_i s hin
      simp only [Option.some.injEq] at hstep
      subst hstep
      rw [insert_player_closed hin]
      exact h
    · exact absurd hstep (by simp)
  | poll w =>
    simp only [step] at hstep
    split at hstep
    · exact absurd hstep (by simp)
    · split at hstep
      · split at hstep
        · simp only [Option.some.injEq] at hstep
          subst hstep
          exact h
        · simp only [Option.some.injEq] at hstep
          subst hstep
          exact h
      · exact absurd hstep (by simp)
  | say w recvd =>
    simp only [step] at hstep
    split at hstep
    · exact absurd hstep (by simp)
    · split at hstep
      · split at hstep
        · exact absurd hstep (by simp)
        · rename_i s hs
          simp only [Option.some.injEq] at hstep
          subst hstep
          unfold action_chat at hs
          split at hs
          · exact absurd hs (by simp)
          · simp only [Option.some.injEq] at hs
            subst hs
            exact h
      · exact absurd hstep (by simp)
  | hangup w =>
    simp only [step] at hstep
    split at hstep
    · exact absurd hstep (by simp)
    · rename_i k hk
      split at hstep
      · split at hstep
        · exact absurd hstep (by simp)
        · rename_i s hs
          simp only [Option.some.injEq] at hstep
          subst hstep
          obtain ⟨i, g, -, hg, rfl⟩ := action_leave_some hs
          have hi := getElem?_lt hg
          have hgi : sys.shm.game[i] = g := by
            rw [List.getElem?_eq_getElem hi] at hg
            exact Option.some.inj hg
          have hsplit : sys.shm.game = sys.shm.game.take i ++ g :: sys.shm.game.drop (i + 1) := by
            rw [← hgi, ← List.drop_eq_getElem_cons hi, List.take_append_drop]
          have hsub := cleared_subset cfg k.cl g
          simp only
          rw [List.set_eq_take_append_cons_drop, if_pos hi]
          rw [hsplit, List.pairwise_append, List.pairwise_cons] at h
          obtain ⟨hA, ⟨hgB, hB⟩, hAB⟩ := h
          rw [List.pairwise_append, List.pairwise_cons]
          refine ⟨hA, ⟨?_, hB⟩, ?_⟩
          · intro b hb p hp hp0
            exact hgB b hb p (hsub p hp hp0) hp0
          · intro a ha b hb p hp hp0 hpb
            rw [List.mem_cons] at hb
            rcases hb with rfl | hb
            · exact hAB a ha g (List.mem_cons_self _ _) p hp hp0 (hsub p hpb hp0)
            · exact hAB a ha b (List.mem_cons_of_mem _ hb) p hp hp0 hpb
      · exact absurd hstep (by simp)

/-- In every state the server reaches from `init_server` by approvals with
fresh non-zero handles, starts, chats and departures, the handles stored in
the slots are unique: within a game and across the games. -/
theorem handles_unique_run {cfg : config} (hcap : 1 ≤ cfg.maxplayers) (evs : List event) :
    ∀ sys, (handles evs).Nodup → (0 : Int) ∉ handles evs → run cfg evs = some sys →
      handles_unique cfg sys.shm := by
  induction evs using List.reverseRecOn with
  | nil =>
    intro sys _ _ hrun
    have hs := seats_ok_boot hcap hrun
    refine ⟨?_, ?_⟩
    · intro g hg
      obtain ⟨i, hi⟩ := List.getElem?_of_mem hg
      exact (hs.2.2.1 i g hi).2.2.2.1
    · have hb : boot cfg = some sys := hrun
      unfold boot init_server at hb
      split at hb
      · exact absurd hb (by simp)
      · rename_i s hsb
        split at hsb
        · exact absurd hsb (by simp)
        · simp only [Option.some.injEq] at hsb hb
          subst hsb
          subst hb
          exact List.pairwise_singleton _ _
  | append_singleton evs e ih =>
    intro sys hnd hnz hrun
    have hs := seats_ok_run hcap (evs ++ [e]) sys hnd hnz hrun
    rw [run_snoc] at hrun
    cases hprev : run cfg evs with
    | none => rw [hprev] at hrun; exact absurd hrun (by simp)
    | some sys0 =>
      rw [hprev] at hrun
      simp only [Option.some_bind] at hrun
      rw [handles_append] at hnd hnz
      rw [List.nodup_append] at hnd
      have hnz0 : (0 : Int) ∉ handles evs := fun hc => hnz (List.mem_append_left _ hc)
      have h0 := ih sys0 hnd.1 hnz0 hprev
      have hs0 := seats_ok_run hcap evs sys0 hnd.1 hnz0 hprev
      refine ⟨?_, ?_⟩
      · intro g hg
        obtain ⟨i, hi⟩ := List.getElem?_of_mem hg
        exact (hs.2.2.1 i g hi).2.2.2.1
      · refine apart_step hs0 ?_ h0.2 hrun
        intro c hc
        exact ⟨fun hz => hnz (List.mem_append_right _ (hz ▸ hc)), fun hu => hnd.2.2 hu hc⟩

end ProcessesSemaphores

namespace ThreadsMutex
open LibC

set_option maxRecDepth 100000 in
/-- C16 (code at the failing input): two calls of `insert_player` of the
thread realization, for X, gold:1 on the handle 4 and Y, gold:9 on the handle
5, with 5 units of gold in stock. Run one after the other, in either order, X
is approved and takes 1 unit and Y is disapproved, as the function computes
for each registration alone. When the first `strtok` of the second call falls
between the first and the second `strtok` of the first call, the static
pointer of `strtok` makes the first call read the resource line of the second:
X is disapproved, Y is approved with an empty request, and no gold is taken,
which is the result of no serial order. -/
theorem strtok_race_swaps_requests :
    init_server race_cfg = some race_start.shared ∧
    insert_player race_cfg race_start.shared 4 "X\ngold\t1\n".toList
      = Outcome.admitted 1 ['X'] { game := [race_game 4 4 ['X']] } ∧
    insert_player race_cfg { game := [race_game 4 4 ['X']] } 5 "Y\ngold\t9\n".toList
      = Outcome.rejected ['Y'] { game := [race_game 4 4 ['X']] } ∧
    insert_player race_cfg race_start.shared 5 "Y\ngold\t9\n".toList
      = Outcome.rejected ['Y'] race_start.shared ∧
    (run_schedule race_cfg race_start [0, 0, 0, 0, 1, 1, 1, 1]).map results
      = some [some (Outcome.admitted 1 ['X'] { game := [race_game 4 4 ['X']] }),
              some (Outcome.rejected ['Y'] { game := [race_game 4 4 ['X']] })] ∧
    (run_schedule race_cfg race_start [1, 1, 1, 1, 0, 0, 0, 0]).map results
      = some [some (Outcome.admitted 1 ['X'] { game := [race_game 4 4 ['X']] }),
              some (Outcome.rejected ['Y'] race_start.shared)] ∧
    (run_schedule race_cfg race_start [0, 1]).map (fun m => m.olds)
      = some (some { owner := 1, offset := 2 }) ∧
    (run_schedule race_cfg race_start [0, 1, 0]).map
        (fun m => (m.frames.map (fun f => f.line), string_at m.frames { owner := 1, offset := 2 }))
      = some ([some { owner := 1, offset := 2 }, some { owner := 1, offset := 0 }],
              some "gold\t9".toList) ∧
    (run_schedule race_cfg race_start [0, 1, 0, 1, 0, 0, 1]).map results
      = some [some (Outcome.rejected ['X'] race_start.shared),
              some (Outcome.admitted 1 ['Y'] { game := [race_game 5 5 ['Y']] })] := by
  decide

end ThreadsMutex

namespace ProcessesSemaphores
open LibC

/-- C1 (code at the failing input): capacity 2, quota 10, template gold:5.
The registration X, gold:2147483647, gold:2147483647 is approved with
`temp[0]` wrapped to -2, so the deduction `g->inv[0] -= temp[0]` raises the
live quantity of gold from 5 to 7, above the template. The registration Y,
gold:7 is then approved from the same game and is granted 7 units of gold, 2
more than the 5 units of the template; the live quantity ends at 0. -/
theorem oversell_after_wrapped_request :
    init_server scenario_cfg
      = some { game := [next_game [5, 0, 0, 0, 0, 0]], message := [], client := 0, gamenum := 0 } ∧
    scan_request "X\ngold\t2147483647\ngold\t2147483647\n".toList
      = some { ok := true, name := ['X'], temp := [-2, 0, 0, 0, 0, 0], sum := -2 } ∧
    scan_request "Y\ngold\t7\n".toList
      = some { ok := true, name := ['Y'], temp := [7, 0, 0, 0, 0, 0], sum := 7 } ∧
    (run scenario_cfg [event.connect 4 "X\ngold\t2147483647\ngold\t2147483647\n".toList]).map
        (fun sys => sys.shm.game.map (fun g => g.inv))
      = some [[7, 0, 0, 0, 0, 0]] ∧
    (run scenario_cfg [event.connect 4 "X\ngold\t2147483647\ngold\t2147483647\n".toList]).map
        (fun sys => sys.approved)
      = some [(1, [-2, 0, 0, 0, 0, 0])] ∧
    (run scenario_cfg [event.connect 4 "X\ngold\t2147483647\ngold\t2147483647\n".toList,
        event.connect 5 "Y\ngold\t7\n".toList]).map
        (fun sys => sys.shm.game.map (fun g => g.inv))
      = some [[0, 0, 0, 0, 0, 0], [5, 0, 0, 0, 0, 0]] ∧
    (run scenario_cfg [event.connect 4 "X\ngold\t2147483647\ngold\t2147483647\n".toList,
        event.connect 5 "Y\ngold\t7\n".toList]).map
        (fun sys => sys.shm.game.map (fun g => g.players.take 2))
      = some [[4, 5], [0, 0]] ∧
    (run scenario_cfg [event.connect 4 "X\ngold\t2147483647\ngold\t2147483647\n".toList,
        event.connect 5 "Y\ngold\t7\n".toList]).map
        (fun sys => sys.approved)
      = some [(1, [-2, 0, 0, 0, 0, 0]), (1, [7, 0, 0, 0, 0, 0])] := by
  decide

/-- C9 (code at the failing input): quota 4, gold:5 and armor:5 in stock. The
lines gold:0 and gold:-1 are disapproved, as the test `num <= 0` says. The
line gold:-4294967295 carries an amount below 0 as well, but `%d` stores it in
the `int` as 1, so the registration is approved and one unit of gold is taken
(5 to 4). -/
theorem negative_amount_stored_positive :
    insert_player scenario_b_cfg scenario_b_shm 4 "X\ngold\t0\n".toList
      = Outcome.rejected ['X'] scenario_b_shm ∧
    insert_player scenario_b_cfg scenario_b_shm 4 "X\ngold\t-1\n".toList
      = Outcome.rejected ['X'] scenario_b_shm ∧
    sscanf_s_d "gold\t-4294967295".toList = scanned.two "gold".toList 1 ∧
    scan_request "X\ngold\t-4294967295\n".toList
      = some { ok := true, name := ['X'], temp := [1, 0, 0, 0, 0, 0], sum := 1 } ∧
    insert_player scenario_b_cfg scenario_b_shm 4 "X\ngold\t-4294967295\n".toList
      = Outcome.admitted 1 ['X'] (scenario_b_seated ['X'] 4) := by
  decide

end ProcessesSemaphores
